import Mathlib

/-!
# Student Finance Tracker: validation, repository, search, sorting, aggregation

A shallow embedding of `src/scripts/validators.js`, `src/scripts/state.js`,
`src/scripts/storage.js`, `src/scripts/search.js`, and of `sortRecords`
(`src/scripts/records.js`) and `updateCapStatus` (`src/scripts/dashboard.js`).

Modelling conventions
* A JavaScript string is a Lean `String`; its characters are `Char`s.  The
  regular expressions of the validators only use classes (`\s`, `\S`, `.`,
  `\d`, `\w`, literals) that treat both halves of a surrogate pair alike, so
  reading a pair as one character does not change any verdict.
* A JavaScript number is a `JSNumber`: a finite binary fraction `±m·2^e`, an
  infinity or NaN.  Decimal numerals are converted with round-to-nearest,
  ties-to-even, as `parseFloat` does, and every arithmetic operation rounds its
  exact result the same way.
* The wall clock and the local time zone are explicit inputs (`Host`).
* `localStorage` is an explicit component of the state; whether
  `localStorage.setItem` throws is an input of every operation that saves.
* Built-in functions of the host that the program calls and that are not
  modelled here (`RegExp`, `Number.prototype.toString`,
  `String.prototype.toLowerCase`) are parameters of the functions that call
  them.
-/

namespace FinanceTracker

/-! ## Characters -/

/-- Line terminators of ECMAScript: LF, CR, LS, PS. -/
def isLineTerminator (c : Char) : Bool :=
  c.toNat = 0x0A || c.toNat = 0x0D || c.toNat = 0x2028 || c.toNat = 0x2029

/-- White space in the sense of `String.prototype.trim` and of the class `\s`:
TAB, VT, FF, SP, NBSP, ZWNBSP, the category Zs, and the line terminators. -/
def isWhiteSpace (c : Char) : Bool :=
  c.toNat = 0x09 || c.toNat = 0x0B || c.toNat = 0x0C || c.toNat = 0x20 ||
  c.toNat = 0xA0 || c.toNat = 0x1680 || (0x2000 ≤ c.toNat && c.toNat ≤ 0x200A) ||
  c.toNat = 0x202F || c.toNat = 0x205F || c.toNat = 0x3000 || c.toNat = 0xFEFF ||
  isLineTerminator c

/-- The class `\d`. -/
def isDigit (c : Char) : Bool := 0x30 ≤ c.toNat && c.toNat ≤ 0x39

/-- The class `[A-Za-z]`. -/
def isLetter (c : Char) : Bool :=
  (0x41 ≤ c.toNat && c.toNat ≤ 0x5A) || (0x61 ≤ c.toNat && c.toNat ≤ 0x7A)

/-- The class `\w`, that is `[A-Za-z0-9_]`. -/
def isWordChar (c : Char) : Bool := isLetter c || isDigit c || c.toNat = 0x5F

/-- Value of a decimal digit character. -/
def digitVal (c : Char) : Nat := c.toNat - 0x30

/-- Case folding used by a case-insensitive match (flag `i`, no flag `u`): two
characters match when their upper-case forms have the same code.  Only the
ASCII letters are folded here: a character outside ASCII never folds to an
ASCII character, and the only back-reference of the program captures ASCII
word characters. -/
def canonCode (c : Char) : Nat :=
  if 0x61 ≤ c.toNat ∧ c.toNat ≤ 0x7A then c.toNat - 0x20 else c.toNat

/-! ## `String.prototype.trim` -/

/-- Removal of trailing white space. -/
def trimEnd (cs : List Char) : List Char :=
  (cs.reverse.dropWhile isWhiteSpace).reverse

/-- The characters of `s.trim()`. -/
def trimChars (cs : List Char) : List Char :=
  trimEnd (cs.dropWhile isWhiteSpace)

/-- The string `s.trim()`. -/
def trim (s : String) : String := ⟨trimChars s.data⟩

/-! ## Regular expressions

The regular expressions of the validators without back-references are written
as terms of `RE`; `RE.test` is the matcher (by derivatives) for the anchored
form `^r$` and `RE.Matches` is the language of `r`. -/

/-- Regular expressions over character classes. -/
inductive RE where
  | empty : RE
  | eps : RE
  | cls : (Char → Bool) → RE
  | seq : RE → RE → RE
  | alt : RE → RE → RE
  | star : RE → RE

namespace RE

/-- A literal character. -/
def lit (c : Char) : RE := cls (fun x => x = c)

/-- The quantifier `r?`. -/
def opt (r : RE) : RE := alt r eps

/-- The quantifier `r+`. -/
def plus (r : RE) : RE := seq r (star r)

/-- Whether `r` matches the empty string. -/
def nullable : RE → Bool
  | empty => false
  | eps => true
  | cls _ => false
  | seq a b => nullable a && nullable b
  | alt a b => nullable a || nullable b
  | star _ => true

/-- Derivative of `r` by the character `c`. -/
def deriv : RE → Char → RE
  | empty, _ => empty
  | eps, _ => empty
  | cls p, c => if p c then eps else empty
  | seq a b, c => if nullable a then alt (seq (deriv a c) b) (deriv b c) else seq (deriv a c) b
  | alt a b, c => alt (deriv a c) (deriv b c)
  | star a, c => seq (deriv a c) (star a)

/-- The test `/^r$/.test(cs)`. -/
def test (r : RE) : List Char → Bool
  | [] => nullable r
  | c :: cs => test (deriv r c) cs

/-- The language of a regular expression. -/
inductive Matches : RE → List Char → Prop
  | eps : Matches eps []
  | cls (p : Char → Bool) (c : Char) : p c = true → Matches (cls p) [c]
  | seq (a b : RE) (s t : List Char) : Matches a s → Matches b t → Matches (seq a b) (s ++ t)
  | altL (a b : RE) (s : List Char) : Matches a s → Matches (alt a b) s
  | altR (a b : RE) (s : List Char) : Matches b s → Matches (alt a b) s
  | starNil (a : RE) : Matches (star a) []
  | starCons (a : RE) (s t : List Char) :
      Matches a s → Matches (star a) t → Matches (star a) (s ++ t)

/-- The class `[^]` of all characters. -/
def anyChar : RE := cls (fun _ => true)

/-- The test `/r/.test(cs)` of an unanchored expression: a match may start and
end anywhere. -/
def search (r : RE) (cs : List Char) : Bool :=
  test (seq (star anyChar) (seq r (star anyChar))) cs

end RE

/-- The class `\d` as an expression. -/
def reDigit : RE := RE.cls isDigit

/-- The class `[1-9]`. -/
def reDigit19 : RE := RE.cls (fun c => 0x31 ≤ c.toNat && c.toNat ≤ 0x39)

/-! ## Numbers -/

/-- JavaScript numbers: `finite neg m e` is `±m·2^e` and is kept normalised
(`m` odd, or `m = 0` and `e = 0`); signed zeros are not distinguished. -/
inductive JSNumber where
  | finite (neg : Bool) (m : Nat) (e : Int) : JSNumber
  | posInf : JSNumber
  | negInf : JSNumber
  | nan : JSNumber
  deriving DecidableEq, Repr

namespace JSNumber

/-- The number zero. -/
def zero : JSNumber := finite false 0 0

/-- The rational value of a finite number. -/
def toRat : JSNumber → Option ℚ
  | finite neg m e => some ((if neg then -1 else 1) * (m : ℚ) * (2 : ℚ) ^ e)
  | _ => none

/-- Strictly positive numbers, `+Infinity` included. -/
def isPositive : JSNumber → Bool
  | finite neg m _ => !neg && decide (0 < m)
  | posInf => true
  | _ => false

/-- Floor of the binary logarithm (`0` at `0`); `fuel` bounds the recursion. -/
def log2Fuel : Nat → Nat → Nat
  | 0, _ => 0
  | fuel + 1, n => if n < 2 then 0 else log2Fuel fuel (n / 2) + 1

/-- Floor of the binary logarithm. -/
def log2 (n : Nat) : Nat := log2Fuel n n

/-- Removal of the trailing zero bits of a positive mantissa; `fuel` bounds
the recursion. -/
def normalizeFuel : Nat → Nat → Int → Nat × Int
  | 0, m, e => (m, e)
  | fuel + 1, m, e =>
    if m % 2 = 0 then normalizeFuel fuel (m / 2) (e + 1) else (m, e)

/-- The normalised non-negative finite number `m·2^e`. -/
def mkFinite (m : Nat) (e : Int) : JSNumber :=
  if m = 0 then zero else finite false (normalizeFuel m m e).1 (normalizeFuel m m e).2

/-- Rounding of the quotient `a / b` to an integer, ties to even. -/
def roundHalfEven (a b : Nat) : Nat :=
  let q := a / b
  let r := a % b
  if 2 * r < b then q
  else if b < 2 * r then q + 1
  else if q % 2 = 0 then q else q + 1

/-- Floor of the binary logarithm of the positive rational `num / den`. -/
def floorLog2 (num den : Nat) : Int :=
  let e0 : Int := (log2 num : Int) - (log2 den : Int)
  if e0 < 0 then
    (if num * 2 ^ e0.natAbs < den then e0 - 1 else e0)
  else
    (if num < den * 2 ^ e0.natAbs then e0 - 1 else e0)

/-- The binary64 value nearest to the non-negative rational `num / den`
(round to nearest, ties to even; `den` positive).  With `2^e ≤ num/den < 2^(e+1)`
the unit in the last place is `2^s`, `s = max (e - 52) (-1074)`; the result
overflows to `+Infinity` when the rounded mantissa `m` gives `m·2^s ≥ 2^1024`,
that is when `s > 971`, or `s = 971` and `m = 2^53`. -/
def roundToDouble (num den : Nat) : JSNumber :=
  if num = 0 then zero
  else
    let e := floorLog2 num den
    let s : Int := max (e - 52) (-1074)
    if 971 < s then posInf
    else
      let m := if s < 0 then roundHalfEven (num * 2 ^ s.natAbs) den
               else roundHalfEven num (den * 2 ^ s.natAbs)
      if s = 971 ∧ 2 ^ 53 ≤ m then posInf
      else mkFinite m s

end JSNumber

/-- Value of a string of decimal digits, most significant first. -/
def digitsVal (cs : List Char) : Nat :=
  cs.foldl (fun acc c => 10 * acc + digitVal c) 0

/-- The longest prefix of `parseFloat`'s grammar among unsigned numerals without
exponent: the digits before the point, and the digits after it when there is a
point.  `none` when the string starts with neither a digit nor a point followed
by a digit. -/
def decimalPrefix (cs : List Char) : Option (List Char × List Char) :=
  let ip := cs.takeWhile isDigit
  let rest := cs.dropWhile isDigit
  match rest with
  | '.' :: rest1 =>
    let fp := rest1.takeWhile isDigit
    if ip = [] ∧ fp = [] then none else some (ip, fp)
  | _ => if ip = [] then none else some (ip, [])

/-- The call `parseFloat(s)` on a string without leading white space, sign,
exponent part or `Infinity` (the only call of the program is guarded by the
amount pattern, which excludes these): the binary64 value nearest to the value
of the longest numeral prefix, `NaN` when there is none. -/
def parseFloat (cs : List Char) : JSNumber :=
  match decimalPrefix cs with
  | none => JSNumber.nan
  | some (ip, fp) => JSNumber.roundToDouble (digitsVal (ip ++ fp)) (10 ^ fp.length)

/-! ## Validators (`validators.js`) -/

/-- Result of a validator: `{valid: true, value}` or `{valid: false, error}`. -/
inductive Validation (α : Type) where
  | valid (value : α) : Validation α
  | invalid (error : String) : Validation α
  deriving DecidableEq, Repr

namespace Validation

/-- The field `valid` of a validator result. -/
def isValid {α : Type} : Validation α → Bool
  | valid _ => true
  | invalid _ => false

end Validation

/-- The pattern `^(0|[1-9]\d*)(\.\d{1,2})?$` of `validateAmount`. -/
def amountRegex : RE :=
  RE.seq (RE.alt (RE.lit '0') (RE.seq reDigit19 (RE.star reDigit)))
    (RE.opt (RE.seq (RE.lit '.') (RE.seq reDigit (RE.opt reDigit))))

/-- The decimal value of a numeral `int` or `int.frac`, as a rational number. -/
def decimalValue (cs : List Char) : ℚ :=
  let ip := cs.takeWhile (fun c => c != '.')
  let fp := (cs.dropWhile (fun c => c != '.')).drop 1
  (digitsVal ip : ℚ) + (digitsVal fp : ℚ) / 10 ^ fp.length

/-- The function `validateAmount`. -/
def validateAmount (value : String) : Validation JSNumber :=
  let trimmed := trim value
  if trimmed.data = [] then
    .invalid "Amount is required"
  else if !amountRegex.test trimmed.data then
    .invalid "Enter a valid positive number with up to 2 decimal places"
  else
    let numValue := parseFloat trimmed.data
    if numValue = JSNumber.zero then
      .invalid "Amount must be greater than zero"
    else
      .valid numValue

/-- The class `\S`. -/
def reNonSpace : RE := RE.cls (fun c => !isWhiteSpace c)

/-- The class `.` (no flag `s`): every character but a line terminator. -/
def reDot : RE := RE.cls (fun c => !isLineTerminator c)

/-- The pattern `^\S(?:.*\S)?$` of `validateDescription`. -/
def descriptionRegex : RE :=
  RE.seq reNonSpace (RE.opt (RE.seq (RE.star reDot) reNonSpace))

/-- The pattern of two consecutive spaces (U+0020) of `validateDescription`. -/
def doubleSpaceRegex : RE := RE.seq (RE.lit ' ') (RE.lit ' ')

/-- Whether the optional character is a word character (`false` at an end of
the input). -/
def isWordAt : Option Char → Bool
  | some c => isWordChar c
  | none => false

/-- The assertion `\b` between the previous and the next character. -/
def wordBoundary (prev next : Option Char) : Bool := isWordAt prev != isWordAt next

/-- The back-reference `\1` under flag `i`: consumes as many characters as the
captured group has, each equal to the captured one up to case; returns the
consumed characters and the rest. -/
def matchBackref : List Char → List Char → Option (List Char × List Char)
  | [], rest => some ([], rest)
  | _ :: _, [] => none
  | c :: w, d :: rest =>
    if canonCode c = canonCode d then
      match matchBackref w rest with
      | some (m, rest1) => some (d :: m, rest1)
      | none => none
    else none

/-- The part `\1\b` of the duplicate-word pattern, the group being `w`. -/
def dupBackref (w rest : List Char) : Bool :=
  match matchBackref w rest with
  | some (m, rest1) => wordBoundary m.getLast? rest1.head?
  | none => false

/-- The part `\s+\1\b`, trying every length of the white-space run. -/
def dupAfterWord (w : List Char) : List Char → Bool
  | [] => false
  | c :: rest => isWhiteSpace c && (dupBackref w rest || dupAfterWord w rest)

/-- The part `(\w+)\s+\1\b`, trying every length of the group; `acc` holds the
characters of the group consumed so far. -/
def dupFromGroup (acc : List Char) : List Char → Bool
  | [] => false
  | c :: rest =>
    isWordChar c && (dupAfterWord (acc ++ [c]) rest || dupFromGroup (acc ++ [c]) rest)

/-- The search of `\b(\w+)\s+\1\b` from every start position; `prev` is the
character before the position. -/
def dupSearch (prev : Option Char) : List Char → Bool
  | [] => false
  | c :: rest =>
    (wordBoundary prev (some c) && dupFromGroup [] (c :: rest)) || dupSearch (some c) rest

/-- The test `/\b(\w+)\s+\1\b/i.test(cs)`. -/
def duplicateWordTest (cs : List Char) : Bool := dupSearch none cs

/-- A word, that is a maximal run of word characters `[A-Za-z0-9_]`, directly
followed, after white space only, by the same word up to the case of its
letters: `t = pre ++ w ++ gap ++ w2 ++ post` with `w` the first occurrence,
`gap` the white space and `w2` the second occurrence. -/
def HasRepeatedWord (t : List Char) : Prop :=
  ∃ pre w gap w2 post : List Char, t = pre ++ w ++ gap ++ w2 ++ post ∧
    w ≠ [] ∧ (∀ c ∈ w, isWordChar c = true) ∧
    gap ≠ [] ∧ (∀ c ∈ gap, isWhiteSpace c = true) ∧
    w2.map canonCode = w.map canonCode ∧
    isWordAt pre.getLast? = false ∧ isWordAt post.head? = false

/-- Two consecutive spaces (U+0020) somewhere in the string. -/
def HasDoubleSpace (t : List Char) : Prop :=
  ∃ pre post : List Char, t = pre ++ ' ' :: ' ' :: post

/-- The function `validateDescription`. -/
def validateDescription (value : String) : Validation String :=
  let trimmed := trim value
  if trimmed.data = [] then
    .invalid "Description is required"
  else if !descriptionRegex.test trimmed.data then
    .invalid "No leading/trailing spaces or double spaces allowed"
  else if doubleSpaceRegex.search trimmed.data then
    .invalid "Double spaces are not allowed"
  else if duplicateWordTest trimmed.data then
    .invalid "Duplicate consecutive words detected"
  else
    .valid trimmed

/-- The class `[A-Za-z]` as an expression. -/
def reLetter : RE := RE.cls isLetter

/-- The pattern `^[A-Za-z]+(?:[ -][A-Za-z]+)*$` of `validateCategory`. -/
def categoryRegex : RE :=
  RE.seq (RE.plus reLetter)
    (RE.star (RE.seq (RE.cls (fun c => c = ' ' || c = '-')) (RE.plus reLetter)))

/-- The function `validateCategory`. -/
def validateCategory (value : String) : Validation String :=
  let trimmed := trim value
  if trimmed.data = [] then
    .invalid "Category is required"
  else if !categoryRegex.test trimmed.data then
    .invalid "Category can only contain letters, spaces, and hyphens"
  else
    .valid trimmed

/-! ## Calendar and clock -/

/-- Milliseconds per day. -/
def msPerDay : Int := 86400000

/-- Leap years of the proleptic Gregorian calendar. -/
def isLeapYear (y : Int) : Bool := y % 4 = 0 && (y % 100 ≠ 0 || y % 400 = 0)

/-- Number of days of month `m` (1 to 12) of year `y`. -/
def daysInMonth (y m : Int) : Int :=
  if m = 2 then (if isLeapYear y then 29 else 28)
  else if m = 4 ∨ m = 6 ∨ m = 9 ∨ m = 11 then 30
  else 31

/-- Day number (days since 1970-01-01) of day `d` of month `m` (1 to 12) of
year `y`; a day beyond the end of the month counts on into the next month, as
`MakeDay` does. -/
def daysFromCivil (y m d : Int) : Int :=
  let y1 := if m ≤ 2 then y - 1 else y
  let era := y1 / 400
  let yoe := y1 - era * 400
  let mp := if m > 2 then m - 3 else m + 9
  let doy := (153 * mp + 2) / 5 + d - 1
  let doe := yoe * 365 + yoe / 4 - yoe / 100 + doy
  era * 146097 + doe - 719468

/-- Year, month (1 to 12) and day of the month of the day `doy` (from 0, counted
from the first of March) of the year `era * 400 + c * 100 + q * 4 + a` of the
calendar that starts its years in March. -/
def marchDate (era c q a doy : Int) : Int × Int × Int :=
  let mp := (5 * doy + 2) / 153
  let m := if mp < 10 then mp + 3 else mp - 9
  let y := era * 400 + c * 100 + q * 4 + a
  (if m ≤ 2 then y + 1 else y, m, doy - (153 * mp + 2) / 5 + 1)

/-- Year, month (1 to 12) and day of the month of a day number: the days since
0000-03-01 are split into 400-year eras of 146097 days, centuries of 36524
days, 4-year cycles of 1461 days and years of 365 days. -/
def civilFromDays (z : Int) : Int × Int × Int :=
  let z1 := z + 719468
  let era := z1 / 146097
  let doe := z1 % 146097
  let c := min (doe / 36524) 3
  let doc := doe - c * 36524
  let q := doc / 1461
  let doq := doc % 1461
  let a := min (doq / 365) 3
  let doy := doq - a * 365
  marchDate era c q a doy

/-- Order of calendar dates: by year, then month, then day. -/
def dateLe (a b : Int × Int × Int) : Prop :=
  a.1 < b.1 ∨ (a.1 = b.1 ∧ (a.2.1 < b.2.1 ∨ (a.2.1 = b.2.1 ∧ a.2.2 ≤ b.2.2)))

/-- What the program reads from its host: the clock, the local time zone and
how the engine parses a date string whose day exceeds the month's length. -/
structure Host where
  /-- The current instant `Date.now()`, in milliseconds since the epoch. -/
  now : Int
  /-- Local time minus UTC, in minutes. -/
  tzOffset : Int
  /-- Whether `new Date("YYYY-MM-DD")` with a day of 29 to 31 beyond the end of
  the month counts on into the next month (V8) instead of giving an invalid
  date (the ECMAScript format rule). -/
  lenientDates : Bool

/-- Local time of the instant `t`. -/
def localTime (h : Host) (t : Int) : Int := t + h.tzOffset * 60000

/-- The call `getFullYear()` on a date with time value `t` (`none`: invalid
date, the result is `NaN`). -/
def getFullYear (h : Host) (t : Option Int) : Option Int :=
  t.map fun t => (civilFromDays (localTime h t / msPerDay)).1

/-- The call `getMonth()`, from 0 to 11. -/
def getMonth (h : Host) (t : Option Int) : Option Int :=
  t.map fun t => (civilFromDays (localTime h t / msPerDay)).2.1 - 1

/-- The call `getDate()`. -/
def getDate (h : Host) (t : Option Int) : Option Int :=
  t.map fun t => (civilFromDays (localTime h t / msPerDay)).2.2

/-- The statements `const today = new Date(); today.setHours(0, 0, 0, 0)`: the
instant of the start of the current local day. -/
def startOfToday (h : Host) : Int :=
  (localTime h h.now / msPerDay) * msPerDay - h.tzOffset * 60000

/-- Today's local calendar date: year, month and day of the month. -/
def localToday (h : Host) : Int × Int × Int :=
  civilFromDays (localTime h h.now / msPerDay)

/-- The local calendar date of the day after today. -/
def localTomorrow (h : Host) : Int × Int × Int :=
  civilFromDays (localTime h h.now / msPerDay + 1)

/-- The call `new Date(s)` on a string of the date-only form `YYYY-MM-DD`, which
denotes midnight UTC of that day; `none` is the invalid date.  In
`validateDate` the call is guarded by the date pattern, and the records of the
data model hold dates of this form; on a string of another form the model
answers the invalid date. -/
def parseDate (h : Host) (cs : List Char) : Option Int :=
  match cs with
  | [y1, y2, y3, y4, '-', m1, m2, '-', d1, d2] =>
    if [y1, y2, y3, y4, m1, m2, d1, d2].all isDigit then
      let y : Int := digitsVal [y1, y2, y3, y4]
      let m : Int := digitsVal [m1, m2]
      let d : Int := digitsVal [d1, d2]
      if 1 ≤ m ∧ m ≤ 12 ∧ 1 ≤ d ∧ (d ≤ daysInMonth y m ∨ (h.lenientDates = true ∧ d ≤ 31)) then
        some (daysFromCivil y m d * msPerDay)
      else none
    else none
  | _ => none

/-- The call `s.split('-')`. -/
def splitDash : List Char → List (List Char)
  | [] => [[]]
  | c :: cs =>
    if c = '-' then [] :: splitDash cs
    else match splitDash cs with
      | [] => [[c]]
      | p :: ps => (c :: p) :: ps

/-- The conversion `Number(s)` on a string of decimal digits (`none` stands for
the result on any other string, which the date pattern excludes). -/
def toNumber (cs : List Char) : Option Int :=
  if cs.all isDigit then some (digitsVal cs : Int) else none

/-- The comparison `a !== b` of two numbers, `none` being `NaN`. -/
def strictNe (a b : Option Int) : Bool :=
  match a, b with
  | some x, some y => x ≠ y
  | _, _ => true

/-- Element `i` of a destructured array of numbers (`undefined` and `NaN` are
both `none`). -/
def component (parts : List (Option Int)) (i : Nat) : Option Int :=
  (parts.get? i).join

/-- The group `(0[1-9]|1[0-2])` of the date pattern. -/
def reMonth : RE :=
  RE.alt (RE.seq (RE.lit '0') reDigit19)
    (RE.seq (RE.lit '1') (RE.cls (fun c => c = '0' || c = '1' || c = '2')))

/-- The group `(0[1-9]|[12]\d|3[01])` of the date pattern. -/
def reDay : RE :=
  RE.alt (RE.seq (RE.lit '0') reDigit19)
    (RE.alt (RE.seq (RE.cls (fun c => c = '1' || c = '2')) reDigit)
      (RE.seq (RE.lit '3') (RE.cls (fun c => c = '0' || c = '1'))))

/-- The pattern `^\d{4}-(0[1-9]|1[0-2])-(0[1-9]|[12]\d|3[01])$` of `validateDate`
and of `isValidDateFormat`. -/
def dateRegex : RE :=
  RE.seq reDigit (RE.seq reDigit (RE.seq reDigit (RE.seq reDigit
    (RE.seq (RE.lit '-') (RE.seq reMonth (RE.seq (RE.lit '-') reDay))))))

/-- The function `validateDate`. -/
def validateDate (h : Host) (value : String) : Validation String :=
  let trimmed := trim value
  if trimmed.data = [] then
    .invalid "Date is required"
  else if !dateRegex.test trimmed.data then
    .invalid "Date must be in YYYY-MM-DD format"
  else
    let date := parseDate h trimmed.data
    let parts := (splitDash trimmed.data).map toNumber
    let year := component parts 0
    let month := component parts 1
    let day := component parts 2
    if strictNe (getFullYear h date) year ||
       strictNe ((getMonth h date).map (· + 1)) month ||
       strictNe (getDate h date) day then
      .invalid "Invalid date (check day/month combination)"
    else
      let today := startOfToday h
      if (match date with
          | some t => decide (t > today)
          | none => false) then
        .invalid "Date cannot be in the future"
      else
        .valid trimmed

/-- The form data read by `validateAllFields`. -/
structure FormData where
  description : String
  amount : String
  category : String
  date : String

/-- The object `values` of `validateAllFields`. -/
structure FormValues where
  description : String
  amount : JSNumber
  category : String
  date : String
  deriving DecidableEq, Repr

/-- The object `errors` of `validateAllFields`: a key is present when its field
is `some`. -/
structure FormErrors where
  description : Option String
  amount : Option String
  category : Option String
  date : Option String
  deriving DecidableEq, Repr

/-- The result of `validateAllFields`. -/
structure FormValidation where
  valid : Bool
  errors : FormErrors
  values : Option FormValues
  deriving DecidableEq, Repr

namespace Validation

/-- The field `error` of a validator result, absent on success. -/
def error? {α : Type} : Validation α → Option String
  | valid _ => none
  | invalid e => some e

/-- The field `value` of a validator result, absent on failure. -/
def value? {α : Type} : Validation α → Option α
  | valid v => some v
  | invalid _ => none

end Validation

/-- The function `validateAllFields`. -/
def validateAllFields (h : Host) (formData : FormData) : FormValidation :=
  let errors : FormErrors := ⟨none, none, none, none⟩
  let isValid := true
  let descValidation := validateDescription formData.description
  let (errors, isValid) :=
    if !descValidation.isValid then
      ({ errors with description := descValidation.error? }, false)
    else (errors, isValid)
  let amountValidation := validateAmount formData.amount
  let (errors, isValid) :=
    if !amountValidation.isValid then
      ({ errors with amount := amountValidation.error? }, false)
    else (errors, isValid)
  let categoryValidation := validateCategory formData.category
  let (errors, isValid) :=
    if !categoryValidation.isValid then
      ({ errors with category := categoryValidation.error? }, false)
    else (errors, isValid)
  let dateValidation := validateDate h formData.date
  let (errors, isValid) :=
    if !dateValidation.isValid then
      ({ errors with date := dateValidation.error? }, false)
    else (errors, isValid)
  { valid := isValid
    errors := errors
    values :=
      if isValid then
        match descValidation, amountValidation, categoryValidation, dateValidation with
        | .valid d, .valid a, .valid c, .valid t => some ⟨d, a, c, t⟩
        | _, _, _, _ => none
      else none }

/-! ## Record repository (`state.js`) and its store (`storage.js`) -/

/-- A transaction record. -/
structure Record where
  id : String
  description : String
  amount : JSNumber
  category : String
  date : String
  createdAt : String
  updatedAt : String
  deriving DecidableEq, Repr

/-- Decimal rendering of `n` on at least `width` digits, as `padStart(width, '0')`. -/
def padZero (width n : Nat) : String :=
  ⟨List.replicate (width - (toString n).length) '0' ++ (toString n).data⟩

/-- The call `new Date(t).toISOString()`. -/
def toISOString (t : Int) : String :=
  let civil := civilFromDays (t / msPerDay)
  let ms := (t % msPerDay).toNat
  let year :=
    if 0 ≤ civil.1 ∧ civil.1 ≤ 9999 then padZero 4 civil.1.toNat
    else (if civil.1 < 0 then "-" else "+") ++ padZero 6 civil.1.natAbs
  year ++ "-" ++ padZero 2 civil.2.1.toNat ++ "-" ++ padZero 2 civil.2.2.toNat ++ "T" ++
    padZero 2 (ms / 3600000) ++ ":" ++ padZero 2 (ms / 60000 % 60) ++ ":" ++
    padZero 2 (ms / 1000 % 60) ++ "." ++ padZero 3 (ms % 1000) ++ "Z"

/-- What one call of `addRecord` reads from its environment. -/
structure AddEnv where
  /-- The reading `Date.now()` of `generateId`. -/
  timestamp : Int
  /-- The value `Math.floor(Math.random() * 1000)`, below 1000. -/
  random : Nat
  /-- The instant of the `new Date()` behind `createdAt`. -/
  createdTime : Int
  /-- The instant of the `new Date()` behind `updatedAt`. -/
  updatedTime : Int

/-- The module state of `state.js` together with the store it writes to. -/
structure State where
  /-- The module variable `records`. -/
  records : List Record
  /-- The records whose JSON text is the item `finance_tracker_data` of
  `localStorage`; `none` when the item is absent. -/
  stored : Option (List Record)
  deriving DecidableEq, Repr

/-- The function `saveRecords` of `storage.js`: `setItemOk` tells whether
`localStorage.setItem` returns (`true`) or throws, for instance on an exceeded
quota (`false`).  Returns the result and the new content of the store. -/
def saveRecords (setItemOk : Bool) (records : List Record) (stored : Option (List Record)) :
    Bool × Option (List Record) :=
  if setItemOk then (true, some records) else (false, stored)

/-- The function `generateId`. -/
def generateId (timestamp : Int) (random : Nat) : String :=
  "txn_" ++ toString timestamp ++ "_" ++ toString random

/-- The call `xs.findIndex(p)`; `none` stands for the result `-1`. -/
def findIndex {α : Type} (p : α → Bool) : List α → Option Nat
  | [] => none
  | x :: xs => if p x then some 0 else (findIndex p xs).map (· + 1)

/-- The function `addRecord`; returns the new record and the new state. -/
def addRecord (env : AddEnv) (setItemOk : Bool) (recordData : FormValues) (st : State) :
    Record × State :=
  let newRecord : Record :=
    { id := generateId env.timestamp env.random
      description := recordData.description
      amount := recordData.amount
      category := recordData.category
      date := recordData.date
      createdAt := toISOString env.createdTime
      updatedAt := toISOString env.updatedTime }
  let records := st.records ++ [newRecord]
  let saved := saveRecords setItemOk records st.stored
  (newRecord, { records := records, stored := saved.2 })

/-- The function `updateRecord`; `now` is the instant of its `new Date()`.
Returns the updated record (`none` for `null`) and the new state.  The index
found is always within the collection, so the second `none` branch is never
taken. -/
def updateRecord (now : Int) (setItemOk : Bool) (id : String) (recordData : FormValues)
    (st : State) : Option Record × State :=
  match findIndex (fun r : Record => r.id = id) st.records with
  | none => (none, st)
  | some index =>
    match st.records.get? index with
    | none => (none, st)
    | some old =>
      let updated : Record :=
        { old with
          description := recordData.description
          amount := recordData.amount
          category := recordData.category
          date := recordData.date
          updatedAt := toISOString now }
      let records := st.records.set index updated
      let saved := saveRecords setItemOk records st.stored
      (records.get? index, { records := records, stored := saved.2 })

/-- The function `deleteRecord`; returns its result and the new state. -/
def deleteRecord (setItemOk : Bool) (id : String) (st : State) : Bool × State :=
  match findIndex (fun r : Record => r.id = id) st.records with
  | none => (false, st)
  | some index =>
    let records := st.records.eraseIdx index
    let saved := saveRecords setItemOk records st.stored
    (true, { records := records, stored := saved.2 })

/-- A call of one of the three mutating operations of the repository. -/
inductive Op where
  | add (env : AddEnv) (setItemOk : Bool) (recordData : FormValues) : Op
  | update (now : Int) (setItemOk : Bool) (id : String) (recordData : FormValues) : Op
  | delete (setItemOk : Bool) (id : String) : Op

/-- The state after a call. -/
def Op.apply : Op → State → State
  | .add env ok data, st => (addRecord env ok data st).2
  | .update now ok id data, st => (updateRecord now ok id data st).2
  | .delete ok id, st => (deleteRecord ok id st).2

/-- The state after a sequence of calls. -/
def runOps : List Op → State → State
  | [], st => st
  | op :: ops, st => runOps ops (op.apply st)

/-- The ids of the records of the collection, in order. -/
def State.ids (st : State) : List String := st.records.map (·.id)

/-- Every `addRecord` of the sequence generates an id that no record of the
collection carries at the time of the call. -/
def GeneratesFreshIds : List Op → State → Prop
  | [], _ => True
  | op :: ops, st =>
    (match op with
      | .add env _ _ => generateId env.timestamp env.random ∉ st.ids
      | _ => True) ∧ GeneratesFreshIds ops (op.apply st)


/-! ## Sample data -/

/-- A sample record. -/
def teaRecord : Record :=
  ⟨"txn_1710072000000_7", "Tea", .finite false 5 (-1), "Food", "2024-03-10",
    "2024-03-10T12:00:00.000Z", "2024-03-10T12:00:00.000Z"⟩

/-- A second sample record. -/
def busRecord : Record :=
  ⟨"txn_1710072000001_7", "Bus", .finite false 3 0, "Transport", "2024-03-09",
    "2024-03-10T12:00:00.001Z", "2024-03-10T12:00:00.001Z"⟩

/-- Sample form values. -/
def bookValues : FormValues := ⟨"Book", .finite false 25 (-1), "Books", "2024-03-08"⟩

/-- A sample state: two records, both saved. -/
def sampleState : State := ⟨[teaRecord, busRecord], some [teaRecord, busRecord]⟩

/-! ## Search (`search.js`) -/

/-- A compiled regular expression without the flags `g` and `y` (the program
only uses the flags `i` and none): `exec` gives the position and the length of
the first match in a text, `none` when there is no match. -/
structure Matcher where
  exec : String → Option (Nat × Nat)

/-- The call `regex.test(text)`. -/
def Matcher.test (m : Matcher) (text : String) : Bool := (m.exec text).isSome

/-- The function `compileRegex`.  `newRegExp` is the constructor `RegExp` of the
host; its result `none` stands for a thrown `SyntaxError`, which the function
catches. -/
def compileRegex (newRegExp : String → String → Option Matcher) (pattern : String)
    (flags : String) : Option Matcher :=
  if pattern.data = [] ∨ (trim pattern).data = [] then none
  else
    match newRegExp pattern flags with
    | some regex => some regex
    | none => none

/-- The function `searchRecords`; `numberToString` is `Number.prototype.toString`
and the regex `none` is `null`. -/
def searchRecords (numberToString : JSNumber → String) (records : List Record)
    (regex : Option Matcher) : List Record :=
  match regex with
  | none => records
  | some m =>
    records.filter fun record =>
      m.test record.description || m.test record.category ||
      m.test (numberToString record.amount) || m.test record.date

/-- The replacement of one character by `escapeHtml`. -/
def escapeChar (c : Char) : List Char :=
  if c = '&' then "&amp;".data
  else if c = '<' then "&lt;".data
  else if c = '>' then "&gt;".data
  else if c = '"' then "&quot;".data
  else if c = '\'' then "&#039;".data
  else [c]

/-- The function `escapeHtml`, on the characters of the text. -/
def escapeHtml : List Char → List Char
  | [] => []
  | c :: cs => escapeChar c ++ escapeHtml cs

/-- The function `highlightText` on a string.  The regex has no flag `g`, so
`text.replace(regex, f)` replaces its first match only, and returns the text as
it is when there is none. -/
def highlightText (text : String) (regex : Option Matcher) : String :=
  match regex with
  | none => ⟨escapeHtml text.data⟩
  | some m =>
    if text.data = [] then ⟨escapeHtml text.data⟩
    else
      match m.exec text with
      | none => text
      | some (index, length) =>
        ⟨text.data.take index ++ "<mark>".data ++
          escapeHtml ((text.data.drop index).take length) ++ "</mark>".data ++
          text.data.drop (index + length)⟩

/-- Whether the text starts with the pattern, up to the case of ASCII letters
when `ignoreCase` is set. -/
def startsWithLiteral (ignoreCase : Bool) : List Char → List Char → Bool
  | [], _ => true
  | _ :: _, [] => false
  | p :: ps, c :: cs =>
    (if ignoreCase then canonCode p = canonCode c else p = c) && startsWithLiteral ignoreCase ps cs

/-- Position of the first occurrence of the pattern in the text. -/
def findLiteral (ignoreCase : Bool) (pat : List Char) : List Char → Option Nat
  | [] => if pat = [] then some 0 else none
  | c :: cs =>
    if startsWithLiteral ignoreCase pat (c :: cs) then some 0
    else (findLiteral ignoreCase pat cs).map (· + 1)

/-- A sample `RegExp` constructor: a pattern of letters, digits and spaces
compiles to the search of that text (without regard to case under the flag
`i`); any other pattern, such as the unbalanced `(`, throws. -/
def literalRegExp (pattern flags : String) : Option Matcher :=
  if pattern.data ≠ [] ∧ pattern.data.all (fun c => isLetter c || isDigit c || c = ' ') then
    some ⟨fun text =>
      (findLiteral (flags.data.contains 'i') pattern.data text.data).map
        fun index => (index, pattern.data.length)⟩
  else none

/-! ## Arithmetic and order of numbers -/

namespace JSNumber

/-- The integer `±m·2^k`. -/
def signedScaled (neg : Bool) (m : Nat) (k : Int) : Int :=
  (if neg then -1 else 1) * ((m * 2 ^ k.toNat : Nat) : Int)

/-- The value of a finite number as a rational, `0` for the others. -/
def ratOf : JSNumber → ℚ
  | finite neg m e => (if neg then -1 else 1) * (m : ℚ) * (2 : ℚ) ^ e
  | _ => 0

/-- Whether the number is finite. -/
def isFinite : JSNumber → Bool
  | finite _ _ _ => true
  | _ => false

/-- The comparison `a < b`; a comparison with `NaN` is false. -/
def lt : JSNumber → JSNumber → Bool
  | nan, _ => false
  | _, nan => false
  | negInf, negInf => false
  | negInf, _ => true
  | _, negInf => false
  | posInf, _ => false
  | finite _ _ _, posInf => true
  | finite n1 m1 e1, finite n2 m2 e2 =>
    decide (signedScaled n1 m1 (e1 - min e1 e2) < signedScaled n2 m2 (e2 - min e1 e2))

/-- The comparison `a > b`. -/
def gt (a b : JSNumber) : Bool := lt b a

/-- The comparison `a <= b`; a comparison with `NaN` is false. -/
def le : JSNumber → JSNumber → Bool
  | nan, _ => false
  | _, nan => false
  | a, b => !lt b a

/-- The comparison `a >= b`. -/
def ge (a b : JSNumber) : Bool := le b a

/-- The binary64 value nearest to the rational `±num / den`. -/
def roundSigned (neg : Bool) (num den : Nat) : JSNumber :=
  match roundToDouble num den with
  | finite _ m e => if m = 0 then zero else finite neg m e
  | posInf => if neg then negInf else posInf
  | x => x

/-- The binary64 value nearest to the rational `s·2^e`. -/
def roundScaled (s e : Int) : JSNumber :=
  if 0 ≤ e then roundSigned (decide (s < 0)) (s.natAbs * 2 ^ e.toNat) 1
  else roundSigned (decide (s < 0)) s.natAbs (2 ^ (-e).toNat)

/-- The negation `-a`. -/
def neg : JSNumber → JSNumber
  | finite n m e => if m = 0 then zero else finite (!n) m e
  | posInf => negInf
  | negInf => posInf
  | nan => nan

/-- The absolute value `Math.abs(a)`. -/
def abs : JSNumber → JSNumber
  | finite _ m e => finite false m e
  | posInf => posInf
  | negInf => posInf
  | nan => nan

/-- The sum `a + b`: the exact sum, rounded. -/
def add : JSNumber → JSNumber → JSNumber
  | nan, _ => nan
  | _, nan => nan
  | posInf, negInf => nan
  | negInf, posInf => nan
  | posInf, _ => posInf
  | _, posInf => posInf
  | negInf, _ => negInf
  | _, negInf => negInf
  | finite n1 m1 e1, finite n2 m2 e2 =>
    roundScaled (signedScaled n1 m1 (e1 - min e1 e2) + signedScaled n2 m2 (e2 - min e1 e2))
      (min e1 e2)

/-- The difference `a - b`. -/
def sub (a b : JSNumber) : JSNumber := add a (neg b)

/-- The product `a * b`: the exact product, rounded. -/
def mul : JSNumber → JSNumber → JSNumber
  | nan, _ => nan
  | _, nan => nan
  | finite n1 m1 e1, finite n2 m2 e2 =>
    roundScaled (signedScaled (n1 != n2) (m1 * m2) 0) (e1 + e2)
  | finite n1 m1 _, posInf => if m1 = 0 then nan else if n1 then negInf else posInf
  | finite n1 m1 _, negInf => if m1 = 0 then nan else if n1 then posInf else negInf
  | posInf, finite n2 m2 _ => if m2 = 0 then nan else if n2 then negInf else posInf
  | negInf, finite n2 m2 _ => if m2 = 0 then nan else if n2 then posInf else negInf
  | posInf, posInf => posInf
  | negInf, negInf => posInf
  | posInf, negInf => negInf
  | negInf, posInf => negInf

/-- The quotient `a / b`: the exact quotient, rounded; a division of a non-zero
number by zero gives the infinity of the sign of the dividend. -/
def div : JSNumber → JSNumber → JSNumber
  | nan, _ => nan
  | _, nan => nan
  | finite n1 m1 e1, finite n2 m2 e2 =>
    if m2 = 0 then (if m1 = 0 then nan else if n1 then negInf else posInf)
    else if 0 ≤ e1 - e2 then roundSigned (n1 != n2) (m1 * 2 ^ (e1 - e2).toNat) m2
    else roundSigned (n1 != n2) m1 (m2 * 2 ^ (e2 - e1).toNat)
  | finite _ _ _, posInf => zero
  | finite _ _ _, negInf => zero
  | posInf, finite n2 _ _ => if n2 then negInf else posInf
  | negInf, finite n2 _ _ => if n2 then posInf else negInf
  | posInf, posInf => nan
  | posInf, negInf => nan
  | negInf, posInf => nan
  | negInf, negInf => nan

/-- The number of a natural number literal below `2^53`. -/
def ofNat (n : Nat) : JSNumber := mkFinite n 0

end JSNumber

/-! ## Sorting (`records.js`) -/

/-- The UTF-16 code units of a character. -/
def utf16 (c : Char) : List Nat :=
  if c.toNat < 0x10000 then [c.toNat]
  else [0xD800 + (c.toNat - 0x10000) / 0x400, 0xDC00 + (c.toNat - 0x10000) % 0x400]

/-- The UTF-16 code units of a string. -/
def codeUnits : List Char → List Nat
  | [] => []
  | c :: cs => utf16 c ++ codeUnits cs

/-- Lexicographic order of sequences of code units. -/
def lexLt : List Nat → List Nat → Bool
  | _, [] => false
  | [], _ :: _ => true
  | x :: xs, y :: ys => decide (x < y) || (decide (x = y) && lexLt xs ys)

/-- The comparison `a < b` of two strings. -/
def stringLt (a b : String) : Bool := lexLt (codeUnits a.data) (codeUnits b.data)

/-- The values that `sortRecords` compares: dates (by their time value, `none`
for an invalid date), numbers and strings. -/
inductive SortValue where
  | date (t : Option Int) : SortValue
  | number (x : JSNumber) : SortValue
  | text (s : String) : SortValue
  deriving DecidableEq, Repr

/-- The comparison `valA < valB` of two values of the same kind. -/
def SortValue.lt : SortValue → SortValue → Bool
  | .date (some a), .date (some b) => decide (a < b)
  | .number a, .number b => JSNumber.lt a b
  | .text a, .text b => stringLt a b
  | _, _ => false

/-- The value that the comparator of `sortRecords` reads from a record;
`toLowerCase` is `String.prototype.toLowerCase`. -/
def sortValue (h : Host) (toLowerCase : String → String) (field : String) (r : Record) :
    SortValue :=
  if field = "date" then .date (parseDate h r.date.data)
  else if field = "amount" then .number r.amount
  else .text (toLowerCase r.description)

/-- The comparator of `sortRecords`. -/
def compareRecords (h : Host) (toLowerCase : String → String) (field : String)
    (ascending : Bool) (a b : Record) : Int :=
  let valA := sortValue h toLowerCase field a
  let valB := sortValue h toLowerCase field b
  if valA.lt valB then (if ascending then -1 else 1)
  else if valB.lt valA then (if ascending then 1 else -1)
  else 0

/-- Insertion of an element into a sorted list, before the first element that
the comparator does not put before it. -/
def insertSorted {α : Type} (compare : α → α → Int) (a : α) : List α → List α
  | [] => [a]
  | b :: l => if compare a b ≤ 0 then a :: b :: l else b :: insertSorted compare a l

/-- The call `xs.sort(compare)` for a consistent comparator (one that orders the
elements by a key, as the standard defines it): the standard prescribes the
result then, the elements in the order of the comparator and those it does not
tell apart in their order of the list, and this insertion sort computes it.
For a comparator that is not consistent the standard leaves the order to the
implementation, and this definition says nothing about the code: the
statements about `sortRecords` assume dates that parse and finite amounts,
which make its comparator consistent. -/
def jsSort {α : Type} (compare : α → α → Int) : List α → List α
  | [] => []
  | a :: l => insertSorted compare a (jsSort compare l)

/-- The function `sortRecords`: the new content of `filteredRecords`. -/
def sortRecords (h : Host) (toLowerCase : String → String) (field : String)
    (ascending : Bool) (filteredRecords : List Record) : List Record :=
  jsSort (compareRecords h toLowerCase field ascending) filteredRecords

/-- The order of two records by the key of a sort field: the time value of the
date, the value of the amount, or the code units of the lower-cased
description. -/
def KeyLe (h : Host) (toLowerCase : String → String) (field : String) (a b : Record) : Prop :=
  if field = "date" then (parseDate h a.date.data).getD 0 ≤ (parseDate h b.date.data).getD 0
  else if field = "amount" then a.amount.ratOf ≤ b.amount.ratOf
  else stringLt (toLowerCase b.description) (toLowerCase a.description) = false

/-- A sample record with the given id and amount. -/
def amountRecord (id : String) (amount : Nat) : Record :=
  ⟨id, "Item", JSNumber.ofNat amount, "Food", "2024-03-10", "", ""⟩

/-! ## Aggregation (`state.js`) and budget status (`dashboard.js`) -/

/-- The values that a property of the object `categoryTotals` can hold: a
number, or a string when the addition met something that is not a number. -/
inductive JSValue where
  | number (x : JSNumber) : JSValue
  | text (s : String) : JSValue
  deriving DecidableEq, Repr

/-- The property names that every object inherits from `Object.prototype`. -/
def objectPrototypeKeys : List String :=
  ["constructor", "hasOwnProperty", "isPrototypeOf", "propertyIsEnumerable", "toLocaleString",
   "toString", "valueOf", "__defineGetter__", "__defineSetter__", "__lookupGetter__",
   "__lookupSetter__", "__proto__"]

/-- The own property `key` of an object given by its own properties in creation
order (`none`: no such own property). -/
def ownProperty (props : List (String × JSValue)) (key : String) : Option JSValue :=
  (props.find? (fun p => p.1 = key)).map (·.2)

/-- The assignment `object[key] = value` on an object created by `{}`: the own
property is updated in place or created last; the name `__proto__` is an
accessor of the prototype, which ignores a value that is not an object. -/
def setProperty (props : List (String × JSValue)) (key : String) (value : JSValue) :
    List (String × JSValue) :=
  if key = "__proto__" then props
  else if (ownProperty props key).isSome then
    props.map (fun p => if p.1 = key then (key, value) else p)
  else props ++ [(key, value)]

/-- The expression `(categoryTotals[key] || 0) + amount`.  `numberToString` is
`Number.prototype.toString` and `inheritedText key` is the string that the
value inherited under `key` converts to (the source text of a built-in function,
or `[object Object]` for `__proto__`). -/
def addToTotal (numberToString : JSNumber → String) (inheritedText : String → String)
    (props : List (String × JSValue)) (key : String) (amount : JSNumber) : JSValue :=
  match ownProperty props key with
  | some (.number x) =>
    if x = JSNumber.zero ∨ x = JSNumber.nan then .number (JSNumber.add JSNumber.zero amount)
    else .number (JSNumber.add x amount)
  | some (.text s) =>
    if s = "" then .number (JSNumber.add JSNumber.zero amount)
    else .text (s ++ numberToString amount)
  | none =>
    if key ∈ objectPrototypeKeys then .text (inheritedText key ++ numberToString amount)
    else .number (JSNumber.add JSNumber.zero amount)

/-- The object `categoryTotals` after the loop over the records. -/
def accumulateTotals (numberToString : JSNumber → String) (inheritedText : String → String)
    (records : List Record) : List (String × JSValue) :=
  records.foldl
    (fun props record =>
      setProperty props record.category
        (addToTotal numberToString inheritedText props record.category record.amount))
    []

/-- Whether a property name is an array index: the decimal numeral, without
leading zero, of an integer up to `2^32 - 2`. -/
def isArrayIndex (key : String) : Bool :=
  key.data ≠ [] && key.data.all isDigit && (key.data.head? ≠ some '0' || key.data.length = 1) &&
    decide (digitsVal key.data ≤ 4294967294)

/-- The call `Object.entries(object)`: the array indices in ascending order,
then the other names in creation order. -/
def objectEntries (props : List (String × JSValue)) : List (String × JSValue) :=
  jsSort (fun a b => (digitsVal a.1.data : Int) - (digitsVal b.1.data : Int))
      (props.filter (fun p => isArrayIndex p.1)) ++
    props.filter (fun p => !isArrayIndex p.1)

/-- The comparison `amount > maxAmount` of a property value with a number: a
string of the kind `addToTotal` builds does not read as a number, so the
comparison is false. -/
def valueGt (amount : JSValue) (maxAmount : JSNumber) : Bool :=
  match amount with
  | .number x => JSNumber.gt x maxAmount
  | .text _ => false

/-- The function `getTopCategory`. -/
def getTopCategory (numberToString : JSNumber → String) (inheritedText : String → String)
    (records : List Record) : String :=
  if records.length = 0 then "None"
  else
    let categoryTotals := accumulateTotals numberToString inheritedText records
    let result := (objectEntries categoryTotals).foldl
      (fun (state : String × JSNumber) (entry : String × JSValue) =>
        if valueGt entry.2 state.2 then
          (entry.1, match entry.2 with
            | .number x => x
            | .text _ => state.2)
        else state)
      ("", JSNumber.zero)
    if result.1 = "" then "None" else result.1

/-- The conversion of a property value to a number, for a subtraction. -/
def valueToNumber : JSValue → JSNumber
  | .number x => x
  | .text _ => JSNumber.nan

/-- The comparator `(a, b) => b.amount - a.amount`, by its sign; the result
`NaN` counts as `0`. -/
def compareTotals (a b : String × JSValue) : Int :=
  let d := JSNumber.sub (valueToNumber b.2) (valueToNumber a.2)
  if JSNumber.lt d JSNumber.zero then -1 else if JSNumber.lt JSNumber.zero d then 1 else 0

/-- The function `getCategoryTotals`: the pairs of category and amount. -/
def getCategoryTotals (numberToString : JSNumber → String) (inheritedText : String → String)
    (records : List Record) : List (String × JSValue) :=
  jsSort compareTotals (objectEntries (accumulateTotals numberToString inheritedText records))

/-- The sum `records.reduce((sum, record) => sum + record.amount, 0)`. -/
def sumAmounts (records : List Record) : JSNumber :=
  records.foldl (fun sum record => JSNumber.add sum record.amount) JSNumber.zero

/-- The function `getTotalAmount`. -/
def getTotalAmount (records : List Record) : JSNumber := sumAmounts records

/-- The instant `sevenDaysAgo` of `getLast7DaysTotal`: the start of the local
day seven days before the current local day. -/
def sevenDaysAgo (h : Host) : Int :=
  (localTime h h.now / msPerDay - 7) * msPerDay - h.tzOffset * 60000

/-- The comparison `recordDate >= sevenDaysAgo`, false for an invalid date. -/
def onOrAfter (recordDate : Option Int) (instant : Int) : Bool :=
  match recordDate with
  | some t => decide (instant ≤ t)
  | none => false

/-- The function `getLast7DaysTotal`. -/
def getLast7DaysTotal (h : Host) (records : List Record) : JSNumber :=
  sumAmounts (records.filter fun record => onOrAfter (parseDate h record.date.data) (sevenDaysAgo h))

/-- The comparison `a === b` of two numbers, `none` being `NaN`. -/
def strictEq (a b : Option Int) : Bool := !strictNe a b

/-- The function `getCurrentMonthTotal`. -/
def getCurrentMonthTotal (h : Host) (records : List Record) : JSNumber :=
  let currentMonth := getMonth h (some h.now)
  let currentYear := getFullYear h (some h.now)
  sumAmounts (records.filter fun record =>
    let recordDate := parseDate h record.date.data
    strictEq (getMonth h recordDate) currentMonth &&
      strictEq (getFullYear h recordDate) currentYear)

/-- What `updateCapStatus` shows: nothing (`disabled`), or one of three
messages with the numbers it formats. -/
inductive CapStatus where
  | disabled : CapStatus
  | exceeded (amount percentage : JSNumber) : CapStatus
  | warning (remaining percentage : JSNumber) : CapStatus
  | ok (remaining cap percentage : JSNumber) : CapStatus
  deriving DecidableEq, Repr

/-- The decision of `updateCapStatus` from the month total and the cap. -/
def capStatus (monthTotal cap : JSNumber) : CapStatus :=
  if JSNumber.le cap JSNumber.zero then .disabled
  else
    let remaining := JSNumber.sub cap monthTotal
    let percentage := JSNumber.mul (JSNumber.div monthTotal cap) (JSNumber.ofNat 100)
    if JSNumber.gt monthTotal cap then .exceeded (JSNumber.abs remaining) percentage
    else if JSNumber.ge percentage (JSNumber.ofNat 80) then .warning remaining percentage
    else .ok remaining cap percentage

/-- The function `updateCapStatus`, the element `cap-status` being present. -/
def updateCapStatus (h : Host) (records : List Record) (budgetCap : JSNumber) : CapStatus :=
  capStatus (getCurrentMonthTotal h records) budgetCap

/-- A sample record with the given category, amount and date. -/
def categoryRecord (category : String) (amount : Nat) (date : String) : Record :=
  ⟨"txn_1_1", "Item", JSNumber.ofNat amount, category, date, "", ""⟩

/-! ## Import and export (`storage.js`) -/

/-- JSON values, as `JSON.parse` gives them. -/
inductive Json where
  | null : Json
  | bool (b : Bool) : Json
  | num (x : JSNumber) : Json
  | str (s : String) : Json
  | arr (items : List Json) : Json
  | obj (fields : List (String × Json)) : Json

mutual
/-- The value after `JSON.parse(JSON.stringify(value))`: a number that is not
finite is written as `null`, and a zero of either sign as `0`. -/
def Json.stored : Json → Json
  | .null => .null
  | .bool b => .bool b
  | .num (.finite neg m e) => if m = 0 then .num JSNumber.zero else .num (.finite neg m e)
  | .num _ => .null
  | .str s => .str s
  | .arr items => .arr (Json.storedList items)
  | .obj fields => .obj (Json.storedFields fields)
/-- The items of an array after the round trip through JSON text. -/
def Json.storedList : List Json → List Json
  | [] => []
  | x :: xs => Json.stored x :: Json.storedList xs
/-- The fields of an object after the round trip through JSON text. -/
def Json.storedFields : List (String × Json) → List (String × Json)
  | [] => []
  | (k, v) :: fs => (k, Json.stored v) :: Json.storedFields fs
end

mutual
/-- The conversion of a value to a string, as `regex.test(value)` does;
`numberToString` is `Number.prototype.toString`, and `none` stands for a thrown
`TypeError`.  An array is joined by `Array.prototype.toString`.  An object
without an own property `toString` is converted by `Object.prototype.toString`;
with one, the property hides that method and, its value coming from JSON, is
not callable, and `valueOf` gives no primitive value either (the inherited one
returns the object, an own one is not callable), so the conversion throws.  An
own property `valueOf` alone changes nothing: the conversion to a string tries
`toString` first, and the inherited method returns a string. -/
def Json.toText (numberToString : JSNumber → String) : Json → Option String
  | .null => some "null"
  | .bool b => some (if b then "true" else "false")
  | .num x => some (numberToString x)
  | .str s => some s
  | .arr items => Json.joinText numberToString items
  | .obj fields =>
    if fields.any (fun f => f.1 = "toString") then none else some "[object Object]"
/-- The call `items.join(",")`, in which `null` gives the empty string. -/
def Json.joinText (numberToString : JSNumber → String) : List Json → Option String
  | [] => some ""
  | [x] => Json.itemText numberToString x
  | x :: y :: rest =>
    match Json.itemText numberToString x, Json.joinText numberToString (y :: rest) with
    | some first, some others => some (first ++ "," ++ others)
    | _, _ => none
/-- The text of one item of a joined array. -/
def Json.itemText (numberToString : JSNumber → String) : Json → Option String
  | .null => some ""
  | .bool b => some (if b then "true" else "false")
  | .num x => some (numberToString x)
  | .str s => some s
  | .arr items => Json.joinText numberToString items
  | .obj fields =>
    if fields.any (fun f => f.1 = "toString") then none else some "[object Object]"
end

/-- Whether a value is truthy; `none` is `undefined`.  The falsy numbers are the
zeros of both signs and `NaN`. -/
def truthy : Option Json → Bool
  | none => false
  | some .null => false
  | some (.bool b) => b
  | some (.num (.finite _ m _)) => m ≠ 0
  | some (.num .nan) => false
  | some (.num _) => true
  | some (.str s) => s ≠ ""
  | some (.arr _) => true
  | some (.obj _) => true

/-- The test `typeof value === 'string'`. -/
def isString : Option Json → Bool
  | some (.str _) => true
  | _ => false

/-- The property read `value.key` on a value that is neither `null` nor
`undefined` (`none` is `undefined`): an own property of an object, the last of
its name; nothing for the names that this program reads on other values. -/
def getField (value : Json) (key : String) : Option Json :=
  match value with
  | .obj fields => (fields.reverse.find? (fun f => f.1 = key)).map (·.2)
  | _ => none

/-- Result of an operation that may throw: `thrown` is an uncaught exception. -/
inductive Outcome (α : Type) where
  | returned (result : α) : Outcome α
  | thrown : Outcome α

/-- Result of `validateImportData`: `none` is `{valid: true}`, `some error` is
`{valid: false, error}`. -/
abbrev ImportValidation := Option String

/-- The function `isValidDateFormat`: the test of the pattern on the string that
the value converts to; it throws when the conversion does. -/
def isValidDateFormat (numberToString : JSNumber → String) (date : Json) : Outcome Bool :=
  match Json.toText numberToString date with
  | some text => .returned (dateRegex.test text.data)
  | none => .thrown

/-- The body of the loop of `validateImportData` for the record at index `i`:
`none` when the record passes, `some error` when a check fails; reading a
property of `null` throws, and so does the date check on a date that has no
string conversion. -/
def checkRecord (numberToString : JSNumber → String) (i : Nat) (record : Json) :
    Outcome (Option String) :=
  match record with
  | .null => .thrown
  | _ =>
    if !truthy (getField record "id") || !isString (getField record "id") then
      .returned (some ("Record " ++ toString i ++ " missing valid id"))
    else if !truthy (getField record "description") ||
        !isString (getField record "description") then
      .returned (some ("Record " ++ toString i ++ " missing valid description"))
    else if (match getField record "amount" with
        | some (.num x) => JSNumber.lt x JSNumber.zero
        | _ => true) then
      .returned (some ("Record " ++ toString i ++ " has invalid amount"))
    else if !truthy (getField record "category") || !isString (getField record "category") then
      .returned (some ("Record " ++ toString i ++ " missing valid category"))
    else if !truthy (getField record "date") then
      .returned (some ("Record " ++ toString i ++ " has invalid date"))
    else
      match getField record "date" with
      | none => .returned (some ("Record " ++ toString i ++ " has invalid date"))
      | some date =>
        match isValidDateFormat numberToString date with
        | .thrown => .thrown
        | .returned ok =>
          if !ok then .returned (some ("Record " ++ toString i ++ " has invalid date"))
          else .returned none

/-- The loop of `validateImportData` from index `i` on. -/
def checkRecords (numberToString : JSNumber → String) : Nat → List Json →
    Outcome ImportValidation
  | _, [] => .returned none
  | i, record :: rest =>
    match checkRecord numberToString i record with
    | .thrown => .thrown
    | .returned (some error) => .returned (some error)
    | .returned none => checkRecords numberToString (i + 1) rest

/-- The function `validateImportData`. -/
def validateImportData (numberToString : JSNumber → String) (data : Json) :
    Outcome ImportValidation :=
  match data with
  | .obj _ =>
    match getField data "records" with
    | some (.arr records) => checkRecords numberToString 0 records
    | _ => .returned (some "Records must be an array")
  | .arr _ => .returned (some "Records must be an array")
  | _ => .returned (some "Invalid data format")

/-- The two items of `localStorage` that the program uses, by the value their
text parses to (`none`: the item is absent). -/
structure LocalStorage where
  data : Option Json
  settings : Option Json

/-- Result of `importData`: `{success: true, count}` or `{success: false, error}`. -/
inductive ImportResult where
  | success (count : Nat) : ImportResult
  | failure (error : String) : ImportResult
  deriving DecidableEq, Repr

/-- The function `saveRecords` on any value, see `saveRecords`. -/
def saveRecordsJson (setItemOk : Bool) (records : Json) (store : LocalStorage) : LocalStorage :=
  if setItemOk then { store with data := some (Json.stored records) } else store

/-- The function `saveSettings`. -/
def saveSettings (setItemOk : Bool) (settings : Json) (store : LocalStorage) : LocalStorage :=
  if setItemOk then { store with settings := some (Json.stored settings) } else store

/-- The function `importData`; `recordsOk` and `settingsOk` tell whether the two
calls of `localStorage.setItem` return.  The validation runs before the `try`
block, so what it throws leaves the function.  After a passed validation
`data.records` is an array, so the last branch is never taken. -/
def importData (numberToString : JSNumber → String) (recordsOk settingsOk : Bool)
    (data : Json) (store : LocalStorage) : Outcome ImportResult × LocalStorage :=
  match validateImportData numberToString data with
  | .thrown => (.thrown, store)
  | .returned (some error) => (.returned (.failure error), store)
  | .returned none =>
    match getField data "records" with
    | some (.arr records) =>
      let store1 := saveRecordsJson recordsOk (.arr records) store
      let store2 :=
        if truthy (getField data "settings") then
          match getField data "settings" with
          | some settings => saveSettings settingsOk settings store1
          | none => store1
        else store1
      (.returned (.success records.length), store2)
    | _ => (.thrown, store)

/-- The function `loadRecords`. -/
def loadRecords (store : LocalStorage) : Json :=
  match store.data with
  | some value => value
  | none => .arr []

/-- The function `getDefaultSettings`. -/
def getDefaultSettings : Json :=
  .obj [("baseCurrency", .str "USD"),
    ("conversionRates", .obj [("EUR", .num (parseFloat "1.09".data)),
      ("GBP", .num (parseFloat "1.27".data))]),
    ("categories", .arr [.str "Food", .str "Books", .str "Transport", .str "Entertainment",
      .str "Fees", .str "Other"]),
    ("budgetCap", .num JSNumber.zero)]

/-- The function `loadSettings`. -/
def loadSettings (store : LocalStorage) : Json :=
  match store.settings with
  | some value => value
  | none => getDefaultSettings

/-- The function `exportData`; `now` is the instant of its `new Date()`. -/
def exportData (now : Int) (store : LocalStorage) : Json :=
  .obj [("records", loadRecords store), ("settings", loadSettings store),
    ("exportDate", .str (toISOString now)), ("version", .str "1.0")]

/-- A record as an object, with its properties in the order `addRecord` and
`updateRecord` create them. -/
def Record.toJson (r : Record) : Json :=
  .obj [("id", .str r.id), ("description", .str r.description), ("amount", .num r.amount),
    ("category", .str r.category), ("date", .str r.date), ("createdAt", .str r.createdAt),
    ("updatedAt", .str r.updatedAt)]

/-- The store after `saveRecords(records)` has written the collection. -/
def storeOfRecords (records : List Record) (settings : Option Json) : LocalStorage :=
  ⟨some (Json.stored (.arr (records.map Record.toJson))), settings⟩

/-- An amount of 310 digits: a one and 309 zeros. -/
def hugeAmount : String := ⟨'1' :: List.replicate 309 '0'⟩

/-- A sample import document: one record whose date is an array holding a date
string. -/
def arrayDateDocument : Json :=
  .obj [("records", .arr [.obj [("id", .str "x1"), ("description", .str "Tea"),
    ("amount", .num (JSNumber.ofNat 3)), ("category", .str "Food"),
    ("date", .arr [.str "2024-01-01"])]])]

/-- A sample import document: one record whose date is the object
`{"toString": 1}`. -/
def objectDateDocument : Json :=
  .obj [("records", .arr [.obj [("id", .str "x1"), ("description", .str "Tea"),
    ("amount", .num (JSNumber.ofNat 3)), ("category", .str "Food"),
    ("date", .obj [("toString", .num (JSNumber.ofNat 1))])]])]

/-- A sample import document: one record whose date is the empty object. -/
def emptyObjectDateDocument : Json :=
  .obj [("records", .arr [.obj [("id", .str "x1"), ("description", .str "Tea"),
    ("amount", .num (JSNumber.ofNat 3)), ("category", .str "Food"),
    ("date", .obj [])]])]

/-- A sample import document: the records array holds `null`. -/
def nullRecordDocument : Json := .obj [("records", .arr [.null])]

/-- A sample import document: a well-formed record, then one without category. -/
def badSecondDocument : Json :=
  .obj [("records", .arr [
    .obj [("id", .str "x1"), ("description", .str "Tea"), ("amount", .num (JSNumber.ofNat 3)),
      ("category", .str "Food"), ("date", .str "2024-01-01")],
    .obj [("id", .str "x2"), ("description", .str "Bus"), ("amount", .num (JSNumber.ofNat 2)),
      ("date", .str "2024-13-01")]]),
    ("settings", .obj [("budgetCap", .num (JSNumber.ofNat 50))])]

/-- The form of a gift of `hugeAmount`. -/
def hugeForm : FormData := ⟨"Gift", hugeAmount, "Other", "2024-03-10"⟩

/-- The record that `addRecord` makes of the form `hugeForm`. -/
def hugeRecord : Record :=
  ⟨"txn_1710072000000_7", "Gift", .posInf, "Other", "2024-03-10",
    "2024-03-10T12:00:00.000Z", "2024-03-10T12:00:00.000Z"⟩

/-! # Theorems -/

/-! ## Regular expressions: the matcher decides the language -/

namespace RE

theorem not_matches_empty (s : List Char) : ¬ Matches empty s := by
  intro h; cases h

theorem matches_eps_iff (s : List Char) : Matches eps s ↔ s = [] := by
  constructor
  · intro h; cases h; rfl
  · rintro rfl; exact Matches.eps

theorem matches_cls_iff (p : Char → Bool) (s : List Char) :
    Matches (cls p) s ↔ ∃ c, s = [c] ∧ p c = true := by
  constructor
  · intro h; cases h with
    | cls _ c hc => exact ⟨c, rfl, hc⟩
  · rintro ⟨c, rfl, hc⟩; exact Matches.cls p c hc

theorem matches_seq_iff (a b : RE) (s : List Char) :
    Matches (seq a b) s ↔ ∃ x y, s = x ++ y ∧ Matches a x ∧ Matches b y := by
  constructor
  · intro h; cases h with
    | seq _ _ x y hx hy => exact ⟨x, y, rfl, hx, hy⟩
  · rintro ⟨x, y, rfl, hx, hy⟩; exact Matches.seq a b x y hx hy

theorem matches_alt_iff (a b : RE) (s : List Char) :
    Matches (alt a b) s ↔ Matches a s ∨ Matches b s := by
  constructor
  · intro h; cases h with
    | altL _ _ _ h => exact Or.inl h
    | altR _ _ _ h => exact Or.inr h
  · rintro (h | h)
    · exact Matches.altL a b s h
    · exact Matches.altR a b s h

theorem nullable_iff (r : RE) : nullable r = true ↔ Matches r [] := by
  induction r with
  | empty => simp [nullable, not_matches_empty]
  | eps => simp [nullable, matches_eps_iff]
  | cls p => simp [nullable, matches_cls_iff]
  | seq a b iha ihb =>
    simp only [nullable, Bool.and_eq_true, iha, ihb, matches_seq_iff]
    constructor
    · rintro ⟨ha, hb⟩; exact ⟨[], [], rfl, ha, hb⟩
    · rintro ⟨x, y, hxy, hx, hy⟩
      have h := List.append_eq_nil.mp hxy.symm
      rw [h.1] at hx; rw [h.2] at hy
      exact ⟨hx, hy⟩
  | alt a b iha ihb => simp [nullable, iha, ihb, matches_alt_iff]
  | star a _ => simp only [nullable, true_iff]; exact Matches.starNil a

theorem star_cons_split (a : RE) (t : List Char) (h : Matches (star a) t) :
    ∀ c s, t = c :: s → ∃ x y, s = x ++ y ∧ Matches a (c :: x) ∧ Matches (star a) y := by
  generalize hr : star a = r at h
  induction h with
  | eps => cases hr
  | cls _ _ _ => cases hr
  | seq _ _ _ _ _ _ _ _ => cases hr
  | altL _ _ _ _ _ => cases hr
  | altR _ _ _ _ _ => cases hr
  | starNil _ => intro c s h; cases h
  | starCons a1 x y hx hy _ ih2 =>
    cases hr
    intro c s hcs
    cases x with
    | nil => exact ih2 rfl c s (by simpa using hcs)
    | cons d x1 =>
      simp only [List.cons_append, List.cons.injEq] at hcs
      obtain ⟨rfl, rfl⟩ := hcs
      exact ⟨x1, y, rfl, hx, hy⟩

theorem deriv_iff (r : RE) : ∀ (c : Char) (s : List Char),
    Matches (deriv r c) s ↔ Matches r (c :: s) := by
  induction r with
  | empty => intro c s; simp [deriv, not_matches_empty]
  | eps => intro c s; simp [deriv, not_matches_empty, matches_eps_iff]
  | cls p =>
    intro c s
    by_cases hp : p c = true
    · simp only [deriv, hp, if_true, matches_eps_iff, matches_cls_iff]
      constructor
      · rintro rfl; exact ⟨c, rfl, hp⟩
      · rintro ⟨d, hd, _⟩
        simp only [List.cons.injEq] at hd
        exact hd.2
    · simp only [deriv, hp, matches_cls_iff]
      constructor
      · intro h; exact absurd h (not_matches_empty s)
      · rintro ⟨d, hd, hpd⟩
        simp only [List.cons.injEq] at hd
        rw [← hd.1] at hpd
        exact absurd hpd hp
  | seq a b iha ihb =>
    intro c s
    have key : Matches (seq a b) (c :: s) ↔
        (∃ x y, s = x ++ y ∧ Matches a (c :: x) ∧ Matches b y) ∨
        (Matches a [] ∧ Matches b (c :: s)) := by
      rw [matches_seq_iff]
      constructor
      · rintro ⟨x, y, hxy, hx, hy⟩
        cases x with
        | nil => right; simp only [List.nil_append] at hxy; rw [hxy]; exact ⟨hx, hy⟩
        | cons d x1 =>
          simp only [List.cons_append, List.cons.injEq] at hxy
          obtain ⟨rfl, rfl⟩ := hxy
          exact Or.inl ⟨x1, y, rfl, hx, hy⟩
      · rintro (⟨x, y, rfl, hx, hy⟩ | ⟨hx, hy⟩)
        · exact ⟨c :: x, y, rfl, hx, hy⟩
        · exact ⟨[], c :: s, rfl, hx, hy⟩
    rw [key]
    by_cases hn : nullable a = true
    · simp only [deriv, hn, if_true, matches_alt_iff, matches_seq_iff, iha, ihb]
      have hn1 := (nullable_iff a).mp hn
      constructor
      · rintro (h | h)
        · exact Or.inl h
        · exact Or.inr ⟨hn1, h⟩
      · rintro (h | h)
        · exact Or.inl h
        · exact Or.inr h.2
    · have hn0 : nullable a = false := by simpa using hn
      simp only [deriv, hn0, Bool.false_eq_true, if_false, matches_seq_iff, iha]
      constructor
      · intro h; exact Or.inl h
      · rintro (h | h)
        · exact h
        · exact absurd ((nullable_iff a).mpr h.1) hn
  | alt a b iha ihb => intro c s; simp [deriv, matches_alt_iff, iha, ihb]
  | star a iha =>
    intro c s
    simp only [deriv, matches_seq_iff, iha]
    constructor
    · rintro ⟨x, y, rfl, hx, hy⟩
      exact Matches.starCons a (c :: x) y hx hy
    · intro h
      exact star_cons_split a (c :: s) h c s rfl

theorem test_iff (r : RE) (s : List Char) : test r s = true ↔ Matches r s := by
  induction s generalizing r with
  | nil => exact nullable_iff r
  | cons c s ih => simp only [test]; rw [ih, deriv_iff]

end RE

/-! ## Numbers: facts about the conversion of decimal numerals -/

namespace JSNumber

theorem log2Fuel_spec (fuel n : Nat) (hn : 0 < n) (hf : n ≤ fuel) :
    2 ^ log2Fuel fuel n ≤ n ∧ n < 2 ^ (log2Fuel fuel n + 1) := by
  induction fuel generalizing n with
  | zero => omega
  | succ f ih =>
    unfold log2Fuel
    by_cases h2 : n < 2
    · simp only [h2, if_true]
      constructor <;> simp <;> omega
    · simp only [h2, if_false]
      have h := ih (n / 2) (by omega) (by omega)
      obtain ⟨h1, h3⟩ := h
      constructor
      · rw [pow_succ]; omega
      · rw [pow_succ]; omega

theorem log2_spec (n : Nat) (hn : 0 < n) : 2 ^ log2 n ≤ n ∧ n < 2 ^ (log2 n + 1) :=
  log2Fuel_spec n n hn (le_refl n)

theorem normalizeFuel_pos (fuel m : Nat) (e : Int) (hm : 0 < m) :
    0 < (normalizeFuel fuel m e).1 := by
  induction fuel generalizing m e with
  | zero => simpa [normalizeFuel] using hm
  | succ f ih =>
    unfold normalizeFuel
    by_cases h : m % 2 = 0
    · simp only [h, if_true]
      exact ih (m / 2) (e + 1) (by omega)
    · simp only [h, if_false]; exact hm

theorem mkFinite_pos (m : Nat) (e : Int) (hm : 0 < m) : (mkFinite m e).isPositive = true := by
  unfold mkFinite
  have h0 : m ≠ 0 := by omega
  simp only [h0, if_false, isPositive, Bool.not_false, Bool.true_and, decide_eq_true_eq]
  exact normalizeFuel_pos m m e hm

theorem roundHalfEven_pos (a b : Nat) (hb : 0 < b) (hab : b ≤ a) : 0 < roundHalfEven a b := by
  have hq : 0 < a / b := Nat.div_pos hab hb
  unfold roundHalfEven
  simp only
  split_ifs <;> omega

theorem zero_not_pos : zero.isPositive = false := by decide

end JSNumber
namespace JSNumber

theorem zpow_mul_le_iff (num den : Nat) (e : Int) :
    (2 : ℚ) ^ e * den ≤ num ↔
      if e < 0 then den ≤ num * 2 ^ e.natAbs else den * 2 ^ e.natAbs ≤ num := by
  have h2 : (0 : ℚ) < 2 ^ e.natAbs := by positivity
  by_cases he : e < 0
  · simp only [he, if_true]
    have hab : e = -((e.natAbs : Nat) : Int) := by omega
    conv_lhs => rw [hab, zpow_neg, zpow_natCast]
    rw [inv_mul_le_iff₀ h2]
    constructor
    · intro h
      have : ((den : Nat) : ℚ) ≤ ((num * 2 ^ e.natAbs : Nat) : ℚ) := by
        push_cast; linarith
      exact_mod_cast this
    · intro h
      have : ((den : Nat) : ℚ) ≤ ((num * 2 ^ e.natAbs : Nat) : ℚ) := by exact_mod_cast h
      push_cast at this; linarith
  · simp only [he, if_false]
    have hab : e = ((e.natAbs : Nat) : Int) := by omega
    conv_lhs => rw [hab, zpow_natCast]
    constructor
    · intro h
      have : ((den * 2 ^ e.natAbs : Nat) : ℚ) ≤ ((num : Nat) : ℚ) := by
        push_cast; linarith
      exact_mod_cast this
    · intro h
      have : ((den * 2 ^ e.natAbs : Nat) : ℚ) ≤ ((num : Nat) : ℚ) := by exact_mod_cast h
      push_cast at this; linarith

theorem floorLog2_lower (num den : Nat) (hn : 0 < num) (hd : 0 < den) :
    (2 : ℚ) ^ floorLog2 num den * den ≤ num := by
  obtain ⟨hp1, _⟩ := log2_spec num hn
  obtain ⟨_, hq2⟩ := log2_spec den hd
  have hstep : (2 : ℚ) ^ ((log2 num : Int) - (log2 den : Int) - 1) * den ≤ num := by
    have e1 : (2 : ℚ) ^ ((log2 num : Int) - (log2 den : Int) - 1) * 2 ^ ((log2 den : Int) + 1)
        = 2 ^ (log2 num : Int) := by
      rw [← zpow_add₀ (by norm_num : (2 : ℚ) ≠ 0)]
      congr 1; ring
    have hdq : (den : ℚ) ≤ 2 ^ ((log2 den : Int) + 1) := by
      have : ((den : Nat) : ℚ) ≤ ((2 ^ (log2 den + 1) : Nat) : ℚ) := by
        exact_mod_cast (le_of_lt hq2)
      have e2 : (2 : ℚ) ^ ((log2 den : Int) + 1) = ((2 ^ (log2 den + 1) : Nat) : ℚ) := by
        push_cast
        rw [← zpow_natCast]; norm_cast
      rw [e2]; exact this
    have hpn : (2 : ℚ) ^ (log2 num : Int) ≤ num := by
      rw [zpow_natCast]
      exact_mod_cast hp1
    have hpos : (0 : ℚ) ≤ 2 ^ ((log2 num : Int) - (log2 den : Int) - 1) := by positivity
    calc (2 : ℚ) ^ ((log2 num : Int) - (log2 den : Int) - 1) * den
        ≤ 2 ^ ((log2 num : Int) - (log2 den : Int) - 1) * 2 ^ ((log2 den : Int) + 1) :=
          mul_le_mul_of_nonneg_left hdq hpos
      _ = 2 ^ (log2 num : Int) := e1
      _ ≤ num := hpn
  unfold floorLog2
  simp only
  split_ifs with h1 h2 h3
  · exact hstep
  · rw [zpow_mul_le_iff]; simp only [h1, if_true]; omega
  · exact hstep
  · rw [zpow_mul_le_iff]; simp only [h1, if_false]; omega

theorem floorLog2_upper (num den : Nat) (hn : 0 < num) (hd : 0 < den) :
    ¬ ((2 : ℚ) ^ (floorLog2 num den + 1) * den ≤ num) := by
  obtain ⟨_, hp2⟩ := log2_spec num hn
  obtain ⟨hq1, _⟩ := log2_spec den hd
  have hstep : ¬ ((2 : ℚ) ^ ((log2 num : Int) - (log2 den : Int) + 1) * den ≤ num) := by
    intro hle
    have e1 : (2 : ℚ) ^ ((log2 num : Int) - (log2 den : Int) + 1) * 2 ^ (log2 den : Int)
        = 2 ^ ((log2 num : Int) + 1) := by
      rw [← zpow_add₀ (by norm_num : (2 : ℚ) ≠ 0)]
      congr 1; ring
    have hdq : (2 : ℚ) ^ (log2 den : Int) ≤ den := by
      rw [zpow_natCast]
      exact_mod_cast hq1
    have hpn : (num : ℚ) < 2 ^ ((log2 num : Int) + 1) := by
      have : ((num : Nat) : ℚ) < ((2 ^ (log2 num + 1) : Nat) : ℚ) := by exact_mod_cast hp2
      have e2 : (2 : ℚ) ^ ((log2 num : Int) + 1) = ((2 ^ (log2 num + 1) : Nat) : ℚ) := by
        push_cast
        rw [← zpow_natCast]; norm_cast
      rw [e2]; exact this
    have hpos : (0 : ℚ) ≤ 2 ^ ((log2 num : Int) - (log2 den : Int) + 1) := by positivity
    have := mul_le_mul_of_nonneg_left hdq hpos
    rw [e1] at this
    linarith
  unfold floorLog2
  simp only
  split_ifs with h1 h2 h3
  · rw [sub_add_cancel, zpow_mul_le_iff]; simp only [h1, if_true]; omega
  · exact hstep
  · rw [sub_add_cancel, zpow_mul_le_iff]; simp only [h1, if_false]; omega
  · exact hstep

end JSNumber
namespace JSNumber

theorem roundToDouble_pos (num den j : Nat) (hn : 0 < num) (hd : 0 < den) (hj : j ≤ 1074)
    (hx : den ≤ num * 2 ^ j) : (roundToDouble num den).isPositive = true := by
  have hlow := floorLog2_lower num den hn hd
  have hup := floorLog2_upper num den hn hd
  have hmin : (2 : ℚ) ^ (-(j : Int)) * den ≤ num := by
    rw [zpow_mul_le_iff, Int.natAbs_neg, Int.natAbs_ofNat]
    split_ifs
    · exact hx
    · have hj0 : j = 0 := by omega
      subst hj0
      simpa using hx
  have hden : (0 : ℚ) ≤ den := by positivity
  have he : -1074 ≤ floorLog2 num den := by
    by_contra hlt
    apply hup
    have h1 : (2 : ℚ) ^ (floorLog2 num den + 1) ≤ 2 ^ (-(j : Int)) :=
      zpow_le_zpow_right₀ (by norm_num) (by omega)
    exact le_trans (mul_le_mul_of_nonneg_right h1 hden) hmin
  have hs : (2 : ℚ) ^ (max (floorLog2 num den - 52) (-1074)) * den ≤ num := by
    have h1 : (2 : ℚ) ^ (max (floorLog2 num den - 52) (-1074)) ≤ 2 ^ floorLog2 num den :=
      zpow_le_zpow_right₀ (by norm_num) (by omega)
    exact le_trans (mul_le_mul_of_nonneg_right h1 hden) hlow
  rw [zpow_mul_le_iff] at hs
  unfold roundToDouble
  have hn0 : num ≠ 0 := by omega
  simp only [hn0, if_false]
  split_ifs with h1 h2 h3 h4
  · rfl
  · rfl
  · simp only [h2, if_true] at hs
    exact mkFinite_pos _ _ (roundHalfEven_pos _ _ hd hs)
  · rfl
  · simp only [h2, if_false] at hs
    exact mkFinite_pos _ _ (roundHalfEven_pos _ _ (by positivity) hs)

theorem roundToDouble_ne_zero (num den j : Nat) (hn : 0 < num) (hd : 0 < den) (hj : j ≤ 1074)
    (hx : den ≤ num * 2 ^ j) : roundToDouble num den ≠ zero := by
  intro h
  have := roundToDouble_pos num den j hn hd hj hx
  rw [h] at this
  exact absurd this (by decide)

theorem roundToDouble_zero (den : Nat) : roundToDouble 0 den = zero := by
  simp [roundToDouble]

end JSNumber
/-! ## Lists of characters -/

theorem takeWhile_append_all (p : Char → Bool) (xs rest : List Char)
    (h : ∀ c ∈ xs, p c = true) :
    (xs ++ rest).takeWhile p = xs ++ rest.takeWhile p := by
  induction xs with
  | nil => rfl
  | cons x xs ih =>
    have hx : p x = true := h x (List.mem_cons_self x xs)
    simp only [List.cons_append, List.takeWhile_cons, hx, if_true]
    rw [ih (fun c hc => h c (List.mem_cons_of_mem x hc))]

theorem dropWhile_append_all (p : Char → Bool) (xs rest : List Char)
    (h : ∀ c ∈ xs, p c = true) :
    (xs ++ rest).dropWhile p = rest.dropWhile p := by
  induction xs with
  | nil => rfl
  | cons x xs ih =>
    have hx : p x = true := h x (List.mem_cons_self x xs)
    simp only [List.cons_append, List.dropWhile_cons, hx, if_true]
    exact ih (fun c hc => h c (List.mem_cons_of_mem x hc))

theorem takeWhile_all (p : Char → Bool) (xs : List Char) (h : ∀ c ∈ xs, p c = true) :
    xs.takeWhile p = xs := by
  have := takeWhile_append_all p xs [] h
  simpa using this

theorem dropWhile_all (p : Char → Bool) (xs : List Char) (h : ∀ c ∈ xs, p c = true) :
    xs.dropWhile p = [] := by
  have := dropWhile_append_all p xs [] h
  simpa using this

theorem digit_ne_dot (c : Char) (h : isDigit c = true) : (c != '.') = true := by
  simp only [bne_iff_ne, ne_eq]
  rintro rfl
  exact absurd h (by decide)

theorem dot_not_digit : isDigit '.' = false := by decide

theorem digitsVal_foldl (cs : List Char) (acc : Nat) :
    cs.foldl (fun a c => 10 * a + digitVal c) acc = acc * 10 ^ cs.length + digitsVal cs := by
  induction cs generalizing acc with
  | nil => simp [digitsVal]
  | cons c cs ih =>
    simp only [List.foldl_cons, List.length_cons, digitsVal]
    rw [ih, ih (10 * 0 + digitVal c)]
    ring

theorem digitsVal_append (xs ys : List Char) :
    digitsVal (xs ++ ys) = digitsVal xs * 10 ^ ys.length + digitsVal ys := by
  unfold digitsVal
  rw [List.foldl_append, digitsVal_foldl]
  rfl

namespace RE

theorem matches_star_cls_iff (p : Char → Bool) (s : List Char) :
    Matches (star (cls p)) s ↔ ∀ c ∈ s, p c = true := by
  constructor
  · intro h
    generalize hr : star (cls p) = r at h
    induction h with
    | eps => cases hr
    | cls _ _ _ => cases hr
    | seq _ _ _ _ _ _ _ _ => cases hr
    | altL _ _ _ _ _ => cases hr
    | altR _ _ _ _ _ => cases hr
    | starNil _ => intro c hc; cases hc
    | starCons a x y hx _ _ ih2 =>
      cases hr
      obtain ⟨d, rfl, hd⟩ := (matches_cls_iff p x).mp hx
      intro c hc
      simp only [List.singleton_append, List.mem_cons] at hc
      rcases hc with rfl | hc
      · exact hd
      · exact ih2 rfl c hc
  · intro h
    induction s with
    | nil => exact Matches.starNil _
    | cons c s ih =>
      have h1 : Matches (cls p) [c] := Matches.cls p c (h c (List.mem_cons_self c s))
      exact Matches.starCons (cls p) [c] s h1 (ih (fun d hd => h d (List.mem_cons_of_mem c hd)))

theorem matches_lit_iff (c : Char) (s : List Char) : Matches (lit c) s ↔ s = [c] := by
  unfold lit
  rw [matches_cls_iff]
  constructor
  · rintro ⟨d, rfl, hd⟩
    simp only [decide_eq_true_eq] at hd
    rw [hd]
  · rintro rfl
    exact ⟨c, rfl, by simp⟩

theorem matches_opt_iff (r : RE) (s : List Char) : Matches (opt r) s ↔ Matches r s ∨ s = [] := by
  unfold opt
  rw [matches_alt_iff, matches_eps_iff]

end RE

/-- The shape of the strings of the amount pattern: an integer part `ip` of
digits, not empty, and a fractional part `fp` of at most two digits, preceded
by a point when it is not empty. -/
theorem amountRegex_shape (t : List Char) (h : RE.Matches amountRegex t) :
    ∃ ip fp, (∀ c ∈ ip, isDigit c = true) ∧ ip ≠ [] ∧ (∀ c ∈ fp, isDigit c = true) ∧
      fp.length ≤ 2 ∧ (t = ip ∨ (fp ≠ [] ∧ t = ip ++ '.' :: fp)) ∧ (fp = [] → t = ip) := by
  unfold amountRegex at h
  rw [RE.matches_seq_iff] at h
  obtain ⟨x, y, rfl, hx, hy⟩ := h
  have hip : (∀ c ∈ x, isDigit c = true) ∧ x ≠ [] := by
    rw [RE.matches_alt_iff, RE.matches_lit_iff, RE.matches_seq_iff] at hx
    rcases hx with rfl | ⟨a, b, rfl, ha, hb⟩
    · exact ⟨by decide, by simp⟩
    · unfold reDigit19 at ha
      unfold reDigit at hb
      rw [RE.matches_cls_iff] at ha
      rw [RE.matches_star_cls_iff] at hb
      obtain ⟨d, rfl, hd⟩ := ha
      refine ⟨?_, by simp⟩
      intro c hc
      simp only [List.singleton_append, List.mem_cons] at hc
      rcases hc with rfl | hc
      · simp only [Bool.and_eq_true, decide_eq_true_eq] at hd
        simp only [isDigit, Bool.and_eq_true, decide_eq_true_eq]
        omega
      · exact hb c hc
  rw [RE.matches_opt_iff, RE.matches_seq_iff] at hy
  rcases hy with ⟨a, b, rfl, ha, hb⟩ | rfl
  · rw [RE.matches_lit_iff] at ha
    subst ha
    rw [RE.matches_seq_iff] at hb
    obtain ⟨u, v, rfl, hu, hv⟩ := hb
    unfold reDigit at hu hv
    rw [RE.matches_cls_iff] at hu
    obtain ⟨d1, rfl, hd1⟩ := hu
    rw [RE.matches_opt_iff, RE.matches_cls_iff] at hv
    rcases hv with ⟨d2, rfl, hd2⟩ | rfl
    · refine ⟨x, [d1, d2], hip.1, hip.2, ?_, by simp, Or.inr ⟨by simp, by simp⟩, by simp⟩
      intro c hc
      simp only [List.mem_cons, List.mem_singleton, List.not_mem_nil, or_false] at hc
      rcases hc with rfl | rfl
      · exact hd1
      · exact hd2
    · refine ⟨x, [d1], hip.1, hip.2, ?_, by simp, Or.inr ⟨by simp, by simp⟩, by simp⟩
      intro c hc
      simp only [List.mem_singleton] at hc
      rw [hc]; exact hd1
  · exact ⟨x, [], hip.1, hip.2, by simp, by simp, Or.inl (by simp), by simp⟩

theorem decimalPrefix_of_shape (ip fp : List Char) (hip : ∀ c ∈ ip, isDigit c = true)
    (hne : ip ≠ []) (hfp : ∀ c ∈ fp, isDigit c = true) :
    decimalPrefix ip = some (ip, []) ∧ decimalPrefix (ip ++ '.' :: fp) = some (ip, fp) := by
  constructor
  · unfold decimalPrefix
    simp only [takeWhile_all isDigit ip hip, dropWhile_all isDigit ip hip, hne, if_false]
  · unfold decimalPrefix
    simp only [takeWhile_append_all isDigit ip _ hip, dropWhile_append_all isDigit ip _ hip,
      List.takeWhile_cons, List.dropWhile_cons, dot_not_digit, Bool.false_eq_true, if_false,
      List.append_nil, takeWhile_all isDigit fp hfp, hne, false_and]

theorem decimalValue_of_shape (ip fp : List Char) (hip : ∀ c ∈ ip, isDigit c = true) :
    decimalValue ip = (digitsVal ip : ℚ) ∧
    decimalValue (ip ++ '.' :: fp) = (digitsVal (ip ++ fp) : ℚ) / 10 ^ fp.length := by
  have hip1 : ∀ c ∈ ip, (fun c => c != '.') c = true := fun c hc => digit_ne_dot c (hip c hc)
  constructor
  · unfold decimalValue
    simp only [takeWhile_all _ ip hip1, dropWhile_all _ ip hip1]
    simp [digitsVal]
  · unfold decimalValue
    simp only [takeWhile_append_all _ ip _ hip1, dropWhile_append_all _ ip _ hip1,
      List.takeWhile_cons, List.dropWhile_cons, bne_self_eq_false, Bool.false_eq_true, if_false,
      List.append_nil, List.drop_succ_cons, List.drop_zero, digitsVal_append]
    have h10 : (10 : ℚ) ^ fp.length ≠ 0 := by positivity
    push_cast
    field_simp

theorem parseFloat_of_matches (t : List Char) (h : RE.Matches amountRegex t) :
    ∃ n k : Nat, k ≤ 2 ∧ decimalValue t = (n : ℚ) / 10 ^ k ∧
      parseFloat t = JSNumber.roundToDouble n (10 ^ k) := by
  obtain ⟨ip, fp, hip, hne, hfp, hlen, ht, _⟩ := amountRegex_shape t h
  have hp := decimalPrefix_of_shape ip fp hip hne hfp
  have hv := decimalValue_of_shape ip fp hip
  rcases ht with rfl | ⟨_, rfl⟩
  · refine ⟨digitsVal t, 0, by omega, ?_, ?_⟩
    · rw [hv.1]; simp
    · unfold parseFloat
      rw [hp.1]
      simp
  · refine ⟨digitsVal (ip ++ fp), fp.length, hlen, hv.2, ?_⟩
    unfold parseFloat
    rw [hp.2]

theorem pow_ten_le (n k : Nat) (hn : 0 < n) (hk : k ≤ 2) : 10 ^ k ≤ n * 2 ^ 7 := by
  have h1 : 10 ^ k ≤ 10 ^ 2 := Nat.pow_le_pow_right (by omega) hk
  have h3 : 2 ^ 7 ≤ n * 2 ^ 7 := Nat.le_mul_of_pos_left _ hn
  have h4 : (10 : Nat) ^ 2 ≤ 2 ^ 7 := by decide
  exact le_trans h1 (le_trans h4 h3)

theorem validateAmount_cases (s : String) :
    (RE.Matches amountRegex (trim s).data ∧ decimalValue (trim s).data ≠ 0 ∧
      ∃ n k : Nat, k ≤ 2 ∧ decimalValue (trim s).data = (n : ℚ) / 10 ^ k ∧
        validateAmount s = .valid (JSNumber.roundToDouble n (10 ^ k)) ∧
        (JSNumber.roundToDouble n (10 ^ k)).isPositive = true) ∨
    (¬ (RE.Matches amountRegex (trim s).data ∧ decimalValue (trim s).data ≠ 0) ∧
      ∃ e, validateAmount s = .invalid e) := by
  by_cases hm : RE.Matches amountRegex (trim s).data
  · have htest : amountRegex.test (trim s).data = true := (RE.test_iff _ _).mpr hm
    have hne : (trim s).data ≠ [] := by
      intro h0
      rw [h0] at htest
      exact absurd htest (by decide)
    obtain ⟨n, k, hk, hv, hpf⟩ := parseFloat_of_matches _ hm
    have h10 : (10 : ℚ) ^ k ≠ 0 := by positivity
    by_cases hn : n = 0
    · right
      refine ⟨?_, "Amount must be greater than zero", ?_⟩
      · rintro ⟨_, h⟩
        apply h
        rw [hv, hn]; simp
      · unfold validateAmount
        simp only [hne, if_false, htest, Bool.not_true, Bool.false_eq_true, hpf, hn,
          JSNumber.roundToDouble_zero, if_true]
    · left
      have hpos : 0 < n := Nat.pos_of_ne_zero hn
      have hnz := JSNumber.roundToDouble_ne_zero n (10 ^ k) 7 hpos (by positivity) (by omega)
        (pow_ten_le n k hpos hk)
      refine ⟨hm, ?_, n, k, hk, hv, ?_, ?_⟩
      · rw [hv]
        have : (n : ℚ) ≠ 0 := by exact_mod_cast hn
        exact div_ne_zero this h10
      · unfold validateAmount
        simp only [hne, if_false, htest, Bool.not_true, Bool.false_eq_true, hpf, hnz]
      · exact JSNumber.roundToDouble_pos n (10 ^ k) 7 hpos (by positivity) (by omega)
          (pow_ten_le n k hpos hk)
  · right
    refine ⟨fun h => hm h.1, ?_⟩
    have htest : amountRegex.test (trim s).data = false := by
      by_contra h
      exact hm ((RE.test_iff _ _).mp (by simpa using h))
    unfold validateAmount
    by_cases hne : (trim s).data = []
    · exact ⟨"Amount is required", by simp only [hne, if_true]⟩
    · exact ⟨"Enter a valid positive number with up to 2 decimal places",
        by simp only [hne, if_false, htest, Bool.not_false, if_true]⟩

/-- C1 (as amended): `validateAmount(s)` is valid exactly when `trim(s)` matches
`^(0|[1-9]\d*)(\.\d{1,2})?$` and its decimal value is not zero; the returned
value is then the binary64 number nearest to that decimal value `n / 10^k`
(`k ≤ 2`), which is strictly positive.  `"12.5"` is valid with value 12.5, and
`"0"`, `"0.00"`, `"12.555"`, `"-3.00"` are invalid. -/
theorem validateAmount_spec :
    (∀ s : String,
      ((validateAmount s).isValid = true ↔
        (RE.Matches amountRegex (trim s).data ∧ decimalValue (trim s).data ≠ 0)) ∧
      (∀ v, validateAmount s = .valid v →
        ∃ n k : Nat, k ≤ 2 ∧ decimalValue (trim s).data = (n : ℚ) / 10 ^ k ∧
          v = JSNumber.roundToDouble n (10 ^ k) ∧ v.isPositive = true)) ∧
    validateAmount "12.5" = .valid (.finite false 25 (-1)) ∧
    (JSNumber.finite false 25 (-1)).toRat = some 12.5 ∧
    (validateAmount "0").isValid = false ∧ (validateAmount "0.00").isValid = false ∧
    (validateAmount "12.555").isValid = false ∧ (validateAmount "-3.00").isValid = false := by
  refine ⟨fun s => ⟨?_, ?_⟩, by decide, ?_, by decide, by decide, by decide, by decide⟩
  · rcases validateAmount_cases s with ⟨hm, hv, n, k, _, _, hval, _⟩ | ⟨hn, e, hval⟩
    · rw [hval]
      exact ⟨fun _ => ⟨hm, hv⟩, fun _ => rfl⟩
    · rw [hval]
      exact ⟨fun h => absurd h (by simp [Validation.isValid]), fun h => absurd h hn⟩
  · intro v hv
    rcases validateAmount_cases s with ⟨_, _, n, k, hk, hd, hval, hpos⟩ | ⟨_, e, hval⟩
    · rw [hval] at hv
      cases hv
      exact ⟨n, k, hk, hd, rfl, hpos⟩
    · rw [hval] at hv
      cases hv
  · simp only [JSNumber.toRat]
    norm_num

/-- Witness of C1: the second part applied to the accepted input `"12.5"`. -/
theorem validateAmount_spec_witness :
    ∃ n k : Nat, k ≤ 2 ∧ decimalValue (trim "12.5").data = (n : ℚ) / 10 ^ k ∧
      JSNumber.finite false 25 (-1) = JSNumber.roundToDouble n (10 ^ k) ∧
      (JSNumber.finite false 25 (-1)).isPositive = true :=
  (validateAmount_spec.1 "12.5").2 _ (by decide)

/-- C1 (counterexample): `"9007199254740993"` is accepted, but the value returned
is `2^53 = 9007199254740992`, not the decimal value of the input. -/
theorem validateAmount_value_not_decimal :
    validateAmount "9007199254740993" = .valid (.finite false 1 53) ∧
    (JSNumber.finite false 1 53).toRat = some 9007199254740992 ∧
    decimalValue (trim "9007199254740993").data = 9007199254740993 ∧
    (JSNumber.finite false 1 53).toRat ≠ some (decimalValue (trim "9007199254740993").data) := by
  have hd : decimalValue (trim "9007199254740993").data = 9007199254740993 := by
    have ht : (trim "9007199254740993").data = "9007199254740993".data := by decide
    rw [ht]
    have h := (decimalValue_of_shape "9007199254740993".data [] (by decide)).1
    rw [h]
    have : digitsVal "9007199254740993".data = 9007199254740993 := by decide
    rw [this]
    norm_num
  have hr : (JSNumber.finite false 1 53).toRat = some 9007199254740992 := by
    simp only [JSNumber.toRat]
    norm_num
  refine ⟨by decide, hr, hd, ?_⟩
  rw [hr, hd]
  norm_num

/-! ## Trimming -/

theorem dropWhile_head_not (p : Char → Bool) (xs : List Char) (c : Char)
    (h : (xs.dropWhile p).head? = some c) : p c = false := by
  induction xs with
  | nil => simp at h
  | cons x xs ih =>
    rw [List.dropWhile_cons] at h
    by_cases hx : p x = true
    · simp only [hx, if_true] at h
      exact ih h
    · simp only [hx, Bool.false_eq_true, if_false, List.head?_cons, Option.some.injEq] at h
      rw [← h]
      simpa using hx

theorem dropWhile_eq_self_of_head (p : Char → Bool) (xs : List Char)
    (h : ∀ c, xs.head? = some c → p c = false) : xs.dropWhile p = xs := by
  cases xs with
  | nil => rfl
  | cons x xs =>
    have hx : p x = false := h x rfl
    simp [List.dropWhile_cons, hx]

theorem trimEnd_getLast (xs : List Char) (c : Char)
    (h : (trimEnd xs).getLast? = some c) : isWhiteSpace c = false := by
  unfold trimEnd at h
  rw [List.getLast?_reverse] at h
  exact dropWhile_head_not _ _ c h

theorem trimEnd_eq_self (xs : List Char)
    (h : ∀ c, xs.getLast? = some c → isWhiteSpace c = false) : trimEnd xs = xs := by
  unfold trimEnd
  rw [dropWhile_eq_self_of_head _ _ (by rw [List.head?_reverse]; exact h), List.reverse_reverse]

theorem trimEnd_append (xs : List Char) : ∃ w, xs = trimEnd xs ++ w := by
  refine ⟨(xs.reverse.takeWhile isWhiteSpace).reverse, ?_⟩
  unfold trimEnd
  rw [← List.reverse_append, List.takeWhile_append_dropWhile, List.reverse_reverse]

theorem trimEnd_head (xs : List Char) (c : Char) (h : (trimEnd xs).head? = some c) :
    xs.head? = some c := by
  obtain ⟨w, hw⟩ := trimEnd_append xs
  rw [hw]
  cases hx : trimEnd xs with
  | nil => rw [hx] at h; simp at h
  | cons a as => rw [hx] at h; simpa using h

theorem trimChars_head (cs : List Char) (c : Char) (h : (trimChars cs).head? = some c) :
    isWhiteSpace c = false :=
  dropWhile_head_not _ _ c (trimEnd_head _ c h)

theorem trimChars_getLast (cs : List Char) (c : Char) (h : (trimChars cs).getLast? = some c) :
    isWhiteSpace c = false :=
  trimEnd_getLast _ c h

theorem trimChars_idem (cs : List Char) : trimChars (trimChars cs) = trimChars cs := by
  have h1 : (trimChars cs).dropWhile isWhiteSpace = trimChars cs :=
    dropWhile_eq_self_of_head _ _ (trimChars_head cs)
  have h2 : trimEnd (trimChars cs) = trimChars cs :=
    trimEnd_eq_self _ (trimChars_getLast cs)
  show trimEnd ((trimChars cs).dropWhile isWhiteSpace) = trimChars cs
  rw [h1, h2]

theorem trim_idem (s : String) : trim (trim s) = trim s := by
  unfold trim
  simp only [trimChars_idem]

/-! ## The duplicate-word test finds every repeated word -/

theorem isWordChar_of_canonCode (c d : Char) (h : canonCode c = canonCode d) :
    isWordChar c = isWordChar d := by
  unfold canonCode at h
  unfold isWordChar isLetter isDigit
  have e : ∀ (a b : Bool), (a = true ↔ b = true) → a = b := by
    intro a b; cases a <;> cases b <;> simp
  apply e
  simp only [Bool.or_eq_true, Bool.and_eq_true, decide_eq_true_eq]
  split_ifs at h <;> omega

theorem matchBackref_of_map (w w2 post : List Char) (h : w2.map canonCode = w.map canonCode) :
    matchBackref w (w2 ++ post) = some (w2, post) := by
  induction w generalizing w2 with
  | nil =>
    have : w2 = [] := by simpa using h
    subst this
    rfl
  | cons c w ih =>
    cases w2 with
    | nil => simp at h
    | cons d w2 =>
      simp only [List.map_cons, List.cons.injEq] at h
      have ih2 := ih w2 h.2
      simp only [List.cons_append, matchBackref, h.1.symm, if_true]
      rw [show w2.append post = w2 ++ post from rfl, ih2]

theorem getLast_word_of_map (w w2 : List Char) (h : w2.map canonCode = w.map canonCode)
    (hne : w ≠ []) (hw : ∀ c ∈ w, isWordChar c = true) : isWordAt w2.getLast? = true := by
  induction w generalizing w2 with
  | nil => exact absurd rfl hne
  | cons c w ih =>
    cases w2 with
    | nil => simp at h
    | cons d w2 =>
      simp only [List.map_cons, List.cons.injEq] at h
      cases w2 with
      | nil =>
        simp only [List.getLast?_singleton, isWordAt]
        rw [isWordChar_of_canonCode d c h.1]
        exact hw c (List.mem_cons_self c w)
      | cons d2 w3 =>
        rw [List.getLast?_cons_cons]
        have hwne : w ≠ [] := by
          intro h0
          rw [h0] at h
          simp at h
        exact ih (d2 :: w3) h.2 hwne (fun x hx => hw x (List.mem_cons_of_mem c hx))

theorem dupBackref_of_map (w w2 post : List Char) (h : w2.map canonCode = w.map canonCode)
    (hne : w ≠ []) (hw : ∀ c ∈ w, isWordChar c = true) (hpost : isWordAt post.head? = false) :
    dupBackref w (w2 ++ post) = true := by
  unfold dupBackref
  rw [matchBackref_of_map w w2 post h]
  simp only [wordBoundary, getLast_word_of_map w w2 h hne hw, hpost]
  rfl

theorem dupAfterWord_of_gap (w gap rest : List Char) (hne : gap ≠ [])
    (hg : ∀ c ∈ gap, isWhiteSpace c = true) (hrest : dupBackref w rest = true) :
    dupAfterWord w (gap ++ rest) = true := by
  induction gap with
  | nil => exact absurd rfl hne
  | cons g gap ih =>
    have hg1 : isWhiteSpace g = true := hg g (List.mem_cons_self g gap)
    simp only [List.cons_append, dupAfterWord, hg1, Bool.true_and, Bool.or_eq_true]
    cases gap with
    | nil => left; simpa using hrest
    | cons g2 gap2 =>
      right
      exact ih (by simp) (fun c hc => hg c (List.mem_cons_of_mem g hc))

theorem dupFromGroup_of_word (acc w rest : List Char) (hne : w ≠ [])
    (hw : ∀ c ∈ w, isWordChar c = true) (hrest : dupAfterWord (acc ++ w) rest = true) :
    dupFromGroup acc (w ++ rest) = true := by
  induction w generalizing acc with
  | nil => exact absurd rfl hne
  | cons c w ih =>
    have hc : isWordChar c = true := hw c (List.mem_cons_self c w)
    simp only [List.cons_append, dupFromGroup, hc, Bool.true_and, Bool.or_eq_true]
    cases w with
    | nil => left; simpa using hrest
    | cons c2 w2 =>
      right
      apply ih (acc ++ [c]) (by simp) (fun x hx => hw x (List.mem_cons_of_mem c hx))
      simpa using hrest

theorem dupSearch_of_start (prev : Option Char) (pre w rest : List Char)
    (hb : isWordAt (match pre.getLast? with
      | some c => some c
      | none => prev) = false)
    (hne : w ≠ []) (hw : ∀ c ∈ w, isWordChar c = true)
    (hrest : dupFromGroup [] (w ++ rest) = true) :
    dupSearch prev (pre ++ w ++ rest) = true := by
  induction pre generalizing prev with
  | nil =>
    cases w with
    | nil => exact absurd rfl hne
    | cons c w1 =>
      have hc : isWordChar c = true := hw c (List.mem_cons_self c w1)
      simp only [List.getLast?_nil] at hb
      simp only [List.nil_append, List.cons_append, dupSearch, Bool.or_eq_true,
        Bool.and_eq_true]
      left
      refine ⟨?_, by simpa using hrest⟩
      unfold wordBoundary
      rw [hb]
      simp only [isWordAt, hc]
      rfl
  | cons x pre ih =>
    simp only [List.cons_append, dupSearch, Bool.or_eq_true]
    right
    have := ih (some x) (by
      cases pre with
      | nil => simpa using hb
      | cons y pre2 =>
        rw [List.getLast?_cons_cons] at hb
        exact hb)
    simpa using this

theorem duplicateWordTest_of_repeated (t : List Char) (h : HasRepeatedWord t) :
    duplicateWordTest t = true := by
  obtain ⟨pre, w, gap, w2, post, rfl, hne, hw, hgne, hg, hmap, hpre, hpost⟩ := h
  unfold duplicateWordTest
  have h1 := dupBackref_of_map w w2 post hmap hne hw hpost
  have h2 := dupAfterWord_of_gap w gap (w2 ++ post) hgne hg h1
  have h3 := dupFromGroup_of_word [] w (gap ++ (w2 ++ post)) hne hw (by simpa using h2)
  have h4 := dupSearch_of_start none pre w (gap ++ (w2 ++ post))
    (by
      cases hl : pre.getLast? with
      | none => rfl
      | some c => rw [hl] at hpre; exact hpre)
    hne hw h3
  simpa [List.append_assoc] using h4

theorem search_of_infix (r : RE) (pre mid post : List Char) (h : RE.Matches r mid) :
    r.search (pre ++ mid ++ post) = true := by
  unfold RE.search
  rw [RE.test_iff, List.append_assoc]
  refine RE.Matches.seq _ _ pre (mid ++ post) ?_ (RE.Matches.seq _ _ mid post h ?_)
  · exact (RE.matches_star_cls_iff _ _).mpr (fun _ _ => rfl)
  · exact (RE.matches_star_cls_iff _ _).mpr (fun _ _ => rfl)

theorem doubleSpace_search (t : List Char) (h : HasDoubleSpace t) :
    doubleSpaceRegex.search t = true := by
  obtain ⟨pre, post, rfl⟩ := h
  have hm : RE.Matches doubleSpaceRegex [' ', ' '] :=
    RE.Matches.seq _ _ [' '] [' '] ((RE.matches_lit_iff _ _).mpr rfl)
      ((RE.matches_lit_iff _ _).mpr rfl)
  have := search_of_infix doubleSpaceRegex pre [' ', ' '] post hm
  simpa [List.append_assoc] using this

/-- The predicate `HasRepeatedWord` at work: `"the The cat"` repeats a word, and
is rejected. -/
theorem hasRepeatedWord_sample :
    HasRepeatedWord "the The cat".data ∧
    validateDescription "the The cat" = .invalid "Duplicate consecutive words detected" := by
  refine ⟨⟨[], "the".data, " ".data, "The".data, " cat".data, by decide, by decide, by decide,
    by decide, by decide, by decide, by decide, by decide⟩, by decide⟩

/-- How `validateDescription` decides: on the trimmed input only. -/
theorem validateDescription_valid_iff (s v : String) :
    validateDescription s = .valid v ↔
      (v = trim s ∧ (trim s).data ≠ [] ∧ descriptionRegex.test (trim s).data = true ∧
        doubleSpaceRegex.search (trim s).data = false ∧
        duplicateWordTest (trim s).data = false) := by
  unfold validateDescription
  simp only
  split_ifs with h1 h2 h3 h4
  · simp [h1]
  · simp only [false_iff, not_and]
    intro _ _ h; rw [h] at h2; simp at h2
  · simp only [false_iff, not_and]
    intro _ _ _ h; rw [h] at h3; simp at h3
  · simp only [false_iff, not_and]
    intro _ _ _ _ h; rw [h] at h4; simp at h4
  · simp only [Validation.valid.injEq]
    constructor
    · intro h
      refine ⟨h.symm, h1, by simpa using h2, by simpa using h3, by simpa using h4⟩
    · intro h; exact h.1.symm

/-- C4: when `validateDescription(s)` is valid, its value is `trim(s)`, is not
empty, has no white space at either end, has no two consecutive spaces, and has
no word directly followed, after white space, by the same word up to case. -/
theorem validateDescription_sound (s v : String) (h : validateDescription s = .valid v) :
    v = trim s ∧ v.data ≠ [] ∧
    (∀ c, v.data.head? = some c → isWhiteSpace c = false) ∧
    (∀ c, v.data.getLast? = some c → isWhiteSpace c = false) ∧
    ¬ HasDoubleSpace v.data ∧ ¬ HasRepeatedWord v.data := by
  obtain ⟨hv, hne, _, hds, hdw⟩ := (validateDescription_valid_iff s v).mp h
  subst hv
  refine ⟨rfl, hne, trimChars_head _, trimChars_getLast _, ?_, ?_⟩
  · intro hd
    rw [doubleSpace_search _ hd] at hds
    exact absurd hds (by simp)
  · intro hr
    rw [duplicateWordTest_of_repeated _ hr] at hdw
    exact absurd hdw (by simp)

/-- Witness of C4 at the accepted input `"  Coffee run "`. -/
theorem validateDescription_sound_witness :
    validateDescription "  Coffee run " = .valid "Coffee run" ∧
    ("Coffee run" = trim "  Coffee run " ∧ "Coffee run".data ≠ [] ∧
    (∀ c, "Coffee run".data.head? = some c → isWhiteSpace c = false) ∧
    (∀ c, "Coffee run".data.getLast? = some c → isWhiteSpace c = false) ∧
    ¬ HasDoubleSpace "Coffee run".data ∧ ¬ HasRepeatedWord "Coffee run".data) :=
  ⟨by decide, validateDescription_sound "  Coffee run " "Coffee run" (by decide)⟩

/-- C5: `validateDescription` is idempotent on accepted inputs. -/
theorem validateDescription_idempotent (s v : String)
    (h : validateDescription s = .valid v) : validateDescription v = .valid v := by
  obtain ⟨hv, hne, hre, hds, hdw⟩ := (validateDescription_valid_iff s v).mp h
  subst hv
  rw [validateDescription_valid_iff, trim_idem]
  exact ⟨rfl, hne, hre, hds, hdw⟩

/-- Witness of C5 at the accepted input `"  Coffee run "`. -/
theorem validateDescription_idempotent_witness :
    validateDescription "  Coffee run " = .valid "Coffee run" ∧
    validateDescription "Coffee run" = .valid "Coffee run" :=
  ⟨by decide, validateDescription_idempotent "  Coffee run " "Coffee run" (by decide)⟩

/-! ## Combined validation -/

theorem Validation.error?_isSome {α : Type} (v : Validation α) :
    v.error?.isSome = !v.isValid := by
  cases v <;> rfl

/-- C6: `validateAllFields` is valid exactly when the four validators accept;
its `errors` has a key for a field exactly when that field's validator rejects,
with that validator's message; `values` is not null exactly when the result is
valid, and then holds the four normalised values. -/
theorem validateAllFields_spec (h : Host) (fd : FormData) :
    ((validateAllFields h fd).valid = true ↔
      ((validateDescription fd.description).isValid = true ∧
       (validateAmount fd.amount).isValid = true ∧
       (validateCategory fd.category).isValid = true ∧
       (validateDate h fd.date).isValid = true)) ∧
    (validateAllFields h fd).errors.description = (validateDescription fd.description).error? ∧
    (validateAllFields h fd).errors.amount = (validateAmount fd.amount).error? ∧
    (validateAllFields h fd).errors.category = (validateCategory fd.category).error? ∧
    (validateAllFields h fd).errors.date = (validateDate h fd.date).error? ∧
    (((validateAllFields h fd).errors.description.isSome = true ↔
        (validateDescription fd.description).isValid = false) ∧
     ((validateAllFields h fd).errors.amount.isSome = true ↔
        (validateAmount fd.amount).isValid = false) ∧
     ((validateAllFields h fd).errors.category.isSome = true ↔
        (validateCategory fd.category).isValid = false) ∧
     ((validateAllFields h fd).errors.date.isSome = true ↔
        (validateDate h fd.date).isValid = false)) ∧
    ((validateAllFields h fd).values.isSome = (validateAllFields h fd).valid) ∧
    (∀ d a c t, validateDescription fd.description = .valid d →
      validateAmount fd.amount = .valid a → validateCategory fd.category = .valid c →
      validateDate h fd.date = .valid t →
      (validateAllFields h fd).values = some ⟨d, a, c, t⟩) ∧
    (∀ vals, (validateAllFields h fd).values = some vals →
      validateDescription fd.description = .valid vals.description ∧
      validateAmount fd.amount = .valid vals.amount ∧
      validateCategory fd.category = .valid vals.category ∧
      validateDate h fd.date = .valid vals.date) := by
  unfold validateAllFields
  cases hd : validateDescription fd.description <;>
  cases ha : validateAmount fd.amount <;>
  cases hc : validateCategory fd.category <;>
  cases ht : validateDate h fd.date <;>
  simp [Validation.isValid, Validation.error?]
  all_goals (intro d a c t h1 h2 h3 h4; exact ⟨h1, h2, h3, h4⟩)

/-- Witness of C6: a form whose four fields are accepted. -/
theorem validateAllFields_spec_witness :
    (validateAllFields ⟨1710072000000, 0, false⟩ ⟨"Tea", "2.50", "Food", "2024-03-10"⟩).values
      = some ⟨"Tea", .finite false 5 (-1), "Food", "2024-03-10"⟩ :=
  (validateAllFields_spec ⟨1710072000000, 0, false⟩ ⟨"Tea", "2.50", "Food", "2024-03-10"⟩).2.2.2.2.2.2.2.1
    "Tea" (.finite false 5 (-1)) "Food" "2024-03-10"
    (by decide) (by decide) (by decide) (by decide)

/-! ## Calendar -/

theorem civilFromDays_month (z : Int) :
    1 ≤ (civilFromDays z).2.1 ∧ (civilFromDays z).2.1 ≤ 12 := by
  simp only [civilFromDays, marchDate]
  split_ifs <;> omega

theorem civilFromDays_day_pos (z : Int) : 1 ≤ (civilFromDays z).2.2 := by
  simp only [civilFromDays, marchDate]
  omega


theorem daysFromCivil_core (era c q a doy : Int) (hc0 : 0 ≤ c) (hc : c ≤ 3) (hq0 : 0 ≤ q)
    (hq : q ≤ 24) (ha0 : 0 ≤ a) (ha : a ≤ 3) (hd0 : 0 ≤ doy) (hd : doy ≤ 365) :
    daysFromCivil
      (if (if (5 * doy + 2) / 153 < 10 then (5 * doy + 2) / 153 + 3
            else (5 * doy + 2) / 153 - 9) ≤ 2
        then era * 400 + c * 100 + q * 4 + a + 1 else era * 400 + c * 100 + q * 4 + a)
      (if (5 * doy + 2) / 153 < 10 then (5 * doy + 2) / 153 + 3 else (5 * doy + 2) / 153 - 9)
      (doy - (153 * ((5 * doy + 2) / 153) + 2) / 5 + 1)
    = era * 146097 + c * 36524 + q * 1461 + a * 365 + doy - 719468 := by
  have h400 : (era * 400 + c * 100 + q * 4 + a) / 400 = era := by omega
  have h4 : (c * 100 + q * 4 + a) / 4 = 25 * c + q := by omega
  have h100 : (c * 100 + q * 4 + a) / 100 = c := by omega
  simp only [daysFromCivil]
  split_ifs with h1 h2 h3 h4 h5
  all_goals omega

theorem daysFromCivil_civilFromDays (z : Int) :
    daysFromCivil (civilFromDays z).1 (civilFromDays z).2.1 (civilFromDays z).2.2 = z := by
  simp only [civilFromDays, marchDate]
  rw [daysFromCivil_core] <;> omega

theorem monthDay_le (leap : Bool) (doy mp : Int) (hd0 : 0 ≤ doy)
    (hd : doy ≤ if leap then 365 else 364) (hmp : mp = (5 * doy + 2) / 153) :
    doy - (153 * mp + 2) / 5 + 1 ≤
      (if (if mp < 10 then mp + 3 else mp - 9) = 2 then (if leap then 29 else 28)
       else if (if mp < 10 then mp + 3 else mp - 9) = 4 ∨ (if mp < 10 then mp + 3 else mp - 9) = 6 ∨
          (if mp < 10 then mp + 3 else mp - 9) = 9 ∨ (if mp < 10 then mp + 3 else mp - 9) = 11
        then 30 else 31) := by
  have hd365 : doy ≤ 365 := by split_ifs at hd <;> omega
  have hcases : mp = 0 ∨ mp = 1 ∨ mp = 2 ∨ mp = 3 ∨ mp = 4 ∨ mp = 5 ∨ mp = 6 ∨ mp = 7 ∨
      mp = 8 ∨ mp = 9 ∨ mp = 10 ∨ mp = 11 := by omega
  have hlo : 153 * mp ≤ 5 * doy + 2 := by omega
  have hhi : 5 * doy + 2 < 153 * mp + 153 := by omega
  rcases hcases with h | h | h | h | h | h | h | h | h | h | h | h <;> subst h <;>
    cases leap <;> simp at hd ⊢ <;> omega


theorem civilFromDays_digits (z : Int) : ∃ era c q a doy : Int,
    0 ≤ c ∧ c ≤ 3 ∧ 0 ≤ q ∧ q ≤ 24 ∧ 0 ≤ a ∧ a ≤ 3 ∧ 0 ≤ doy ∧ doy ≤ 365 ∧
    (a < 3 → doy ≤ 364) ∧ a * 365 + doy ≤ 1460 ∧
    (c < 3 → q * 1461 + a * 365 + doy ≤ 36523) ∧ q * 1461 + a * 365 + doy ≤ 36524 ∧
    c * 36524 + q * 1461 + a * 365 + doy ≤ 146096 ∧
    z = era * 146097 + c * 36524 + q * 1461 + a * 365 + doy - 719468 ∧
    civilFromDays z = marchDate era c q a doy := by
  refine ⟨(z + 719468) / 146097, min ((z + 719468) % 146097 / 36524) 3,
    ((z + 719468) % 146097 - min ((z + 719468) % 146097 / 36524) 3 * 36524) / 1461,
    min (((z + 719468) % 146097 - min ((z + 719468) % 146097 / 36524) 3 * 36524) % 1461 / 365) 3,
    ((z + 719468) % 146097 - min ((z + 719468) % 146097 / 36524) 3 * 36524) % 1461 -
      min (((z + 719468) % 146097 - min ((z + 719468) % 146097 / 36524) 3 * 36524) % 1461 / 365) 3
        * 365, ?_, ?_, ?_, ?_, ?_, ?_, ?_, ?_, ?_, ?_, ?_, ?_, ?_, ?_, rfl⟩
  all_goals omega

theorem marchDate_day_le (era c q a doy : Int) (hc0 : 0 ≤ c) (hc : c ≤ 3) (hq0 : 0 ≤ q)
    (hq : q ≤ 24) (ha0 : 0 ≤ a) (ha : a ≤ 3) (hd0 : 0 ≤ doy) (hd : doy ≤ 365)
    (h1 : a < 3 → doy ≤ 364) (h2 : c < 3 → q * 1461 + a * 365 + doy ≤ 36523) :
    (marchDate era c q a doy).2.2 ≤
      daysInMonth (marchDate era c q a doy).1 (marchDate era c q a doy).2.1 := by
  simp only [marchDate, daysInMonth]
  apply monthDay_le _ _ _ hd0 _ rfl
  simp only [isLeapYear, Bool.and_eq_true, Bool.or_eq_true, decide_eq_true_eq, bne_iff_ne,
    ne_eq, decide_not, Bool.not_eq_true', decide_eq_false_iff_not]
  split_ifs <;> omega

theorem civilFromDays_day_le (z : Int) :
    (civilFromDays z).2.2 ≤ daysInMonth (civilFromDays z).1 (civilFromDays z).2.1 := by
  obtain ⟨era, c, q, a, doy, hc0, hc, hq0, hq, ha0, ha, hd0, hd, h1, _, h2, _, _, _, he⟩ :=
    civilFromDays_digits z
  rw [he]
  exact marchDate_day_le era c q a doy hc0 hc hq0 hq ha0 ha hd0 hd h1 h2

theorem marchDate_mono (era c q a doy era2 c2 q2 a2 doy2 : Int)
    (hy : era * 400 + c * 100 + q * 4 + a < era2 * 400 + c2 * 100 + q2 * 4 + a2 ∨
      (era * 400 + c * 100 + q * 4 + a = era2 * 400 + c2 * 100 + q2 * 4 + a2 ∧ doy ≤ doy2))
    (hd0 : 0 ≤ doy) (hd : doy ≤ 365) (hd20 : 0 ≤ doy2) (hd2 : doy2 ≤ 365) :
    dateLe (marchDate era c q a doy) (marchDate era2 c2 q2 a2 doy2) := by
  simp only [marchDate, dateLe]
  split_ifs <;> omega

theorem civilFromDays_mono (z z2 : Int) (h : z ≤ z2) :
    dateLe (civilFromDays z) (civilFromDays z2) := by
  obtain ⟨era, c, q, a, doy, hc0, hc, hq0, hq, ha0, ha, hd0, hd, h1, h3, h2, h4, h5, hz, he⟩ :=
    civilFromDays_digits z
  obtain ⟨era', c', q', a', doy', hc0', hc', hq0', hq', ha0', ha', hd0', hd', h1', h3', h2', h4',
    h5', hz', he'⟩ := civilFromDays_digits z2
  rw [he, he']
  apply marchDate_mono _ _ _ _ _ _ _ _ _ _ _ hd0 hd hd0' hd'
  omega

theorem dateLe_antisymm (a b : Int × Int × Int) (h1 : dateLe a b) (h2 : dateLe b a) : a = b := by
  obtain ⟨a1, a2, a3⟩ := a
  obtain ⟨b1, b2, b3⟩ := b
  simp only [dateLe] at h1 h2
  have e1 : a1 = b1 := by omega
  have e2 : a2 = b2 := by omega
  have e3 : a3 = b3 := by omega
  rw [e1, e2, e3]

theorem not_dateLe_succ (z : Int) : ¬ dateLe (civilFromDays (z + 1)) (civilFromDays z) := by
  intro h
  have h2 := civilFromDays_mono z (z + 1) (by omega)
  have he := dateLe_antisymm _ _ h h2
  have r1 := daysFromCivil_civilFromDays (z + 1)
  have r2 := daysFromCivil_civilFromDays z
  rw [he] at r1
  omega
/-! ## Date validation -/

theorem digitVal_le (c : Char) (h : isDigit c = true) : digitVal c ≤ 9 := by
  simp only [isDigit, Bool.and_eq_true, decide_eq_true_eq] at h
  unfold digitVal
  omega

theorem digit_ne_dash (c : Char) (h : isDigit c = true) : c ≠ '-' := by
  rintro rfl
  exact absurd h (by decide)

theorem digitsVal_two (a b : Char) : digitsVal [a, b] = 10 * digitVal a + digitVal b := by
  simp [digitsVal]

theorem digitsVal_four (a b c d : Char) :
    digitsVal [a, b, c, d] = 1000 * digitVal a + 100 * digitVal b + 10 * digitVal c + digitVal d := by
  simp only [digitsVal, List.foldl_cons, List.foldl_nil]
  ring

theorem reMonth_shape (x : List Char) (h : RE.Matches reMonth x) :
    ∃ a b, x = [a, b] ∧ isDigit a = true ∧ isDigit b = true := by
  unfold reMonth at h
  rw [RE.matches_alt_iff, RE.matches_seq_iff, RE.matches_seq_iff] at h
  rcases h with ⟨u, v, rfl, hu, hv⟩ | ⟨u, v, rfl, hu, hv⟩
  · rw [RE.matches_lit_iff] at hu
    unfold reDigit19 at hv
    rw [RE.matches_cls_iff] at hv
    obtain ⟨b, rfl, hb⟩ := hv
    subst hu
    refine ⟨'0', b, rfl, by decide, ?_⟩
    simp only [Bool.and_eq_true, decide_eq_true_eq] at hb
    simp only [isDigit, Bool.and_eq_true, decide_eq_true_eq]
    omega
  · rw [RE.matches_lit_iff] at hu
    rw [RE.matches_cls_iff] at hv
    obtain ⟨b, rfl, hb⟩ := hv
    subst hu
    refine ⟨'1', b, rfl, by decide, ?_⟩
    simp only [Bool.or_eq_true, decide_eq_true_eq] at hb
    rcases hb with (rfl | rfl) | rfl <;> decide

theorem reDay_shape (x : List Char) (h : RE.Matches reDay x) :
    ∃ a b, x = [a, b] ∧ isDigit a = true ∧ isDigit b = true := by
  unfold reDay at h
  rw [RE.matches_alt_iff, RE.matches_alt_iff, RE.matches_seq_iff, RE.matches_seq_iff,
    RE.matches_seq_iff] at h
  rcases h with ⟨u, v, rfl, hu, hv⟩ | ⟨u, v, rfl, hu, hv⟩ | ⟨u, v, rfl, hu, hv⟩
  · rw [RE.matches_lit_iff] at hu
    unfold reDigit19 at hv
    rw [RE.matches_cls_iff] at hv
    obtain ⟨b, rfl, hb⟩ := hv
    subst hu
    refine ⟨'0', b, rfl, by decide, ?_⟩
    simp only [Bool.and_eq_true, decide_eq_true_eq] at hb
    simp only [isDigit, Bool.and_eq_true, decide_eq_true_eq]
    omega
  · unfold reDigit at hv
    rw [RE.matches_cls_iff] at hu hv
    obtain ⟨a, rfl, ha⟩ := hu
    obtain ⟨b, rfl, hb⟩ := hv
    refine ⟨a, b, rfl, ?_, hb⟩
    simp only [Bool.or_eq_true, decide_eq_true_eq] at ha
    rcases ha with rfl | rfl <;> decide
  · rw [RE.matches_lit_iff] at hu
    rw [RE.matches_cls_iff] at hv
    obtain ⟨b, rfl, hb⟩ := hv
    subst hu
    refine ⟨'3', b, rfl, by decide, ?_⟩
    simp only [Bool.or_eq_true, decide_eq_true_eq] at hb
    rcases hb with rfl | rfl <;> decide

/-- The shape of the strings of the date pattern. -/
theorem dateRegex_shape (t : List Char) (h : RE.Matches dateRegex t) :
    ∃ y1 y2 y3 y4 m1 m2 d1 d2 : Char,
      t = [y1, y2, y3, y4, '-', m1, m2, '-', d1, d2] ∧
      isDigit y1 = true ∧ isDigit y2 = true ∧ isDigit y3 = true ∧ isDigit y4 = true ∧
      isDigit m1 = true ∧ isDigit m2 = true ∧ isDigit d1 = true ∧ isDigit d2 = true := by
  unfold dateRegex reDigit at h
  rw [RE.matches_seq_iff] at h
  obtain ⟨x1, r1, rfl, h1, h⟩ := h
  rw [RE.matches_seq_iff] at h
  obtain ⟨x2, r2, rfl, h2, h⟩ := h
  rw [RE.matches_seq_iff] at h
  obtain ⟨x3, r3, rfl, h3, h⟩ := h
  rw [RE.matches_seq_iff] at h
  obtain ⟨x4, r4, rfl, h4, h⟩ := h
  rw [RE.matches_seq_iff] at h
  obtain ⟨x5, r5, rfl, h5, h⟩ := h
  rw [RE.matches_seq_iff] at h
  obtain ⟨x6, r6, rfl, h6, h⟩ := h
  rw [RE.matches_seq_iff] at h
  obtain ⟨x7, r7, rfl, h7, h8⟩ := h
  rw [RE.matches_cls_iff] at h1 h2 h3 h4
  obtain ⟨y1, rfl, hy1⟩ := h1
  obtain ⟨y2, rfl, hy2⟩ := h2
  obtain ⟨y3, rfl, hy3⟩ := h3
  obtain ⟨y4, rfl, hy4⟩ := h4
  rw [RE.matches_lit_iff] at h5 h7
  subst h5 h7
  obtain ⟨m1, m2, rfl, hm1, hm2⟩ := reMonth_shape _ h6
  obtain ⟨d1, d2, rfl, hd1, hd2⟩ := reDay_shape _ h8
  exact ⟨y1, y2, y3, y4, m1, m2, d1, d2, rfl, hy1, hy2, hy3, hy4, hm1, hm2, hd1, hd2⟩

theorem splitDash_date (y1 y2 y3 y4 m1 m2 d1 d2 : Char)
    (hy1 : isDigit y1 = true) (hy2 : isDigit y2 = true) (hy3 : isDigit y3 = true)
    (hy4 : isDigit y4 = true) (hm1 : isDigit m1 = true) (hm2 : isDigit m2 = true)
    (hd1 : isDigit d1 = true) (hd2 : isDigit d2 = true) :
    splitDash [y1, y2, y3, y4, '-', m1, m2, '-', d1, d2] =
      [[y1, y2, y3, y4], [m1, m2], [d1, d2]] := by
  simp [splitDash, digit_ne_dash _ hy1, digit_ne_dash _ hy2, digit_ne_dash _ hy3,
    digit_ne_dash _ hy4, digit_ne_dash _ hm1, digit_ne_dash _ hm2, digit_ne_dash _ hd1,
    digit_ne_dash _ hd2]

theorem strictNe_false (a b : Option Int) (h : strictNe a b = false) :
    ∃ x, a = some x ∧ b = some x := by
  cases a <;> cases b <;> simp [strictNe] at h
  exact ⟨_, rfl, by rw [h]⟩

/-- How `validateDate` decides. -/
theorem validateDate_valid_iff (h : Host) (s v : String) :
    validateDate h s = .valid v ↔
      (v = trim s ∧ (trim s).data ≠ [] ∧ dateRegex.test (trim s).data = true ∧
        strictNe (getFullYear h (parseDate h (trim s).data))
          (component ((splitDash (trim s).data).map toNumber) 0) = false ∧
        strictNe ((getMonth h (parseDate h (trim s).data)).map (· + 1))
          (component ((splitDash (trim s).data).map toNumber) 1) = false ∧
        strictNe (getDate h (parseDate h (trim s).data))
          (component ((splitDash (trim s).data).map toNumber) 2) = false ∧
        (match parseDate h (trim s).data with
          | some t => decide (t > startOfToday h)
          | none => false) = false) := by
  unfold validateDate
  simp only
  split_ifs with h1 h2 h3 h4
  · simp [h1]
  · simp only [false_iff, not_and]
    intro _ _ hh; rw [hh] at h2; simp at h2
  · simp only [false_iff, not_and]
    intro _ _ _ ha hb hc
    rw [ha, hb, hc] at h3
    simp at h3
  · simp only [false_iff, not_and]
    intro _ _ _ _ _ _ hh
    rw [hh] at h4
    simp at h4
  · simp only [Validation.valid.injEq]
    constructor
    · intro hv
      simp only [Bool.or_eq_true, not_or, Bool.not_eq_true] at h3
      refine ⟨hv.symm, h1, by simpa using h2, h3.1.1, h3.1.2, h3.2, by simpa using h4⟩
    · intro hv; exact hv.1.symm

theorem toNumber_digits (cs : List Char) (h : cs.all isDigit = true) :
    toNumber cs = some (digitsVal cs : Int) := by
  simp only [toNumber, h, if_true]

theorem dateLe_of_eq (a b : Int × Int × Int) (h : a = b) : dateLe a b := by
  subst h
  exact Or.inr ⟨rfl, Or.inr ⟨rfl, le_refl _⟩⟩

/-- What an accepted date went through: the pattern, the parse, the comparison
of the local components with the three numbers, and the comparison with the
start of the current local day. -/
theorem validateDate_valid_parts (h : Host) (s v : String) (hv : validateDate h s = .valid v) :
    v = trim s ∧
    ∃ y1 y2 y3 y4 m1 m2 d1 d2 : Char,
      (trim s).data = [y1, y2, y3, y4, '-', m1, m2, '-', d1, d2] ∧
      isDigit y1 = true ∧ isDigit y2 = true ∧ isDigit y3 = true ∧ isDigit y4 = true ∧
      isDigit m1 = true ∧ isDigit m2 = true ∧ isDigit d1 = true ∧ isDigit d2 = true ∧
      ∃ t0 : Int, parseDate h (trim s).data = some t0 ∧
        civilFromDays (localTime h t0 / msPerDay) =
          ((digitsVal [y1, y2, y3, y4] : Int), (digitsVal [m1, m2] : Int),
            (digitsVal [d1, d2] : Int)) ∧
        t0 ≤ startOfToday h := by
  obtain ⟨hvt, _, htest, hyear, hmonth, hday, hfut⟩ := (validateDate_valid_iff h s v).mp hv
  refine ⟨hvt, ?_⟩
  obtain ⟨y1, y2, y3, y4, m1, m2, d1, d2, ht, hy1, hy2, hy3, hy4, hm1, hm2, hd1, hd2⟩ :=
    dateRegex_shape _ ((RE.test_iff _ _).mp htest)
  refine ⟨y1, y2, y3, y4, m1, m2, d1, d2, ht, hy1, hy2, hy3, hy4, hm1, hm2, hd1, hd2, ?_⟩
  rw [ht] at hyear hmonth hday hfut
  rw [splitDash_date y1 y2 y3 y4 m1 m2 d1 d2 hy1 hy2 hy3 hy4 hm1 hm2 hd1 hd2] at hyear hmonth hday
  have n1 : toNumber [y1, y2, y3, y4] = some (digitsVal [y1, y2, y3, y4] : Int) :=
    toNumber_digits _ (by simp [hy1, hy2, hy3, hy4])
  have n2 : toNumber [m1, m2] = some (digitsVal [m1, m2] : Int) :=
    toNumber_digits _ (by simp [hm1, hm2])
  have n3 : toNumber [d1, d2] = some (digitsVal [d1, d2] : Int) :=
    toNumber_digits _ (by simp [hd1, hd2])
  simp only [List.map_cons, List.map_nil, n1, n2, n3] at hyear hmonth hday
  have c0 : component [some (digitsVal [y1, y2, y3, y4] : Int), some (digitsVal [m1, m2] : Int),
      some (digitsVal [d1, d2] : Int)] 0 = some (digitsVal [y1, y2, y3, y4] : Int) := rfl
  have c1 : component [some (digitsVal [y1, y2, y3, y4] : Int), some (digitsVal [m1, m2] : Int),
      some (digitsVal [d1, d2] : Int)] 1 = some (digitsVal [m1, m2] : Int) := rfl
  have c2 : component [some (digitsVal [y1, y2, y3, y4] : Int), some (digitsVal [m1, m2] : Int),
      some (digitsVal [d1, d2] : Int)] 2 = some (digitsVal [d1, d2] : Int) := rfl
  rw [c0] at hyear
  rw [c1] at hmonth
  rw [c2] at hday
  rw [ht]
  cases hp : parseDate h [y1, y2, y3, y4, '-', m1, m2, '-', d1, d2] with
  | none =>
    rw [hp] at hyear
    simp [getFullYear, strictNe] at hyear
  | some t0 =>
    rw [hp] at hyear hmonth hday hfut
    obtain ⟨x, hx1, hx2⟩ := strictNe_false _ _ hyear
    obtain ⟨xm, hm1x, hm2x⟩ := strictNe_false _ _ hmonth
    obtain ⟨xd, hd1x, hd2x⟩ := strictNe_false _ _ hday
    simp only [getFullYear, Option.map_some', Option.some.injEq] at hx1 hx2
    simp only [getMonth, Option.map_some', Option.some.injEq, sub_add_cancel] at hm1x hm2x
    simp only [getDate, Option.map_some', Option.some.injEq] at hd1x hd2x
    simp only [decide_eq_false_iff_not, not_lt] at hfut
    refine ⟨t0, rfl, ?_, hfut⟩
    rw [hx2, hm2x, hd2x, ← hx1, ← hm1x, ← hd1x]

/-- An accepted date is only possible when local time is between 0 and 24 hours
ahead of UTC: the string is parsed as midnight UTC and its components are read
in local time. -/
theorem validateDate_valid_offset (h : Host) (s v : String)
    (hv : validateDate h s = .valid v) : 0 ≤ h.tzOffset ∧ h.tzOffset < 1440 := by
  obtain ⟨_, y1, y2, y3, y4, m1, m2, d1, d2, ht, hy1, hy2, hy3, hy4, hm1, hm2, hd1, hd2, t0,
    hp, hciv, _⟩ := validateDate_valid_parts h s v hv
  have ht0 : t0 = daysFromCivil (digitsVal [y1, y2, y3, y4] : Int) (digitsVal [m1, m2] : Int)
      (digitsVal [d1, d2] : Int) * msPerDay := by
    rw [ht] at hp
    simp only [parseDate] at hp
    split_ifs at hp
    exact (Option.some.inj hp).symm
  have hrt := daysFromCivil_civilFromDays (localTime h t0 / msPerDay)
  rw [hciv] at hrt
  rw [hrt] at ht0
  unfold localTime msPerDay at ht0
  omega

/-- C3: when `validateDate(s)` is valid, `trim(s)` has the form `YYYY-MM-DD` with
a month from 01 to 12, denotes a real calendar date, and is not later than
today's local calendar date, so it is not the date of the day after today; in
particular `"2024-02-30"` is never accepted. -/
theorem validateDate_sound :
    (∀ (h : Host) (s v : String), validateDate h s = .valid v →
      v = trim s ∧
      ∃ y1 y2 y3 y4 m1 m2 d1 d2 : Char,
        (trim s).data = [y1, y2, y3, y4, '-', m1, m2, '-', d1, d2] ∧
        isDigit y1 = true ∧ isDigit y2 = true ∧ isDigit y3 = true ∧ isDigit y4 = true ∧
        isDigit m1 = true ∧ isDigit m2 = true ∧ isDigit d1 = true ∧ isDigit d2 = true ∧
        1 ≤ (digitsVal [m1, m2] : Int) ∧ (digitsVal [m1, m2] : Int) ≤ 12 ∧
        1 ≤ (digitsVal [d1, d2] : Int) ∧
        (digitsVal [d1, d2] : Int) ≤
          daysInMonth (digitsVal [y1, y2, y3, y4] : Int) (digitsVal [m1, m2] : Int) ∧
        dateLe ((digitsVal [y1, y2, y3, y4] : Int), (digitsVal [m1, m2] : Int),
          (digitsVal [d1, d2] : Int)) (localToday h) ∧
        ((digitsVal [y1, y2, y3, y4] : Int), (digitsVal [m1, m2] : Int),
          (digitsVal [d1, d2] : Int)) ≠ localTomorrow h) ∧
    (∀ h : Host, (validateDate h "2024-02-30").isValid = false) := by
  have main : ∀ (h : Host) (s v : String), validateDate h s = .valid v →
      v = trim s ∧
      ∃ y1 y2 y3 y4 m1 m2 d1 d2 : Char,
        (trim s).data = [y1, y2, y3, y4, '-', m1, m2, '-', d1, d2] ∧
        isDigit y1 = true ∧ isDigit y2 = true ∧ isDigit y3 = true ∧ isDigit y4 = true ∧
        isDigit m1 = true ∧ isDigit m2 = true ∧ isDigit d1 = true ∧ isDigit d2 = true ∧
        1 ≤ (digitsVal [m1, m2] : Int) ∧ (digitsVal [m1, m2] : Int) ≤ 12 ∧
        1 ≤ (digitsVal [d1, d2] : Int) ∧
        (digitsVal [d1, d2] : Int) ≤
          daysInMonth (digitsVal [y1, y2, y3, y4] : Int) (digitsVal [m1, m2] : Int) ∧
        dateLe ((digitsVal [y1, y2, y3, y4] : Int), (digitsVal [m1, m2] : Int),
          (digitsVal [d1, d2] : Int)) (localToday h) ∧
        ((digitsVal [y1, y2, y3, y4] : Int), (digitsVal [m1, m2] : Int),
          (digitsVal [d1, d2] : Int)) ≠ localTomorrow h := by
    intro h s v hv
    obtain ⟨hvt, y1, y2, y3, y4, m1, m2, d1, d2, ht, hy1, hy2, hy3, hy4, hm1, hm2, hd1, hd2, t0,
      _, hciv, hfut⟩ := validateDate_valid_parts h s v hv
    refine ⟨hvt, y1, y2, y3, y4, m1, m2, d1, d2, ht, hy1, hy2, hy3, hy4, hm1, hm2, hd1, hd2, ?_⟩
    have hmo := civilFromDays_month (localTime h t0 / msPerDay)
    have hdp := civilFromDays_day_pos (localTime h t0 / msPerDay)
    have hdl := civilFromDays_day_le (localTime h t0 / msPerDay)
    rw [hciv] at hmo hdp hdl
    refine ⟨hmo.1, hmo.2, hdp, hdl, ?_⟩
    suffices hle2 : dateLe ((digitsVal [y1, y2, y3, y4] : Int), (digitsVal [m1, m2] : Int),
        (digitsVal [d1, d2] : Int)) (localToday h) by
      refine ⟨hle2, ?_⟩
      intro heq
      rw [heq] at hle2
      exact not_dateLe_succ _ hle2
    have hle : localTime h t0 / msPerDay ≤ localTime h h.now / msPerDay := by
      unfold startOfToday at hfut
      unfold localTime msPerDay at *
      omega
    have hmono := civilFromDays_mono _ _ hle
    rw [hciv] at hmono
    exact hmono
  refine ⟨main, ?_⟩
  intro h
  cases hv : validateDate h "2024-02-30" with
  | invalid e => rfl
  | valid v =>
    exfalso
    obtain ⟨_, y1, y2, y3, y4, m1, m2, d1, d2, ht, _, _, _, _, _, _, _, _, _, _, _, hdl, _, _⟩ :=
      main h _ _ hv
    have ht2 : (trim "2024-02-30").data = ['2', '0', '2', '4', '-', '0', '2', '-', '3', '0'] := by
      decide
    rw [ht2] at ht
    simp only [List.cons.injEq, and_true] at ht
    obtain ⟨rfl, rfl, rfl, rfl, _, rfl, rfl, _, rfl, rfl⟩ := ht
    revert hdl
    decide

/-- Witness of C3: on 2024-03-10 in a UTC zone, `"2024-02-29"` is accepted. -/
theorem validateDate_sound_witness :
    validateDate ⟨1710072000000, 0, false⟩ "2024-02-29" = .valid "2024-02-29" ∧
    ("2024-02-29" = trim "2024-02-29" ∧
      ∃ y1 y2 y3 y4 m1 m2 d1 d2 : Char,
        (trim "2024-02-29").data = [y1, y2, y3, y4, '-', m1, m2, '-', d1, d2] ∧
        isDigit y1 = true ∧ isDigit y2 = true ∧ isDigit y3 = true ∧ isDigit y4 = true ∧
        isDigit m1 = true ∧ isDigit m2 = true ∧ isDigit d1 = true ∧ isDigit d2 = true ∧
        1 ≤ (digitsVal [m1, m2] : Int) ∧ (digitsVal [m1, m2] : Int) ≤ 12 ∧
        1 ≤ (digitsVal [d1, d2] : Int) ∧
        (digitsVal [d1, d2] : Int) ≤
          daysInMonth (digitsVal [y1, y2, y3, y4] : Int) (digitsVal [m1, m2] : Int) ∧
        dateLe ((digitsVal [y1, y2, y3, y4] : Int), (digitsVal [m1, m2] : Int),
          (digitsVal [d1, d2] : Int)) (localToday ⟨1710072000000, 0, false⟩) ∧
        ((digitsVal [y1, y2, y3, y4] : Int), (digitsVal [m1, m2] : Int),
          (digitsVal [d1, d2] : Int)) ≠ localTomorrow ⟨1710072000000, 0, false⟩) :=
  ⟨by decide, validateDate_sound.1 ⟨1710072000000, 0, false⟩ "2024-02-29" "2024-02-29" (by decide)⟩


/-- C2 (the code at failing inputs): at noon UTC of 2024-03-10, two hours east
of UTC the string of today's local date is rejected as a future date, and five
hours west of UTC the past date `"2024-02-29"` is rejected as not being a
calendar date, whatever the engine does with overlong months. -/
theorem validateDate_rejects_real_dates :
    (localToday ⟨1710072000000, 120, false⟩ = (2024, 3, 10) ∧
      validateDate ⟨1710072000000, 120, false⟩ "2024-03-10"
        = .invalid "Date cannot be in the future" ∧
      validateDate ⟨1710072000000, 120, true⟩ "2024-03-10"
        = .invalid "Date cannot be in the future") ∧
    (localToday ⟨1710072000000, -300, false⟩ = (2024, 3, 10) ∧
      validateDate ⟨1710072000000, -300, false⟩ "2024-02-29"
        = .invalid "Invalid date (check day/month combination)" ∧
      validateDate ⟨1710072000000, -300, true⟩ "2024-02-29"
        = .invalid "Invalid date (check day/month combination)") := by
  decide

/-! ## Record repository -/

theorem findIndex_none {α : Type} (p : α → Bool) (xs : List α) :
    findIndex p xs = none ↔ ∀ x ∈ xs, p x = false := by
  induction xs with
  | nil => simp [findIndex]
  | cons x xs ih =>
    by_cases hx : p x = true
    · simp [findIndex, hx]
    · have hx0 : p x = false := by simpa using hx
      simp [findIndex, hx0, ih]

theorem findIndex_some {α : Type} (p : α → Bool) (xs : List α) (i : Nat)
    (h : findIndex p xs = some i) :
    ∃ pre r post, xs = pre ++ r :: post ∧ pre.length = i ∧ p r = true ∧
      ∀ x ∈ pre, p x = false := by
  induction xs generalizing i with
  | nil => simp [findIndex] at h
  | cons x xs ih =>
    by_cases hx : p x = true
    · simp only [findIndex, hx, if_true, Option.some.injEq] at h
      exact ⟨[], x, xs, rfl, by simpa using h, hx, by simp⟩
    · have hx0 : p x = false := by simpa using hx
      simp only [findIndex, hx0, Bool.false_eq_true, if_false, Option.map_eq_some'] at h
      obtain ⟨j, hj, hji⟩ := h
      obtain ⟨pre, r, post, hxs, hlen, hr, hpre⟩ := ih j hj
      refine ⟨x :: pre, r, post, by rw [hxs]; rfl, by simp [hlen, hji], hr, ?_⟩
      intro y hy
      rcases List.mem_cons.mp hy with rfl | hy
      · exact hx0
      · exact hpre y hy

theorem eraseIdx_append_length {α : Type} (pre : List α) (r : α) (post : List α) :
    (pre ++ r :: post).eraseIdx pre.length = pre ++ post := by
  induction pre with
  | nil => rfl
  | cons x pre ih => simp [List.eraseIdx, ih]

theorem set_append_length {α : Type} (pre : List α) (r r' : α) (post : List α) :
    (pre ++ r :: post).set pre.length r' = pre ++ r' :: post := by
  induction pre with
  | nil => rfl
  | cons x pre ih => simp [List.set, ih]

theorem get?_append_length {α : Type} (pre : List α) (r : α) (post : List α) :
    (pre ++ r :: post).get? pre.length = some r := by
  induction pre with
  | nil => rfl
  | cons x pre ih => simpa using ih

/-- C7: `deleteRecord(id)` returns `false` and changes nothing when no record
has that id; otherwise it returns `true` and the new collection is the old one
without the first record carrying that id, the other records keeping their
order. -/
theorem deleteRecord_spec (ok : Bool) (id : String) (st : State) :
    ((∀ r ∈ st.records, r.id ≠ id) → deleteRecord ok id st = (false, st)) ∧
    ((∃ r ∈ st.records, r.id = id) →
      ∃ pre r post, st.records = pre ++ r :: post ∧ r.id = id ∧ (∀ x ∈ pre, x.id ≠ id) ∧
        (deleteRecord ok id st).1 = true ∧ (deleteRecord ok id st).2.records = pre ++ post) := by
  constructor
  · intro hno
    have hnone : findIndex (fun r : Record => decide (r.id = id)) st.records = none :=
      (findIndex_none _ _).mpr (fun r hr => by simpa using hno r hr)
    simp only [deleteRecord, hnone]
  · rintro ⟨r0, hr0, hid0⟩
    cases hfi : findIndex (fun r : Record => decide (r.id = id)) st.records with
    | none =>
      have := (findIndex_none _ _).mp hfi r0 hr0
      simp [hid0] at this
    | some i =>
      obtain ⟨pre, r, post, hxs, hlen, hr, hpre⟩ := findIndex_some _ _ i hfi
      refine ⟨pre, r, post, hxs, by simpa using hr, fun x hx => by simpa using hpre x hx, ?_, ?_⟩
      · simp only [deleteRecord, hfi]
      · simp only [deleteRecord, hfi]
        rw [hxs, ← hlen, eraseIdx_append_length]

/-- Witness of C7: deleting an absent id, and deleting the first of two records. -/
theorem deleteRecord_spec_witness :
    deleteRecord false "txn_0_0" sampleState = (false, sampleState) ∧
    ∃ pre r post, sampleState.records = pre ++ r :: post ∧ r.id = "txn_1710072000000_7" ∧
      (∀ x ∈ pre, x.id ≠ "txn_1710072000000_7") ∧
      (deleteRecord true "txn_1710072000000_7" sampleState).1 = true ∧
      (deleteRecord true "txn_1710072000000_7" sampleState).2.records = pre ++ post :=
  ⟨(deleteRecord_spec false "txn_0_0" sampleState).1 (by decide),
   (deleteRecord_spec true "txn_1710072000000_7" sampleState).2 ⟨teaRecord, by decide, by decide⟩⟩

/-- C8: `updateRecord(id, data)` returns `null` and changes nothing when no
record has that id; otherwise it returns the updated record, which has the
description, amount, category and date of `data` and the id and `createdAt` of
the record before the call, at the same place of the collection, all other
records being unchanged. -/
theorem updateRecord_spec (now : Int) (ok : Bool) (id : String) (data : FormValues)
    (st : State) :
    ((∀ r ∈ st.records, r.id ≠ id) → updateRecord now ok id data st = (none, st)) ∧
    ((∃ r ∈ st.records, r.id = id) →
      ∃ pre r post r', st.records = pre ++ r :: post ∧ r.id = id ∧ (∀ x ∈ pre, x.id ≠ id) ∧
        (updateRecord now ok id data st).1 = some r' ∧
        (updateRecord now ok id data st).2.records = pre ++ r' :: post ∧
        r'.id = r.id ∧ r'.createdAt = r.createdAt ∧
        r'.description = data.description ∧ r'.amount = data.amount ∧
        r'.category = data.category ∧ r'.date = data.date ∧
        r'.updatedAt = toISOString now) := by
  constructor
  · intro hno
    have hnone : findIndex (fun r : Record => decide (r.id = id)) st.records = none :=
      (findIndex_none _ _).mpr (fun r hr => by simpa using hno r hr)
    simp only [updateRecord, hnone]
  · rintro ⟨r0, hr0, hid0⟩
    cases hfi : findIndex (fun r : Record => decide (r.id = id)) st.records with
    | none =>
      have := (findIndex_none _ _).mp hfi r0 hr0
      simp [hid0] at this
    | some i =>
      obtain ⟨pre, r, post, hxs, hlen, hr, hpre⟩ := findIndex_some _ _ i hfi
      have hget : st.records.get? i = some r := by
        rw [hxs, ← hlen]; exact get?_append_length pre r post
      refine ⟨pre, r, post,
        { r with description := data.description, amount := data.amount,
                 category := data.category, date := data.date,
                 updatedAt := toISOString now },
        hxs, by simpa using hr, fun x hx => by simpa using hpre x hx, ?_, ?_,
        rfl, rfl, rfl, rfl, rfl, rfl, rfl⟩
      · simp only [updateRecord, hfi, hget]
        rw [hxs, ← hlen, set_append_length, get?_append_length]
      · simp only [updateRecord, hfi, hget]
        rw [hxs, ← hlen, set_append_length]

/-- Witness of C8: updating an absent id, and updating the second of two records. -/
theorem updateRecord_spec_witness :
    updateRecord 1710072000500 false "txn_0_0" bookValues sampleState = (none, sampleState) ∧
    ∃ pre r post r', sampleState.records = pre ++ r :: post ∧ r.id = "txn_1710072000001_7" ∧
      (∀ x ∈ pre, x.id ≠ "txn_1710072000001_7") ∧
      (updateRecord 1710072000500 true "txn_1710072000001_7" bookValues sampleState).1 = some r' ∧
      (updateRecord 1710072000500 true "txn_1710072000001_7" bookValues sampleState).2.records
        = pre ++ r' :: post ∧
      r'.id = r.id ∧ r'.createdAt = r.createdAt ∧
      r'.description = bookValues.description ∧ r'.amount = bookValues.amount ∧
      r'.category = bookValues.category ∧ r'.date = bookValues.date ∧
      r'.updatedAt = toISOString 1710072000500 :=
  ⟨(updateRecord_spec 1710072000500 false "txn_0_0" bookValues sampleState).1 (by decide),
   (updateRecord_spec 1710072000500 true "txn_1710072000001_7" bookValues sampleState).2
     ⟨busRecord, by decide, by decide⟩⟩

theorem addRecord_ids (env : AddEnv) (ok : Bool) (data : FormValues) (st : State) :
    (addRecord env ok data st).2.ids = st.ids ++ [generateId env.timestamp env.random] := by
  simp [addRecord, State.ids]

theorem updateRecord_ids (now : Int) (ok : Bool) (id : String) (data : FormValues)
    (st : State) : (updateRecord now ok id data st).2.ids = st.ids := by
  cases hfi : findIndex (fun r : Record => decide (r.id = id)) st.records with
  | none => simp only [updateRecord, hfi]
  | some i =>
    obtain ⟨pre, r, post, hxs, hlen, _, _⟩ := findIndex_some _ _ i hfi
    have hget : st.records.get? i = some r := by
      rw [hxs, ← hlen]; exact get?_append_length pre r post
    simp only [updateRecord, hfi, hget, State.ids]
    rw [hxs, ← hlen, set_append_length]
    simp

theorem deleteRecord_ids_sublist (ok : Bool) (id : String) (st : State) :
    List.Sublist (deleteRecord ok id st).2.ids st.ids := by
  cases hfi : findIndex (fun r : Record => decide (r.id = id)) st.records with
  | none => simp only [deleteRecord, hfi]; exact List.Sublist.refl _
  | some i =>
    simp only [deleteRecord, hfi, State.ids]
    exact List.Sublist.map _ (List.eraseIdx_sublist _ _)

theorem apply_ids_nodup (op : Op) (st : State) (h0 : st.ids.Nodup)
    (hfresh : match op with
      | .add env _ _ => generateId env.timestamp env.random ∉ st.ids
      | _ => True) : (op.apply st).ids.Nodup := by
  cases op with
  | add env ok data =>
    simp only [Op.apply, addRecord_ids]
    exact List.Nodup.append h0 (List.nodup_singleton _) (by
      intro x hx hx2
      rw [List.mem_singleton] at hx2
      subst hx2
      exact hfresh hx)
  | update now ok id data =>
    simp only [Op.apply, updateRecord_ids]
    exact h0
  | delete ok id =>
    simp only [Op.apply]
    exact List.Nodup.sublist (deleteRecord_ids_sublist ok id st) h0

/-- C9 (as amended): starting from a collection with pairwise distinct ids, the
ids are still pairwise distinct after any sequence of `addRecord`,
`updateRecord` and `deleteRecord` calls in which every id that `addRecord`
generates is carried by no record of the collection at the time of the call. -/
theorem ids_nodup_preserved (ops : List Op) (st : State) (h0 : st.ids.Nodup)
    (hfresh : GeneratesFreshIds ops st) : (runOps ops st).ids.Nodup := by
  induction ops generalizing st with
  | nil => exact h0
  | cons op ops ih =>
    obtain ⟨h1, h2⟩ := hfresh
    exact ih (op.apply st) (apply_ids_nodup op st h0 h1) h2

/-- Witness of C9: two additions at different clock readings, an update and a
deletion, from the empty collection. -/
theorem ids_nodup_preserved_witness :
    (runOps [.add ⟨1710072000000, 7, 1710072000000, 1710072000000⟩ true bookValues,
             .add ⟨1710072000001, 7, 1710072000001, 1710072000001⟩ false bookValues,
             .update 1710072000002 true "txn_1710072000000_7" bookValues,
             .delete true "txn_1710072000001_7"] ⟨[], none⟩).ids.Nodup :=
  ids_nodup_preserved _ ⟨[], none⟩ (by decide)
    ⟨by decide, by decide, True.intro, True.intro, True.intro⟩

/-- C9 (counterexample): two calls of `addRecord` with the same clock reading and
the same random number give two records with the same id. -/
theorem addRecord_id_collision :
    (State.mk [] none).ids.Nodup ∧
    (runOps [.add ⟨1710072000000, 7, 1710072000000, 1710072000000⟩ true bookValues,
             .add ⟨1710072000000, 7, 1710072000000, 1710072000000⟩ true bookValues]
        ⟨[], none⟩).ids
      = ["txn_1710072000000_7", "txn_1710072000000_7"] ∧
    ¬ (runOps [.add ⟨1710072000000, 7, 1710072000000, 1710072000000⟩ true bookValues,
               .add ⟨1710072000000, 7, 1710072000000, 1710072000000⟩ true bookValues]
        ⟨[], none⟩).ids.Nodup := by
  decide

/-- C10: a failure of `saveRecords` is not visible to the caller.  Each of
`addRecord`, `updateRecord` and `deleteRecord` returns the same result and
leaves the same collection in memory whether the save succeeds or fails; after
a failed save the store keeps its former content. -/
theorem save_failure_not_surfaced (env : AddEnv) (now : Int) (id : String)
    (data : FormValues) (st : State) :
    ((addRecord env false data st).1 = (addRecord env true data st).1 ∧
      (addRecord env false data st).2.records = (addRecord env true data st).2.records ∧
      (addRecord env false data st).2.records = st.records ++ [(addRecord env false data st).1] ∧
      (addRecord env false data st).2.stored = st.stored) ∧
    ((updateRecord now false id data st).1 = (updateRecord now true id data st).1 ∧
      (updateRecord now false id data st).2.records = (updateRecord now true id data st).2.records ∧
      (updateRecord now false id data st).2.stored = st.stored) ∧
    ((deleteRecord false id st).1 = (deleteRecord true id st).1 ∧
      (deleteRecord false id st).2.records = (deleteRecord true id st).2.records ∧
      (deleteRecord false id st).2.stored = st.stored) := by
  refine ⟨⟨rfl, rfl, rfl, rfl⟩, ?_, ?_⟩
  · cases hfi : findIndex (fun r : Record => decide (r.id = id)) st.records with
    | none => simp only [updateRecord, hfi, and_self]
    | some i =>
      cases hget : st.records.get? i with
      | none => simp only [updateRecord, hfi, hget, and_self]
      | some r => simp only [updateRecord, hfi, hget, saveRecords, and_self, if_false,
          Bool.false_eq_true]
  · cases hfi : findIndex (fun r : Record => decide (r.id = id)) st.records with
    | none => simp only [deleteRecord, hfi, and_self]
    | some i => simp only [deleteRecord, hfi, saveRecords, and_self, if_false,
        Bool.false_eq_true]

/-! ## Search -/

/-- C11: with a matcher, `searchRecords` keeps, in their order, exactly the
records whose description, category, rendered amount or date the matcher
matches; with the result of `compileRegex` on an empty or white-space pattern it
returns the records unchanged. -/
theorem searchRecords_spec (numberToString : JSNumber → String) (rs : List Record) :
    (∀ m : Matcher,
      searchRecords numberToString rs (some m) =
        rs.filter (fun r => m.test r.description || m.test r.category ||
          m.test (numberToString r.amount) || m.test r.date) ∧
      List.Sublist (searchRecords numberToString rs (some m)) rs ∧
      ∀ r, r ∈ searchRecords numberToString rs (some m) ↔
        (r ∈ rs ∧ (m.test r.description = true ∨ m.test r.category = true ∨
          m.test (numberToString r.amount) = true ∨ m.test r.date = true))) ∧
    (∀ (newRegExp : String → String → Option Matcher) (p flags : String),
      (∀ c ∈ p.data, isWhiteSpace c = true) →
      searchRecords numberToString rs (compileRegex newRegExp p flags) = rs) := by
  constructor
  · intro m
    refine ⟨rfl, List.filter_sublist _, ?_⟩
    intro r
    simp only [searchRecords, List.mem_filter, Bool.or_eq_true, or_assoc]
  · intro newRegExp p flags hws
    have ht : (trim p).data = [] := by
      show trimEnd (p.data.dropWhile isWhiteSpace) = []
      rw [dropWhile_all _ _ hws]
      rfl
    simp only [compileRegex, ht, or_true, if_true, searchRecords]

/-- Witness of C11: the pattern of three spaces leaves the sample records as
they are. -/
theorem searchRecords_spec_witness :
    searchRecords (fun _ => "") [teaRecord, busRecord] (compileRegex literalRegExp "   " "i")
      = [teaRecord, busRecord] :=
  (searchRecords_spec (fun _ => "") [teaRecord, busRecord]).2 literalRegExp "   " "i" (by decide)

/-- C12 (as amended): `compileRegex` always returns, and it returns `null` in two
cases that its result does not tell apart: when the pattern is empty or white
space only, and when the constructor `RegExp` throws on the pattern; otherwise
it returns the compiled expression. -/
theorem compileRegex_spec (newRegExp : String → String → Option Matcher)
    (p flags : String) :
    (compileRegex newRegExp p flags = none ↔
      ((trim p).data = [] ∨ newRegExp p flags = none)) ∧
    (∀ m, newRegExp p flags = some m → (trim p).data ≠ [] →
      compileRegex newRegExp p flags = some m) := by
  have hte : p.data = [] → (trim p).data = [] := by
    intro h
    show trimEnd (p.data.dropWhile isWhiteSpace) = []
    rw [h]; rfl
  constructor
  · unfold compileRegex
    by_cases h1 : p.data = [] ∨ (trim p).data = []
    · simp only [h1, if_true, true_iff]
      rcases h1 with h | h
      · exact Or.inl (hte h)
      · exact Or.inl h
    · simp only [h1, if_false]
      have h2 : (trim p).data ≠ [] := fun h => h1 (Or.inr h)
      cases hr : newRegExp p flags with
      | none => simp
      | some m => simp [h2]
  · intro m hm hne
    unfold compileRegex
    have h1 : ¬ (p.data = [] ∨ (trim p).data = []) := by
      rintro (h | h)
      · exact hne (hte h)
      · exact hne h
    simp only [h1, if_false, hm]

/-- Witness of C12: the pattern `tea` compiles. -/
theorem compileRegex_spec_witness :
    (compileRegex literalRegExp "tea" "i").isSome = true := by
  cases h : literalRegExp "tea" "i" with
  | none =>
    have hs : (literalRegExp "tea" "i").isSome = true := by decide
    rw [h] at hs
    exact absurd hs (by decide)
  | some m =>
    rw [(compileRegex_spec literalRegExp "tea" "i").2 m h (by decide)]
    rfl

/-- C12 (counterexample): the unbalanced pattern `(`, on which `RegExp` throws,
and the empty pattern give the same result `null`. -/
theorem compileRegex_invalid_same_as_empty :
    (literalRegExp "(" "i").isNone = true ∧
    (compileRegex literalRegExp "(" "i").isNone = true ∧
    (compileRegex literalRegExp "" "i").isNone = true ∧
    (compileRegex literalRegExp "   " "i").isNone = true := by
  decide

/-- C13 (the code at a failing input): with the text `<b>tea` and a matcher for
`tea`, only the match is escaped and the tag `<b>` reaches the output as it is;
without a matcher the output is the escaped text. -/
theorem highlightText_unescaped :
    highlightText "<b>tea" (compileRegex literalRegExp "tea" "i") = "<b><mark>tea</mark>" ∧
    highlightText "<b>milk" (compileRegex literalRegExp "tea" "i") = "<b>milk" ∧
    (∀ text : String, highlightText text none = ⟨escapeHtml text.data⟩) ∧
    highlightText "<b>tea" none = "&lt;b&gt;tea" := by
  refine ⟨by decide, by decide, fun _ => rfl, by decide⟩

/-- C14 (the code at a failing input): the text `tea and tea` has two matches of
the pattern `tea`, and only the first is wrapped. -/
theorem highlightText_first_match_only :
    highlightText "tea and tea" (compileRegex literalRegExp "tea" "i")
      = "<mark>tea</mark> and tea" ∧
    highlightText "Tea and tea" (compileRegex literalRegExp "tea" "")
      = "Tea and <mark>tea</mark>" := by
  decide

/-! ## Sorting -/

theorem mem_insertSorted {α : Type} (cmp : α → α → Int) (a x : α) (l : List α) :
    x ∈ insertSorted cmp a l ↔ x = a ∨ x ∈ l := by
  induction l with
  | nil => simp [insertSorted]
  | cons b l ih =>
    unfold insertSorted
    split_ifs
    · simp
    · simp only [List.mem_cons, ih]
      tauto

theorem perm_insertSorted {α : Type} (cmp : α → α → Int) (a : α) (l : List α) :
    List.Perm (insertSorted cmp a l) (a :: l) := by
  induction l with
  | nil => exact List.Perm.refl _
  | cons b l ih =>
    unfold insertSorted
    split_ifs
    · exact List.Perm.refl _
    · exact List.Perm.trans (List.Perm.cons b ih) (List.Perm.swap a b l)

theorem perm_jsSort {α : Type} (cmp : α → α → Int) (l : List α) :
    List.Perm (jsSort cmp l) l := by
  induction l with
  | nil => exact List.Perm.refl _
  | cons a l ih =>
    exact List.Perm.trans (perm_insertSorted cmp a _) (List.Perm.cons a ih)

theorem pairwise_insertSorted {α : Type} (cmp : α → α → Int) (r : α → α → Prop)
    (htot : ∀ a b, r a b ∨ r b a) (htrans : ∀ a b c, r a b → r b c → r a c)
    (a : α) (l : List α) (hl : l.Pairwise r) (hcmp : ∀ b ∈ l, (cmp a b ≤ 0 ↔ r a b)) :
    (insertSorted cmp a l).Pairwise r := by
  induction l with
  | nil => simp [insertSorted]
  | cons b l ih =>
    rw [List.pairwise_cons] at hl
    unfold insertSorted
    split_ifs with hc
    · have hab : r a b := (hcmp b (List.mem_cons_self b l)).mp hc
      refine List.Pairwise.cons ?_ (List.Pairwise.cons hl.1 hl.2)
      intro x hx
      rcases List.mem_cons.mp hx with rfl | hx
      · exact hab
      · exact htrans _ _ _ hab (hl.1 x hx)
    · have hba : r b a := by
        rcases htot a b with h | h
        · exact absurd ((hcmp b (List.mem_cons_self b l)).mpr h) hc
        · exact h
      refine List.Pairwise.cons ?_ (ih hl.2 (fun x hx => hcmp x (List.mem_cons_of_mem b hx)))
      intro x hx
      rcases (mem_insertSorted cmp a x l).mp hx with rfl | hx
      · exact hba
      · exact hl.1 x hx

theorem pairwise_jsSort {α : Type} (cmp : α → α → Int) (r : α → α → Prop)
    (htot : ∀ a b, r a b ∨ r b a) (htrans : ∀ a b c, r a b → r b c → r a c)
    (l : List α) (hcmp : ∀ a ∈ l, ∀ b ∈ l, (cmp a b ≤ 0 ↔ r a b)) :
    (jsSort cmp l).Pairwise r := by
  induction l with
  | nil => exact List.Pairwise.nil
  | cons a l ih =>
    have ih2 := ih (fun x hx y hy => hcmp x (List.mem_cons_of_mem a hx) y
      (List.mem_cons_of_mem a hy))
    apply pairwise_insertSorted cmp r htot htrans a _ ih2
    intro b hb
    have hbl : b ∈ l := (perm_jsSort cmp l).mem_iff.mp hb
    exact hcmp a (List.mem_cons_self a l) b (List.mem_cons_of_mem a hbl)

theorem filter_insertSorted {α : Type} (cmp : α → α → Int) (p : α → Bool)
    (hp : ∀ a b, p a = true → p b = true → cmp a b ≤ 0) (a : α) (l : List α) :
    (insertSorted cmp a l).filter p = (a :: l).filter p := by
  induction l with
  | nil => rfl
  | cons b l ih =>
    unfold insertSorted
    split_ifs with hc
    · rfl
    · rw [List.filter_cons, ih]
      by_cases ha : p a = true
      · by_cases hb : p b = true
        · exact absurd (hp a b ha hb) hc
        · simp [List.filter_cons, ha, hb]
      · simp [List.filter_cons, ha]

theorem filter_jsSort {α : Type} (cmp : α → α → Int) (p : α → Bool)
    (hp : ∀ a b, p a = true → p b = true → cmp a b ≤ 0) (l : List α) :
    (jsSort cmp l).filter p = l.filter p := by
  induction l with
  | nil => rfl
  | cons a l ih =>
    show (insertSorted cmp a (jsSort cmp l)).filter p = (a :: l).filter p
    rw [filter_insertSorted cmp p hp, List.filter_cons, List.filter_cons, ih]

theorem lexLt_irrefl (a : List Nat) : lexLt a a = false := by
  induction a with
  | nil => rfl
  | cons x xs ih => simp [lexLt, ih]

theorem lexLt_asymm (a b : List Nat) (h : lexLt a b = true) : lexLt b a = false := by
  induction a generalizing b with
  | nil => cases b <;> simp [lexLt] at h ⊢
  | cons x xs ih =>
    cases b with
    | nil => simp [lexLt] at h
    | cons y ys =>
      simp only [lexLt, Bool.or_eq_true, Bool.and_eq_true, decide_eq_true_eq] at h
      simp only [lexLt, Bool.or_eq_false_iff, Bool.and_eq_false_imp, decide_eq_false_iff_not,
        decide_eq_true_eq]
      rcases h with h | ⟨h1, h2⟩
      · exact ⟨by omega, fun h3 => by omega⟩
      · exact ⟨by omega, fun _ => ih ys h2⟩

theorem lexLt_negTrans (a b c : List Nat) (h1 : lexLt b a = false) (h2 : lexLt c b = false) :
    lexLt c a = false := by
  induction a generalizing b c with
  | nil => cases c <;> simp [lexLt]
  | cons x xs ih =>
    cases c with
    | nil =>
      cases b with
      | nil => simp [lexLt] at h1
      | cons y ys => simp [lexLt] at h2
    | cons z zs =>
      cases b with
      | nil => simp [lexLt] at h1
      | cons y ys =>
        simp only [lexLt, Bool.or_eq_false_iff, Bool.and_eq_false_imp, decide_eq_false_iff_not,
          decide_eq_true_eq] at h1 h2 ⊢
        refine ⟨by omega, fun hzx => ?_⟩
        have hyx : y = x := by omega
        have hzy : z = y := by omega
        exact ih ys zs (h1.2 hyx) (h2.2 hzy)

namespace JSNumber

theorem signedScaled_cast (n : Bool) (m : Nat) (e e0 : Int) (h : e0 ≤ e) :
    ((signedScaled n m (e - e0) : Int) : ℚ) * (2 : ℚ) ^ e0 = ratOf (finite n m e) := by
  have hk : ((e - e0).toNat : Int) = e - e0 := Int.toNat_of_nonneg (by omega)
  have hpow : (2 : ℚ) ^ (e - e0).toNat * (2 : ℚ) ^ e0 = (2 : ℚ) ^ e := by
    rw [← zpow_natCast, hk, ← zpow_add₀ (by norm_num : (2 : ℚ) ≠ 0)]
    congr 1; ring
  simp only [signedScaled, ratOf]
  push_cast
  calc ((if n = true then (-1 : ℚ) else 1) * ((m : ℚ) * 2 ^ (e - e0).toNat)) * 2 ^ e0
      = (if n = true then (-1 : ℚ) else 1) * (m : ℚ) * ((2 : ℚ) ^ (e - e0).toNat * 2 ^ e0) := by
        ring
    _ = (if n = true then (-1 : ℚ) else 1) * (m : ℚ) * 2 ^ e := by rw [hpow]

theorem lt_iff_ratOf (a b : JSNumber) (ha : a.isFinite = true) (hb : b.isFinite = true) :
    lt a b = true ↔ a.ratOf < b.ratOf := by
  cases a with
  | finite n1 m1 e1 =>
    cases b with
    | finite n2 m2 e2 =>
      have h1 := signedScaled_cast n1 m1 e1 (min e1 e2) (min_le_left _ _)
      have h2 := signedScaled_cast n2 m2 e2 (min e1 e2) (min_le_right _ _)
      have hpos : (0 : ℚ) < 2 ^ (min e1 e2) := by positivity
      simp only [lt, decide_eq_true_eq]
      rw [← h1, ← h2, mul_lt_mul_right hpos]
      exact Int.cast_lt.symm
    | posInf => simp [isFinite] at hb
    | negInf => simp [isFinite] at hb
    | nan => simp [isFinite] at hb
  | posInf => simp [isFinite] at ha
  | negInf => simp [isFinite] at ha
  | nan => simp [isFinite] at ha

theorem lt_irrefl (a : JSNumber) : lt a a = false := by
  cases a <;> simp [lt]

end JSNumber

theorem SortValue.lt_self (v : SortValue) : v.lt v = false := by
  cases v with
  | date t => cases t <;> simp [SortValue.lt]
  | number x => simp [SortValue.lt, JSNumber.lt_irrefl]
  | text s => simp [SortValue.lt, stringLt, lexLt_irrefl]

theorem KeyLe_total (h : Host) (toLowerCase : String → String) (field : String)
    (a b : Record) : KeyLe h toLowerCase field a b ∨ KeyLe h toLowerCase field b a := by
  unfold KeyLe
  split_ifs
  · exact le_total _ _
  · exact le_total _ _
  · by_cases hlt : stringLt (toLowerCase b.description) (toLowerCase a.description) = true
    · exact Or.inr (lexLt_asymm _ _ hlt)
    · exact Or.inl (by simpa using hlt)

theorem KeyLe_trans (h : Host) (toLowerCase : String → String) (field : String)
    (a b c : Record) (h1 : KeyLe h toLowerCase field a b) (h2 : KeyLe h toLowerCase field b c) :
    KeyLe h toLowerCase field a c := by
  unfold KeyLe at *
  split_ifs at *
  · exact le_trans h1 h2
  · exact le_trans h1 h2
  · exact lexLt_negTrans _ _ _ h1 h2

theorem sortValue_lt_iff (h : Host) (toLowerCase : String → String) (field : String)
    (a b : Record)
    (ha : (parseDate h a.date.data).isSome = true ∧ a.amount.isFinite = true)
    (hb : (parseDate h b.date.data).isSome = true ∧ b.amount.isFinite = true) :
    (sortValue h toLowerCase field a).lt (sortValue h toLowerCase field b) = true ↔
      ¬ KeyLe h toLowerCase field b a := by
  unfold sortValue KeyLe
  split_ifs with hf1 hf2
  · obtain ⟨x, hx⟩ := Option.isSome_iff_exists.mp ha.1
    obtain ⟨y, hy⟩ := Option.isSome_iff_exists.mp hb.1
    simp [SortValue.lt, hx, hy]
  · simp only [SortValue.lt, JSNumber.lt_iff_ratOf _ _ ha.2 hb.2, not_le]
  · simp [SortValue.lt]

theorem compareRecords_le_iff (h : Host) (toLowerCase : String → String) (field : String)
    (ascending : Bool) (a b : Record)
    (ha : (parseDate h a.date.data).isSome = true ∧ a.amount.isFinite = true)
    (hb : (parseDate h b.date.data).isSome = true ∧ b.amount.isFinite = true) :
    compareRecords h toLowerCase field ascending a b ≤ 0 ↔
      (if ascending then KeyLe h toLowerCase field a b else KeyLe h toLowerCase field b a) := by
  have hab := sortValue_lt_iff h toLowerCase field a b ha hb
  have hba := sortValue_lt_iff h toLowerCase field b a hb ha
  have htot := KeyLe_total h toLowerCase field a b
  unfold compareRecords
  simp only
  by_cases h1 : (sortValue h toLowerCase field a).lt (sortValue h toLowerCase field b) = true
  · have n1 := hab.mp h1
    have k1 : KeyLe h toLowerCase field a b := by tauto
    cases ascending <;> simp [h1, n1, k1]
  · have n1 : KeyLe h toLowerCase field b a := by
      by_contra hc; exact h1 (hab.mpr hc)
    by_cases h2 : (sortValue h toLowerCase field b).lt (sortValue h toLowerCase field a) = true
    · have n2 := hba.mp h2
      cases ascending <;> simp [h1, h2, n1, n2]
    · have n2 : KeyLe h toLowerCase field a b := by
        by_contra hc; exact h2 (hba.mpr hc)
      cases ascending <;> simp [h1, h2, n1, n2]

/-- C15: on records of the data model (dates that parse, finite amounts),
`sortRecords` leaves a permutation of the list that is ordered by the key of
the field, non-decreasing when ascending and non-increasing when descending;
the amounts 30, 10, 20 sorted ascending give 10, 20, 30. -/
theorem sortRecords_spec :
    (∀ (h : Host) (toLowerCase : String → String) (field : String) (ascending : Bool)
      (l : List Record),
      (∀ r ∈ l, (parseDate h r.date.data).isSome = true ∧ r.amount.isFinite = true) →
      List.Perm (sortRecords h toLowerCase field ascending l) l ∧
      (sortRecords h toLowerCase field ascending l).Pairwise
        (fun a b => if ascending then KeyLe h toLowerCase field a b
          else KeyLe h toLowerCase field b a)) ∧
    sortRecords ⟨0, 0, false⟩ (fun s => s) "amount" true
        [amountRecord "a" 30, amountRecord "b" 10, amountRecord "c" 20]
      = [amountRecord "b" 10, amountRecord "c" 20, amountRecord "a" 30] := by
  refine ⟨?_, by decide⟩
  intro h toLowerCase field ascending l hdata
  refine ⟨perm_jsSort _ l, ?_⟩
  apply pairwise_jsSort
  · intro a b
    cases ascending
    · simpa using KeyLe_total h toLowerCase field b a
    · simpa using KeyLe_total h toLowerCase field a b
  · intro a b c h1 h2
    cases ascending
    · simp only [Bool.false_eq_true, if_false] at h1 h2 ⊢
      exact KeyLe_trans h toLowerCase field c b a h2 h1
    · simp only [if_true] at h1 h2 ⊢
      exact KeyLe_trans h toLowerCase field a b c h1 h2
  · intro a ha b hb
    exact compareRecords_le_iff h toLowerCase field ascending a b (hdata a ha) (hdata b hb)

/-- Witness of C15: three sample records sorted by amount, descending. -/
theorem sortRecords_spec_witness :
    List.Perm (sortRecords ⟨0, 0, false⟩ (fun s => s) "amount" false
        [amountRecord "a" 30, amountRecord "b" 10, amountRecord "c" 20])
      [amountRecord "a" 30, amountRecord "b" 10, amountRecord "c" 20] ∧
    (sortRecords ⟨0, 0, false⟩ (fun s => s) "amount" false
        [amountRecord "a" 30, amountRecord "b" 10, amountRecord "c" 20]).Pairwise
      (fun a b => if false = true then KeyLe ⟨0, 0, false⟩ (fun s => s) "amount" a b
        else KeyLe ⟨0, 0, false⟩ (fun s => s) "amount" b a) :=
  sortRecords_spec.1 ⟨0, 0, false⟩ (fun s => s) "amount" false
    [amountRecord "a" 30, amountRecord "b" 10, amountRecord "c" 20] (by decide)

theorem filter_insertSorted_mem {α : Type} (cmp : α → α → Int) (p : α → Bool)
    (a : α) (l : List α)
    (hp : ∀ b ∈ l, p a = true → p b = true → cmp a b ≤ 0) :
    (insertSorted cmp a l).filter p = (a :: l).filter p := by
  induction l with
  | nil => rfl
  | cons b l ih =>
    unfold insertSorted
    split_ifs with hc
    · rfl
    · rw [List.filter_cons, ih (fun x hx => hp x (List.mem_cons_of_mem b hx))]
      by_cases ha : p a = true
      · by_cases hb : p b = true
        · exact absurd (hp b (List.mem_cons_self b l) ha hb) hc
        · simp [List.filter_cons, ha, hb]
      · simp [List.filter_cons, ha]

theorem filter_jsSort_mem {α : Type} (cmp : α → α → Int) (p : α → Bool) (l : List α)
    (hp : ∀ a ∈ l, ∀ b ∈ l, p a = true → p b = true → cmp a b ≤ 0) :
    (jsSort cmp l).filter p = l.filter p := by
  induction l with
  | nil => rfl
  | cons a l ih =>
    show (insertSorted cmp a (jsSort cmp l)).filter p = (a :: l).filter p
    rw [filter_insertSorted_mem cmp p a (jsSort cmp l), List.filter_cons, List.filter_cons,
      ih (fun x hx y hy => hp x (List.mem_cons_of_mem a hx) y (List.mem_cons_of_mem a hy))]
    intro b hb
    have hbl : b ∈ l := (perm_jsSort cmp l).mem_iff.mp hb
    exact hp a (List.mem_cons_self a l) b (List.mem_cons_of_mem a hbl)

theorem compareRecords_eq_zero (h : Host) (toLowerCase : String → String) (field : String)
    (ascending : Bool) (a b : Record)
    (ha : (parseDate h a.date.data).isSome = true ∧ a.amount.isFinite = true)
    (hb : (parseDate h b.date.data).isSome = true ∧ b.amount.isFinite = true) :
    compareRecords h toLowerCase field ascending a b = 0 ↔
      (KeyLe h toLowerCase field a b ∧ KeyLe h toLowerCase field b a) := by
  have hab := sortValue_lt_iff h toLowerCase field a b ha hb
  have hba := sortValue_lt_iff h toLowerCase field b a hb ha
  unfold compareRecords
  simp only
  by_cases h1 : (sortValue h toLowerCase field a).lt (sortValue h toLowerCase field b) = true
  · have n1 := hab.mp h1
    cases ascending <;> simp [h1, n1]
  · have n1 : KeyLe h toLowerCase field b a := by
      by_contra hc; exact h1 (hab.mpr hc)
    by_cases h2 : (sortValue h toLowerCase field b).lt (sortValue h toLowerCase field a) = true
    · have n2 := hba.mp h2
      cases ascending <;> simp [h1, h2, n1, n2]
    · have n2 : KeyLe h toLowerCase field a b := by
        by_contra hc; exact h2 (hba.mpr hc)
      cases ascending <;> simp [h1, h2, n1, n2]

theorem sortRecords_filter_same (h : Host) (toLowerCase : String → String) (field : String)
    (ascending : Bool) (l : List Record) (x : Record)
    (hl : ∀ r ∈ l, (parseDate h r.date.data).isSome = true ∧ r.amount.isFinite = true)
    (hx : (parseDate h x.date.data).isSome = true ∧ x.amount.isFinite = true) :
    (sortRecords h toLowerCase field ascending l).filter
        (fun r => decide (compareRecords h toLowerCase field true r x = 0))
      = l.filter (fun r => decide (compareRecords h toLowerCase field true r x = 0)) := by
  apply filter_jsSort_mem
  intro a ha b hb pa pb
  simp only [decide_eq_true_eq] at pa pb
  have ka := (compareRecords_eq_zero h toLowerCase field true a x (hl a ha) hx).mp pa
  have kb := (compareRecords_eq_zero h toLowerCase field true b x (hl b hb) hx).mp pb
  have kab := KeyLe_trans h toLowerCase field a x b ka.1 kb.2
  have kba := KeyLe_trans h toLowerCase field b x a kb.1 ka.2
  have h0 := (compareRecords_eq_zero h toLowerCase field ascending a b (hl a ha) (hl b hb)).mpr
    ⟨kab, kba⟩
  rw [h0]

/-- C16: on records of the data model (dates that parse, finite amounts),
`sortRecords` is stable in both directions: the records of any one key value
come in the result in the order they have in the input, and so do the records
that the comparator does not tell apart from a record of the list; the same
holds after an ascending pass followed by a descending pass.  On the amounts
30, 10, 20, 10 the two passes give 10, 10, 20, 30 and then 30, 20, 10, 10, the
two records of amount 10 keeping their order. -/
theorem sortRecords_stable :
    (∀ (h : Host) (toLowerCase : String → String) (field : String) (l : List Record),
      (∀ r ∈ l, (parseDate h r.date.data).isSome = true ∧ r.amount.isFinite = true) →
      (∀ v : SortValue,
        (∀ ascending : Bool,
          (sortRecords h toLowerCase field ascending l).filter
              (fun r => decide (sortValue h toLowerCase field r = v))
            = l.filter (fun r => decide (sortValue h toLowerCase field r = v))) ∧
        (sortRecords h toLowerCase field false (sortRecords h toLowerCase field true l)).filter
            (fun r => decide (sortValue h toLowerCase field r = v))
          = l.filter (fun r => decide (sortValue h toLowerCase field r = v))) ∧
      (∀ x ∈ l,
        (∀ ascending : Bool,
          (sortRecords h toLowerCase field ascending l).filter
              (fun r => decide (compareRecords h toLowerCase field true r x = 0))
            = l.filter (fun r => decide (compareRecords h toLowerCase field true r x = 0))) ∧
        (sortRecords h toLowerCase field false (sortRecords h toLowerCase field true l)).filter
            (fun r => decide (compareRecords h toLowerCase field true r x = 0))
          = l.filter (fun r => decide (compareRecords h toLowerCase field true r x = 0)))) ∧
    sortRecords ⟨0, 0, false⟩ (fun s => s) "amount" true
        [amountRecord "a" 30, amountRecord "b" 10, amountRecord "c" 20, amountRecord "d" 10]
      = [amountRecord "b" 10, amountRecord "d" 10, amountRecord "c" 20, amountRecord "a" 30] ∧
    sortRecords ⟨0, 0, false⟩ (fun s => s) "amount" false
        [amountRecord "b" 10, amountRecord "d" 10, amountRecord "c" 20, amountRecord "a" 30]
      = [amountRecord "a" 30, amountRecord "c" 20, amountRecord "b" 10, amountRecord "d" 10] := by
  refine ⟨?_, by decide, by decide⟩
  intro h toLowerCase field l hl
  have hsorted : ∀ r ∈ sortRecords h toLowerCase field true l,
      (parseDate h r.date.data).isSome = true ∧ r.amount.isFinite = true := by
    intro r hr
    exact hl r ((perm_jsSort _ l).mem_iff.mp hr)
  constructor
  · intro v
    have key : ∀ (ascending : Bool) (l1 : List Record),
        (sortRecords h toLowerCase field ascending l1).filter
            (fun r => decide (sortValue h toLowerCase field r = v))
          = l1.filter (fun r => decide (sortValue h toLowerCase field r = v)) := by
      intro ascending l1
      apply filter_jsSort
      intro a b ha hb
      simp only [decide_eq_true_eq] at ha hb
      simp only [compareRecords, ha, hb, SortValue.lt_self, Bool.false_eq_true, if_false,
        le_refl]
    exact ⟨fun ascending => key ascending l, by rw [key false, key true]⟩
  · intro x hx
    refine ⟨fun ascending =>
      sortRecords_filter_same h toLowerCase field ascending l x hl (hl x hx), ?_⟩
    rw [sortRecords_filter_same h toLowerCase field false _ x hsorted (hl x hx),
      sortRecords_filter_same h toLowerCase field true l x hl (hl x hx)]

/-- Witness of C16: the two records of amount 10 keep their order in a
descending sort of the amounts 30, 10, 20, 10. -/
theorem sortRecords_stable_witness :
    (sortRecords ⟨0, 0, false⟩ (fun s => s) "amount" false
        [amountRecord "a" 30, amountRecord "b" 10, amountRecord "c" 20,
          amountRecord "d" 10]).filter
      (fun r => decide (sortValue ⟨0, 0, false⟩ (fun s => s) "amount" r
        = .number (JSNumber.ofNat 10)))
    = [amountRecord "a" 30, amountRecord "b" 10, amountRecord "c" 20,
        amountRecord "d" 10].filter
      (fun r => decide (sortValue ⟨0, 0, false⟩ (fun s => s) "amount" r
        = .number (JSNumber.ofNat 10))) :=
  ((sortRecords_stable.1 ⟨0, 0, false⟩ (fun s => s) "amount"
    [amountRecord "a" 30, amountRecord "b" 10, amountRecord "c" 20, amountRecord "d" 10]
    (by decide)).1 (.number (JSNumber.ofNat 10))).1 false
/-! ## Aggregation -/

/-- C17 (the code at a failing input): the category `constructor`, a name of
letters only, is also a property that every object inherits; the running total
read under it is a function, the sum becomes a string, and `getTopCategory`
answers `None` for a collection whose only category it is.  On an empty
collection the answer is `None`, and on Food 30 then Books 30 it is Food. -/
theorem getTopCategory_inherited_key (numberToString : JSNumber → String)
    (inheritedText : String → String) :
    getTopCategory numberToString inheritedText [categoryRecord "constructor" 30 "2024-03-10"]
      = "None" ∧
    getTopCategory numberToString inheritedText
        [categoryRecord "Food" 10 "2024-03-10", categoryRecord "toString" 30 "2024-03-10"]
      = "Food" ∧
    getTopCategory numberToString inheritedText [] = "None" ∧
    getTopCategory numberToString inheritedText
        [categoryRecord "Food" 30 "2024-03-10", categoryRecord "Books" 30 "2024-03-10"]
      = "Food" := by
  refine ⟨?_, ?_, ?_, ?_⟩ <;> rfl

/-- C18 (the code at a failing input): for a collection whose only category is
`constructor` the entry holds a string, not the sum 30; for the category
`__proto__` there is no entry at all.  On Food 3, Books 30, Food 40 the entries
are Food 43 and Books 30. -/
theorem getCategoryTotals_inherited_key (numberToString : JSNumber → String)
    (inheritedText : String → String) :
    getCategoryTotals numberToString inheritedText
        [categoryRecord "constructor" 30 "2024-03-10"]
      = [("constructor",
          .text (inheritedText "constructor" ++ numberToString (JSNumber.ofNat 30)))] ∧
    getCategoryTotals numberToString inheritedText [categoryRecord "__proto__" 30 "2024-03-10"]
      = [] ∧
    getCategoryTotals numberToString inheritedText
        [categoryRecord "Food" 3 "2024-03-10", categoryRecord "Books" 30 "2024-03-10",
         categoryRecord "Food" 40 "2024-03-10"]
      = [("Food", .number (JSNumber.ofNat 43)), ("Books", .number (JSNumber.ofNat 30))] := by
  refine ⟨?_, ?_, ?_⟩ <;> rfl

/-- C19 (the code at a failing input): at noon UTC of 2024-03-10, five hours
west of UTC, the local date is 2024-03-10 and a record dated 2024-03-03, seven
days before, is left out of the total; in a UTC zone it is counted, and a
record dated eight days before is not. -/
theorem getLast7DaysTotal_west_of_utc :
    localToday ⟨1710072000000, -300, false⟩ = (2024, 3, 10) ∧
    getLast7DaysTotal ⟨1710072000000, -300, false⟩ [categoryRecord "Food" 5 "2024-03-03"]
      = JSNumber.zero ∧
    getLast7DaysTotal ⟨1710072000000, 0, false⟩
        [categoryRecord "Food" 5 "2024-03-03", categoryRecord "Food" 7 "2024-03-02"]
      = JSNumber.ofNat 5 := by
  decide

/-! ## Budget status -/

namespace JSNumber

theorem le_eq_not_lt (a b : JSNumber) (ha : a ≠ nan) (hb : b ≠ nan) : le a b = !lt b a := by
  cases a <;> cases b <;> first | rfl | exact absurd rfl ha | exact absurd rfl hb

theorem ne_nan_of_le_left (a b : JSNumber) (h : le a b = true) : a ≠ nan := by
  rintro rfl
  cases b <;> simp [le] at h

theorem ne_nan_of_le_right (a b : JSNumber) (h : le a b = true) : b ≠ nan := by
  rintro rfl
  cases a <;> simp [le] at h

theorem ne_nan_of_lt_right (a b : JSNumber) (h : lt a b = true) : b ≠ nan := by
  rintro rfl
  cases a <;> simp [lt] at h

end JSNumber

/-- C20: the budget status is disabled when the cap is at most zero; when the
cap is positive and the month total is a non-negative number, the status is
exceeded exactly when the total is above the cap, warning exactly when it is
not and the percentage `total / cap * 100` is at least 80, and ok otherwise;
the amount shown is `cap - total` (its absolute value when exceeded) and the
percentage is `total / cap * 100`, all in the arithmetic of numbers. -/
theorem capStatus_spec (total cap : JSNumber) :
    (JSNumber.le cap JSNumber.zero = true → capStatus total cap = .disabled) ∧
    (JSNumber.lt JSNumber.zero cap = true → JSNumber.le JSNumber.zero total = true →
      (JSNumber.gt total cap = true ∨
        (JSNumber.le total cap = true ∧
          JSNumber.ge (JSNumber.mul (JSNumber.div total cap) (JSNumber.ofNat 100))
            (JSNumber.ofNat 80) = true) ∨
        (JSNumber.le total cap = true ∧
          JSNumber.ge (JSNumber.mul (JSNumber.div total cap) (JSNumber.ofNat 100))
            (JSNumber.ofNat 80) = false)) ∧
      (JSNumber.gt total cap = true ↔
        capStatus total cap = .exceeded (JSNumber.abs (JSNumber.sub cap total))
          (JSNumber.mul (JSNumber.div total cap) (JSNumber.ofNat 100))) ∧
      ((JSNumber.le total cap = true ∧
          JSNumber.ge (JSNumber.mul (JSNumber.div total cap) (JSNumber.ofNat 100))
            (JSNumber.ofNat 80) = true) ↔
        capStatus total cap = .warning (JSNumber.sub cap total)
          (JSNumber.mul (JSNumber.div total cap) (JSNumber.ofNat 100))) ∧
      ((JSNumber.le total cap = true ∧
          JSNumber.ge (JSNumber.mul (JSNumber.div total cap) (JSNumber.ofNat 100))
            (JSNumber.ofNat 80) = false) ↔
        capStatus total cap = .ok (JSNumber.sub cap total) cap
          (JSNumber.mul (JSNumber.div total cap) (JSNumber.ofNat 100)))) := by
  constructor
  · intro h
    simp only [capStatus, h, if_true]
  · intro hcap htotal
    have hc : cap ≠ JSNumber.nan := JSNumber.ne_nan_of_lt_right _ _ hcap
    have ht : total ≠ JSNumber.nan := JSNumber.ne_nan_of_le_right _ _ htotal
    have hz : JSNumber.zero ≠ JSNumber.nan := by decide
    have hle0 : JSNumber.le cap JSNumber.zero = false := by
      rw [JSNumber.le_eq_not_lt cap JSNumber.zero hc hz, hcap]; rfl
    have hle : JSNumber.le total cap = !JSNumber.gt total cap :=
      JSNumber.le_eq_not_lt total cap ht hc
    unfold capStatus
    simp only [hle0, Bool.false_eq_true, if_false]
    cases hgt : JSNumber.gt total cap
    · rw [hgt] at hle
      simp only [Bool.not_false] at hle
      cases hge : JSNumber.ge (JSNumber.mul (JSNumber.div total cap) (JSNumber.ofNat 100))
          (JSNumber.ofNat 80)
      · simp [hle]
      · simp [hle]
    · rw [hgt] at hle
      simp only [Bool.not_true] at hle
      simp [hle]

/-- Witness of C20: a total of 8 under a cap of 10 gives the warning with 2
remaining and 80 percent. -/
theorem capStatus_spec_witness :
    capStatus (JSNumber.ofNat 8) (JSNumber.ofNat 10)
      = .warning (JSNumber.sub (JSNumber.ofNat 10) (JSNumber.ofNat 8))
          (JSNumber.mul (JSNumber.div (JSNumber.ofNat 8) (JSNumber.ofNat 10)) (JSNumber.ofNat 100)) ∧
    JSNumber.sub (JSNumber.ofNat 10) (JSNumber.ofNat 8) = JSNumber.ofNat 2 ∧
    JSNumber.mul (JSNumber.div (JSNumber.ofNat 8) (JSNumber.ofNat 10)) (JSNumber.ofNat 100)
      = JSNumber.ofNat 80 :=
  ⟨((capStatus_spec (JSNumber.ofNat 8) (JSNumber.ofNat 10)).2 (by decide) (by decide)).2.2.1.mp
      ⟨by decide, by decide⟩,
   by decide, by decide⟩

/-- The percentage is a rounded number: for the total 5.6 and the cap 7 the
quotient and the product are rounded, the percentage is 80 and the status is
the warning. -/
theorem capStatus_rounded_sample :
    capStatus (parseFloat "5.6".data) (JSNumber.ofNat 7)
      = .warning (JSNumber.sub (JSNumber.ofNat 7) (parseFloat "5.6".data)) (JSNumber.ofNat 80) := by
  decide

/-! ## Import and export -/

theorem checkRecords_first_offender (numberToString : JSNumber → String)
    (pre : List Json) (record : Json) (post : List Json) (i : Nat) (error : String)
    (hpre : ∀ (j : Nat) (hj : j < pre.length),
      checkRecord numberToString (i + j) (pre.get ⟨j, hj⟩) = .returned none)
    (hrec : checkRecord numberToString (i + pre.length) record = .returned (some error)) :
    checkRecords numberToString i (pre ++ record :: post) = .returned (some error) := by
  induction pre generalizing i with
  | nil =>
    simp only [List.nil_append, checkRecords]
    simp only [List.length_nil, Nat.add_zero] at hrec
    rw [hrec]
  | cons p pre ih =>
    have h0 := hpre 0 (by simp)
    simp only [Nat.add_zero, List.get_eq_getElem, List.getElem_cons_zero] at h0
    simp only [List.cons_append, checkRecords, h0]
    apply ih (i + 1)
    · intro j hj
      have := hpre (j + 1) (by simp; omega)
      simp only [List.get_eq_getElem, List.getElem_cons_succ] at this ⊢
      rw [show i + 1 + j = i + (j + 1) by omega]
      exact this
    · rw [show i + 1 + pre.length = i + (p :: pre).length by simp; omega]
      exact hrec

theorem checkRecords_first_thrown (numberToString : JSNumber → String)
    (pre : List Json) (record : Json) (post : List Json) (i : Nat)
    (hpre : ∀ (j : Nat) (hj : j < pre.length),
      checkRecord numberToString (i + j) (pre.get ⟨j, hj⟩) = .returned none)
    (hrec : checkRecord numberToString (i + pre.length) record = .thrown) :
    checkRecords numberToString i (pre ++ record :: post) = .thrown := by
  induction pre generalizing i with
  | nil =>
    simp only [List.nil_append, checkRecords]
    simp only [List.length_nil, Nat.add_zero] at hrec
    rw [hrec]
  | cons p pre ih =>
    have h0 := hpre 0 (by simp)
    simp only [Nat.add_zero, List.get_eq_getElem, List.getElem_cons_zero] at h0
    simp only [List.cons_append, checkRecords, h0]
    apply ih (i + 1)
    · intro j hj
      have := hpre (j + 1) (by simp; omega)
      simp only [List.get_eq_getElem, List.getElem_cons_succ] at this ⊢
      rw [show i + 1 + j = i + (j + 1) by omega]
      exact this
    · rw [show i + 1 + pre.length = i + (p :: pre).length by simp; omega]
      exact hrec

/-- C21 (the code at failing inputs, and what holds): a records array that holds
`null` makes `importData` throw, and so does a record whose date is the object
`{"toString": 1}`, which has no string conversion; a record whose date is an
array holding a date string is accepted and written to the store.  A date that
is the empty object is refused with a message, and so is a record without
category.  In general, when the records before the first offending one pass
their checks, `importData` returns the failure of that record and leaves the
store as it is if the check of that record fails with a message, and it throws,
the store again left as it is, if that check throws. -/
theorem importData_malformed (numberToString : JSNumber → String) (store : LocalStorage) :
    importData numberToString true true nullRecordDocument store = (.thrown, store) ∧
    importData numberToString true true objectDateDocument store = (.thrown, store) ∧
    (importData numberToString true true arrayDateDocument store).1
      = .returned (.success 1) ∧
    (importData numberToString true true arrayDateDocument store).2.data
      = getField arrayDateDocument "records" ∧
    importData numberToString true true emptyObjectDateDocument store
      = (.returned (.failure "Record 0 has invalid date"), store) ∧
    importData numberToString true true badSecondDocument store
      = (.returned (.failure "Record 1 missing valid category"), store) ∧
    (∀ (pre : List Json) (record : Json) (post : List Json) (rest : List (String × Json))
      (recordsOk settingsOk : Bool),
      (∀ (j : Nat) (hj : j < pre.length),
        checkRecord numberToString j (pre.get ⟨j, hj⟩) = .returned none) →
      (∀ error : String,
        checkRecord numberToString pre.length record = .returned (some error) →
        importData numberToString recordsOk settingsOk
            (.obj (rest ++ [("records", .arr (pre ++ record :: post))])) store
          = (.returned (.failure error), store)) ∧
      (checkRecord numberToString pre.length record = .thrown →
        importData numberToString recordsOk settingsOk
            (.obj (rest ++ [("records", .arr (pre ++ record :: post))])) store
          = (.thrown, store))) := by
  refine ⟨rfl, rfl, rfl, rfl, rfl, rfl, ?_⟩
  intro pre record post rest recordsOk settingsOk hpre
  have hget : getField (.obj (rest ++ [("records", .arr (pre ++ record :: post))])) "records"
      = some (.arr (pre ++ record :: post)) := by
    simp [getField]
  constructor
  · intro error hrec
    have hcheck := checkRecords_first_offender numberToString pre record post 0 error
      (fun j hj => by simpa using hpre j hj) (by simpa using hrec)
    simp only [importData, validateImportData, hget, hcheck]
  · intro hrec
    have hcheck := checkRecords_first_thrown numberToString pre record post 0
      (fun j hj => by simpa using hpre j hj) (by simpa using hrec)
    simp only [importData, validateImportData, hget, hcheck]

set_option maxRecDepth 100000 in
set_option exponentiation.threshold 5000 in
theorem hugeAmount_accepted :
    validateAllFields ⟨1710072000000, 0, false⟩ hugeForm
      = ⟨true, ⟨none, none, none, none⟩, some ⟨"Gift", .posInf, "Other", "2024-03-10"⟩⟩ := by
  decide

/-- C22 (the code at a failing input): an amount of 310 digits is accepted by
`validateAllFields` with the value `Infinity`; `addRecord` stores the record,
whose amount is written to the store as `null`; `importData(exportData())` then
returns the failure `Record 0 has invalid amount` instead of a success with
count 1. -/
theorem export_import_huge_amount (numberToString : JSNumber → String) (now : Int) :
    (validateAllFields ⟨1710072000000, 0, false⟩ hugeForm).valid = true ∧
    (validateAllFields ⟨1710072000000, 0, false⟩ hugeForm).values
      = some ⟨"Gift", .posInf, "Other", "2024-03-10"⟩ ∧
    addRecord ⟨1710072000000, 7, 1710072000000, 1710072000000⟩ true
        ⟨"Gift", .posInf, "Other", "2024-03-10"⟩ ⟨[], none⟩
      = (hugeRecord, ⟨[hugeRecord], some [hugeRecord]⟩) ∧
    getField (exportData now (storeOfRecords [hugeRecord] none)) "records"
      = some (.arr [.obj [("id", .str "txn_1710072000000_7"), ("description", .str "Gift"),
          ("amount", .null), ("category", .str "Other"), ("date", .str "2024-03-10"),
          ("createdAt", .str "2024-03-10T12:00:00.000Z"),
          ("updatedAt", .str "2024-03-10T12:00:00.000Z")]]) ∧
    importData numberToString true true (exportData now (storeOfRecords [hugeRecord] none))
        (storeOfRecords [hugeRecord] none)
      = (.returned (.failure "Record 0 has invalid amount"), storeOfRecords [hugeRecord] none) := by
  refine ⟨?_, ?_, by decide, rfl, rfl⟩
  · rw [hugeAmount_accepted]
  · rw [hugeAmount_accepted]

theorem stored_toJson (r : Record)
    (h : r.amount = JSNumber.zero ∨
      (r.amount.isFinite = true ∧ r.amount.isPositive = true)) :
    Json.stored r.toJson = r.toJson := by
  rcases h with h | ⟨hf, h⟩
  · simp [Record.toJson, Json.stored, Json.storedFields, h, JSNumber.zero]
  · cases hx : r.amount with
    | finite neg m e =>
      rw [hx] at h
      have hm : m ≠ 0 := by
        intro h0
        simp [JSNumber.isPositive, h0] at h
      simp [Record.toJson, Json.stored, Json.storedFields, hx, hm]
    | posInf => rw [hx] at hf; simp [JSNumber.isFinite] at hf
    | negInf => rw [hx] at hf; simp [JSNumber.isFinite] at hf
    | nan => rw [hx] at hf; simp [JSNumber.isFinite] at hf

theorem storedList_toJson (rs : List Record)
    (h : ∀ r ∈ rs, r.amount = JSNumber.zero ∨
      (r.amount.isFinite = true ∧ r.amount.isPositive = true)) :
    Json.storedList (rs.map Record.toJson) = rs.map Record.toJson := by
  induction rs with
  | nil => rfl
  | cons r rs ih =>
    simp only [List.map_cons, Json.storedList]
    rw [stored_toJson r (h r (List.mem_cons_self r rs)),
      ih (fun x hx => h x (List.mem_cons_of_mem r hx))]

/-- A record in the shape that `validateImportData` asks for. -/
theorem checkRecord_toJson (numberToString : JSNumber → String) (i : Nat) (r : Record)
    (hid : r.id ≠ "") (hdesc : r.description ≠ "") (hcat : r.category ≠ "")
    (hamt : JSNumber.lt r.amount JSNumber.zero = false)
    (hdate : r.date ≠ "" ∧ dateRegex.test r.date.data = true) :
    checkRecord numberToString i r.toJson = .returned none := by
  simp [checkRecord, Record.toJson, getField, truthy, isString, isValidDateFormat, Json.toText,
    hid, hdesc, hcat, hamt, hdate.1, hdate.2]

theorem checkRecords_toJson (numberToString : JSNumber → String) (i : Nat) (rs : List Record)
    (h : ∀ r ∈ rs, r.id ≠ "" ∧ r.description ≠ "" ∧ r.category ≠ "" ∧
      JSNumber.lt r.amount JSNumber.zero = false ∧ r.date ≠ "" ∧
      dateRegex.test r.date.data = true) :
    checkRecords numberToString i (rs.map Record.toJson) = .returned none := by
  induction rs generalizing i with
  | nil => rfl
  | cons r rs ih =>
    obtain ⟨h1, h2, h3, h4, h5, h6⟩ := h r (List.mem_cons_self r rs)
    simp only [List.map_cons, checkRecords,
      checkRecord_toJson numberToString i r h1 h2 h3 h4 ⟨h5, h6⟩]
    exact ih (i + 1) (fun x hx => h x (List.mem_cons_of_mem r hx))

theorem saveSettings_data (ok : Bool) (settings : Json) (store : LocalStorage) :
    (saveSettings ok settings store).data = store.data := by
  unfold saveSettings
  split <;> rfl

theorem loadRecords_congr (s1 s2 : LocalStorage) (h : s1.data = s2.data) :
    loadRecords s1 = loadRecords s2 := by
  unfold loadRecords
  rw [h]

theorem settings_step_data (ok : Bool) (gs : Option Json) (store : LocalStorage) :
    (if truthy gs = true then
        (match gs with
          | some settings => saveSettings ok settings store
          | none => store)
      else store).data = store.data := by
  split_ifs
  · cases gs with
    | none => rfl
    | some s => exact saveSettings_data ok s store
  · rfl

/-- The round trip of export and import on a store whose records have the
shape of the data model and amounts that are zero or positive and finite:
`importData(exportData())` returns success with the number of records, and
`loadRecords()` gives the same collection afterwards, whether the writes
succeed or not. -/
theorem export_import_finite (numberToString : JSNumber → String) (now : Int)
    (rs : List Record) (settings : Option Json) (recordsOk settingsOk : Bool)
    (h : ∀ r ∈ rs, r.id ≠ "" ∧ r.description ≠ "" ∧ r.category ≠ "" ∧
      JSNumber.lt r.amount JSNumber.zero = false ∧ r.date ≠ "" ∧
      dateRegex.test r.date.data = true)
    (hfin : ∀ r ∈ rs, r.amount = JSNumber.zero ∨
      (r.amount.isFinite = true ∧ r.amount.isPositive = true)) :
    (importData numberToString recordsOk settingsOk
        (exportData now (storeOfRecords rs settings)) (storeOfRecords rs settings)).1
      = .returned (.success rs.length) ∧
    loadRecords (importData numberToString recordsOk settingsOk
        (exportData now (storeOfRecords rs settings)) (storeOfRecords rs settings)).2
      = loadRecords (storeOfRecords rs settings) ∧
    loadRecords (storeOfRecords rs settings) = .arr (rs.map Record.toJson) := by
  have hstore : storeOfRecords rs settings = ⟨some (.arr (rs.map Record.toJson)), settings⟩ := by
    simp only [storeOfRecords, Json.stored, storedList_toJson rs hfin]
  have hrec : getField (exportData now ⟨some (.arr (rs.map Record.toJson)), settings⟩) "records"
      = some (.arr (rs.map Record.toJson)) := by
    simp [exportData, getField, loadRecords]
  have hcheck := checkRecords_toJson numberToString 0 rs h
  rw [hstore]
  have hval : validateImportData numberToString
      (exportData now ⟨some (.arr (rs.map Record.toJson)), settings⟩) = .returned none := by
    have hobj : exportData now ⟨some (.arr (rs.map Record.toJson)), settings⟩
        = .obj [("records", .arr (rs.map Record.toJson)),
            ("settings", loadSettings ⟨some (.arr (rs.map Record.toJson)), settings⟩),
            ("exportDate", .str (toISOString now)), ("version", .str "1.0")] := rfl
    rw [hobj] at hrec ⊢
    simp only [validateImportData, hrec, hcheck]
  have hsave : (saveRecordsJson recordsOk (.arr (rs.map Record.toJson))
      ⟨some (.arr (rs.map Record.toJson)), settings⟩).data
        = some (.arr (rs.map Record.toJson)) := by
    cases recordsOk
    · rfl
    · simp only [saveRecordsJson, if_true, Json.stored, storedList_toJson rs hfin]
  simp only [importData, hval, hrec, List.length_map]
  refine ⟨trivial, ?_, rfl⟩
  apply loadRecords_congr
  rw [settings_step_data, hsave]

/-- The round trip holds on the sample store of two records. -/
theorem export_import_finite_sample :
    (importData (fun _ => "") true true (exportData 0 (storeOfRecords [teaRecord, busRecord] none))
        (storeOfRecords [teaRecord, busRecord] none)).1
      = .returned (.success 2) :=
  (export_import_finite (fun _ => "") 0 [teaRecord, busRecord] none true true
    (by decide) (by decide)).1

end FinanceTracker
